import Mathlib

/-!
# Sudoku solver (`controllers/sudoku-solver.js`) and its routes (`routes/api.js`)

A shallow embedding of the `SudokuSolver` class: `validate`, the three placement
checkers and `solve` with its recursive closure `solvePuzzle`; of the handlers of
`POST /api/check` and `POST /api/solve`; and of the issue tracker handlers on
`/api/issues/:project`, followed by the properties proved about them.

A JavaScript string is modelled by its sequence of UTF-16 code units, which is what
`.length`, indexing `s[i]`, `split('')` and a regular expression without the `u`
flag all operate on.
-/

namespace Sudoku

/-- A JavaScript string: the list of its UTF-16 code units. -/
abbrev JSString := List Nat

/-- The JavaScript string written by an ASCII literal. -/
def lit (s : String) : JSString := s.toList.map Char.toNat

/-- Result of `validate`: the value `true` or one of its message strings. -/
inductive ValidateResult where
  | valid
  | error (message : String)
  deriving DecidableEq

/-- The regular expression `/^[1-9.]*$/` (no flags, so `^` and `$` are the two ends of
the input): every code unit is one of `1`..`9` (49..57) or `.` (46). -/
def validChars (s : JSString) : Bool :=
  s.all fun c => (decide (49 ≤ c) && decide (c ≤ 57)) || decide (c = 46)

/-- `validate(puzzleString)`; `none` is an absent argument (`undefined`), and
`!puzzleString` holds for `undefined` and for the empty string. -/
def validate (puzzleString : Option JSString) : ValidateResult :=
  match puzzleString with
  | none => .error "Required field missing"
  | some [] => .error "Required field missing"
  | some s =>
    if s.length ≠ 81 then .error "Expected puzzle to be 81 characters long"
    else if !validChars s then .error "Invalid characters in puzzle"
    else .valid

/-- `puzzleString[index]`: a one-unit string, or `undefined` (`none`) out of range. -/
def charAt (s : JSString) (index : Nat) : Option JSString :=
  s[index]?.map fun c => [c]

/-- `checkRowPlacement(puzzleString, row, column, value)` for a string `value`
(`value.toString()` is then `value`); the loop returns `false` at the first hit. -/
def checkRowPlacement (puzzleString : JSString) (row column : Nat) (value : JSString) : Bool :=
  (List.range 9).all fun col =>
    !(decide (col ≠ column) && decide (charAt puzzleString (row * 9 + col) = some value))

/-- `checkColPlacement(puzzleString, row, column, value)`. -/
def checkColPlacement (puzzleString : JSString) (row column : Nat) (value : JSString) : Bool :=
  (List.range 9).all fun r =>
    !(decide (r ≠ row) && decide (charAt puzzleString (r * 9 + column) = some value))

/-- `checkRegionPlacement(puzzleString, row, column, value)`. -/
def checkRegionPlacement (puzzleString : JSString) (row column : Nat) (value : JSString) : Bool :=
  let regionStartRow := row / 3 * 3
  let regionStartCol := column / 3 * 3
  (List.range' regionStartRow 3).all fun r =>
    (List.range' regionStartCol 3).all fun c =>
      !(decide (r ≠ row ∨ c ≠ column) && decide (charAt puzzleString (r * 9 + c) = some value))

/-- `num.toString()` for a natural number. -/
def numToString (num : Nat) : JSString := (Nat.toDigits 10 num).map Char.toNat

/-- `puzzleString.split('')`: the array of one-unit strings. -/
def split (s : JSString) : List JSString := s.map fun c => [c]

/-- `puzzle.join('')`. -/
def join (puzzle : List JSString) : JSString := puzzle.flatten

/-- What a call of `solve` does: `return false`, `return` a string, or a `TypeError`. -/
inductive Outcome where
  | returnsFalse
  | returns (s : JSString)
  | throws
  deriving DecidableEq

/-- The loop `for (num = 1; num <= 9; num++)` of `solvePuzzle` at the empty cell `i`,
over the values still to try; `recur` is the recursive call `solvePuzzle()`. The working
array `puzzle` is threaded through, the result is the returned boolean with the array as
the call leaves it. -/
def tryNumbers (recur : List JSString → Option (Bool × List JSString)) (i : Nat) :
    List Nat → List JSString → Option (Bool × List JSString)
  | [], puzzle => some (false, puzzle)
  | num :: rest, puzzle =>
    let row := i / 9
    let col := i % 9
    let numStr := numToString num
    if checkRowPlacement (join puzzle) row col numStr &&
        checkColPlacement (join puzzle) row col numStr &&
        checkRegionPlacement (join puzzle) row col numStr then
      match recur (puzzle.set i numStr) with
      | none => none
      | some (true, puzzle1) => some (true, puzzle1)
      | some (false, puzzle1) => tryNumbers recur i rest (puzzle1.set i (lit "."))
    else tryNumbers recur i rest puzzle

/-- The closure `solvePuzzle` acting on the array `puzzle`; `fuel` bounds the depth of
the recursion and `none` means the bound was reached. -/
def solvePuzzle : Nat → List JSString → Option (Bool × List JSString)
  | 0, _ => none
  | fuel + 1, puzzle =>
    match (List.range 81).find? fun i => decide (puzzle[i]? = some (lit ".")) with
    | some i => tryNumbers (solvePuzzle fuel) i [1, 2, 3, 4, 5, 6, 7, 8, 9] puzzle
    | none => some (true, puzzle)

/-- The loop "check if the initial puzzle is valid" of `solve` over the indices still to
visit: `.error` is an exit from `solve` (`return false`, or the `TypeError` of
`value.toString()` when `puzzle[i]` is `undefined`), `.ok` the array after the loop. -/
def initialCheck : List Nat → List JSString → Except Outcome (List JSString)
  | [], puzzle => .ok puzzle
  | i :: rest, puzzle =>
    if puzzle[i]? ≠ some (lit ".") then
      match puzzle[i]? with
      | none => .error .throws
      | some value =>
        let row := i / 9
        let col := i % 9
        let puzzle1 := puzzle.set i (lit ".")
        if !checkRowPlacement (join puzzle1) row col value ||
            !checkColPlacement (join puzzle1) row col value ||
            !checkRegionPlacement (join puzzle1) row col value then
          .error .returnsFalse
        else initialCheck rest (puzzle1.set i value)
    else initialCheck rest puzzle

/-- `solve(puzzleString)`. The recursion of `solvePuzzle` is run with fuel 82, one more
than the number of cells; `none` means that this was not enough. -/
def solve (puzzleString : Option JSString) : Option Outcome :=
  match validate puzzleString, puzzleString with
  | .valid, some s =>
    match initialCheck (List.range 81) (split s) with
    | .error o => some o
    | .ok puzzle =>
      match solvePuzzle 82 puzzle with
      | none => none
      | some (true, puzzle1) => some (.returns (join puzzle1))
      | some (false, _) => some .returnsFalse
  | .valid, none => some .throws
  | _, _ => some .returnsFalse

/-! ## Vocabulary of the properties -/

/-- The code unit `c` is one of the digits `1`..`9`. -/
def IsDigit (c : Nat) : Prop := 49 ≤ c ∧ c ≤ 57

/-- The code unit `c` is a digit `1`..`9` or the empty marker `.`. -/
def IsCell (c : Nat) : Prop := IsDigit c ∨ c = 46

instance (c : Nat) : Decidable (IsDigit c) := by unfold IsDigit; infer_instance

instance (c : Nat) : Decidable (IsCell c) := by unfold IsCell; infer_instance

/-- A well-formed puzzle string: 81 code units, each a digit `1`..`9` or `.`. -/
def WellFormed (s : JSString) : Prop := s.length = 81 ∧ ∀ c ∈ s, IsCell c

/-! ## The working array as code units

Every entry of the array `puzzle` is a one-unit string: `split('')` produces such
entries and the assignments store `numStr`, `'.'` or an entry read before. The
definitions below are `solvePuzzle` and the initial check acting on the list of those
units; `solvePuzzle_split` and `initialCheck_split` relate them to the embedding. -/

/-- The scan of `checkRowPlacement` on code units, for the unit `v`. -/
def rowFree (cells : List Nat) (row column v : Nat) : Bool :=
  (List.range 9).all fun col =>
    !(decide (col ≠ column) && decide (cells[row * 9 + col]? = some v))

/-- The scan of `checkColPlacement` on code units. -/
def colFree (cells : List Nat) (row column v : Nat) : Bool :=
  (List.range 9).all fun r =>
    !(decide (r ≠ row) && decide (cells[r * 9 + column]? = some v))

/-- The scan of `checkRegionPlacement` on code units. -/
def regionFree (cells : List Nat) (row column v : Nat) : Bool :=
  (List.range' (row / 3 * 3) 3).all fun r =>
    (List.range' (column / 3 * 3) 3).all fun c =>
      !(decide (r ≠ row ∨ c ≠ column) && decide (cells[r * 9 + c]? = some v))

/-- The three checks of `solve` for the unit `v` at the cell of linear index `i`. -/
def placeable (cells : List Nat) (i v : Nat) : Bool :=
  rowFree cells (i / 9) (i % 9) v && colFree cells (i / 9) (i % 9) v &&
    regionFree cells (i / 9) (i % 9) v

/-- The loop of `tryNumbers` on code units; the digit `num` is the unit `48 + num`. -/
def tryCells (recur : List Nat → Option (Bool × List Nat)) (i : Nat) :
    List Nat → List Nat → Option (Bool × List Nat)
  | [], cells => some (false, cells)
  | num :: rest, cells =>
    if placeable cells i (48 + num) then
      match recur (cells.set i (48 + num)) with
      | none => none
      | some (true, cells1) => some (true, cells1)
      | some (false, cells1) => tryCells recur i rest (cells1.set i 46)
    else tryCells recur i rest cells

/-- The recursion of `solvePuzzle` on code units. -/
def searchCells : Nat → List Nat → Option (Bool × List Nat)
  | 0, _ => none
  | fuel + 1, cells =>
    match (List.range 81).find? fun i => decide (cells[i]? = some 46) with
    | some i => tryCells (searchCells fuel) i [1, 2, 3, 4, 5, 6, 7, 8, 9] cells
    | none => some (true, cells)

/-- The loop of `initialCheck` on code units. -/
def precheckCells : List Nat → List Nat → Except Outcome (List Nat)
  | [], cells => .ok cells
  | i :: rest, cells =>
    if cells[i]? ≠ some 46 then
      match cells[i]? with
      | none => .error .throws
      | some v =>
        if !placeable (cells.set i 46) i v then .error .returnsFalse
        else precheckCells rest ((cells.set i 46).set i v)
    else precheckCells rest cells

/-- The array of one-unit strings back from a result of the search on code units. -/
def liftSearch (r : Option (Bool × List Nat)) : Option (Bool × List JSString) :=
  r.map fun x => (x.1, split x.2)

/-- The array of one-unit strings back from a result of the check on code units. -/
def liftCheck (r : Except Outcome (List Nat)) : Except Outcome (List JSString) :=
  match r with
  | .ok cells => .ok (split cells)
  | .error o => .error o

/-- The cells of linear indices `i` and `j` lie in a common row, column or 3x3 region. -/
def SameUnit (i j : Nat) : Prop :=
  i / 9 = j / 9 ∨ i % 9 = j % 9 ∨ (i / 9 / 3 = j / 9 / 3 ∧ i % 9 / 3 = j % 9 / 3)

instance (i j : Nat) : Decidable (SameUnit i j) := by unfold SameUnit; infer_instance

/-- No row, column or 3x3 region of `s` holds the same symbol in two different filled
cells (a cell holding `.` is empty). -/
def NoRepeat (s : JSString) : Prop :=
  ∀ i j v, i < 81 → j < 81 → i ≠ j → SameUnit i j → s[i]? = some v → s[j]? = some v → v = 46

/-- The unit `v` occurs in no cell other than `i` of the row, column and region of `i`. -/
def FreeAt (s : JSString) (i v : Nat) : Prop :=
  ∀ j, j < 81 → j ≠ i → SameUnit i j → s[j]? ≠ some v

/-- The grid `t` is a valid completion of the puzzle `g`: 81 digits `1`..`9`, equal to `g`
on every cell of `g` that is not empty, with no digit repeated in a row, column or
region. -/
def Completion (g t : JSString) : Prop :=
  t.length = 81 ∧ (∀ c ∈ t, IsDigit c) ∧ (∀ i, i < 81 → g[i]? ≠ some 46 → t[i]? = g[i]?) ∧
    NoRepeat t

/-- Lexicographic order of strings of equal length: `s` is `t`, or at the first position
where they differ `s` holds the smaller code unit. -/
def LexLe (s t : JSString) : Prop :=
  s = t ∨ ∃ (k a b : Nat), (∀ j, j < k → s[j]? = t[j]?) ∧ s[k]? = some a ∧ t[k]? = some b ∧ a < b

/-- The nine cells of row `r`, left to right. -/
def rowCells (s : JSString) (r : Nat) : List (Option Nat) :=
  (List.range 9).map fun c => s[r * 9 + c]?

/-- The nine cells of column `c`, top to bottom. -/
def colCells (s : JSString) (c : Nat) : List (Option Nat) :=
  (List.range 9).map fun r => s[r * 9 + c]?

/-- The nine cells of the 3x3 region number `b` (regions numbered row by row). -/
def regionCells (s : JSString) (b : Nat) : List (Option Nat) :=
  (List.range 9).map fun k => s[(b / 3 * 3 + k / 3) * 9 + (b % 3 * 3 + k % 3)]?

/-- The grid `s` is a filling of the working grid `cells`: same length, equal to `cells`
on its filled cells, no empty cell among the first 81, and well-formedness and absence
of repeats carried over from `cells`. -/
def Fills (cells s : List Nat) : Prop :=
  s.length = cells.length ∧ (∀ j : Nat, cells[j]? ≠ some 46 → s[j]? = cells[j]?) ∧
    (∀ j : Nat, j < 81 → s[j]? ≠ some 46) ∧ ((∀ c ∈ cells, IsCell c) → ∀ c ∈ s, IsCell c) ∧
    (NoRepeat cells → NoRepeat s)

/-! ## The three scans over a hit test, and a packed grid

`rowScan`, `colScan` and `regionScan` are the loops of the three checkers with the
comparison `puzzleString[index] === value` abstracted as `hit index`. The packed grid
holds the 81 code units in one number, base 256, and is used to evaluate the search on
concrete puzzles. -/

/-- The loop of `checkRowPlacement` over a hit test. -/
def rowScan (hit : Nat → Bool) (row column : Nat) : Bool :=
  (List.range 9).all fun col => !(decide (col ≠ column) && hit (row * 9 + col))

/-- The loop of `checkColPlacement` over a hit test. -/
def colScan (hit : Nat → Bool) (row column : Nat) : Bool :=
  (List.range 9).all fun r => !(decide (r ≠ row) && hit (r * 9 + column))

/-- The loops of `checkRegionPlacement` over a hit test. -/
def regionScan (hit : Nat → Bool) (row column : Nat) : Bool :=
  (List.range' (row / 3 * 3) 3).all fun r =>
    (List.range' (column / 3 * 3) 3).all fun c =>
      !(decide (r ≠ row ∨ c ≠ column) && hit (r * 9 + c))

/-- The three scans at the cell of linear index `i`. -/
def unitScan (hit : Nat → Bool) (i : Nat) : Bool :=
  rowScan hit (i / 9) (i % 9) && colScan hit (i / 9) (i % 9) && regionScan hit (i / 9) (i % 9)

/-- The grid packed in one number: cell `k` is the digit of weight `256 ^ k`. -/
def pack : List Nat → Nat
  | [] => 0
  | c :: cs => c + 256 * pack cs

/-- Cell `idx` of a packed grid. -/
def cellOf (n idx : Nat) : Nat := n / 256 ^ idx % 256

/-- The packed grid with cell `idx` replaced by `v`. -/
def setCell (n idx v : Nat) : Nat := n - cellOf n idx * 256 ^ idx + v * 256 ^ idx

/-- The 81 cells of a packed grid. -/
def unpack (n : Nat) : List Nat := (List.range 81).map (cellOf n)

/-- The three checks on a packed grid. -/
def placeablePacked (n i v : Nat) : Bool := unitScan (fun idx => cellOf n idx == v) i

/-- The loop of `tryCells` on a packed grid. -/
def tryPacked (recur : Nat → Option (Bool × Nat)) (i : Nat) :
    List Nat → Nat → Option (Bool × Nat)
  | [], n => some (false, n)
  | num :: rest, n =>
    if placeablePacked n i (48 + num) then
      match recur (setCell n i (48 + num)) with
      | none => none
      | some (true, n1) => some (true, n1)
      | some (false, n1) => tryPacked recur i rest (setCell n1 i 46)
    else tryPacked recur i rest n

/-- The recursion of `searchCells` on a packed grid. -/
def searchPacked : Nat → Nat → Option (Bool × Nat)
  | 0, _ => none
  | fuel + 1, n =>
    match (List.range 81).find? fun i => cellOf n i == 46 with
    | some i => tryPacked (searchPacked fuel) i [1, 2, 3, 4, 5, 6, 7, 8, 9] n
    | none => some (true, n)

/-- The test of `NoRepeat` on a packed grid: every filled cell passes the three checks. -/
def noRepeatPacked (n : Nat) : Bool :=
  (List.range 81).all fun i => cellOf n i == 46 || placeablePacked n i (cellOf n i)

/-- The result of the packed search with its grid unpacked. -/
def searchUnpacked (fuel : Nat) (g : List Nat) : Option (Bool × List Nat) :=
  (searchPacked fuel (pack g)).map fun r => (r.1, unpack r.2)

/-- The puzzle of the unit tests (`validPuzzle`, the example of the specification). -/
def validPuzzle : JSString :=
  lit "1.5..2.84..63.12.7.2..5.....9..1....8.2.3674.3.7.2..9.47...8..1..16....926914.37."

/-- The solution of `validPuzzle` stated in the unit tests (`solvedPuzzle`). -/
def solvedPuzzle : JSString :=
  lit "135762984946381257728459613694517832812936745357824196473298561581673429269145378"

instance (s : JSString) : Decidable (WellFormed s) := by unfold WellFormed; infer_instance

/-- The puzzle `invalidPuzzle` of the unit tests: two `1`s in the first row. -/
def invalidPuzzle : JSString :=
  lit "115..2.84..63.12.7.2..5.....9..1....8.2.3674.3.7.2..9.47...8..1..16....926914.37."

/-- The puzzle `invalidCharPuzzle` of the unit tests: 81 characters, one of them `X`. -/
def invalidCharPuzzle : JSString :=
  lit "1.5..2.84..63.12.7.2..5.....9..1....8.2.3674.3.7.2..9.47...8..1..16....926914.3X."

/-- The puzzle `shortPuzzle` of the unit tests: 79 characters. -/
def shortPuzzle : JSString :=
  lit "1.5..2.84..63.12.7.2..5.....9..1....8.2.3674.3.7.2..9.47...8..1..16....926914.3"

/-! ## The Sudoku routes of `routes/api.js`

A field of a request body is modelled as absent (`none`) or a string. -/

/-- `!x` for a body field: true when the field is absent (`undefined`) and when it is the
empty string. -/
def falsy (x : Option JSString) : Bool :=
  match x with
  | none => true
  | some [] => true
  | some _ => false

/-- `regexValue = /^[1-9]$/`: exactly one code unit, a digit `1`..`9`. -/
def regexValue (s : JSString) : Bool :=
  match s with
  | [c] => decide (49 ≤ c) && decide (c ≤ 57)
  | _ => false

/-- `regexCoordinate = /^[A-I][1-9]$/`: exactly two code units, a letter `A`..`I` (65..73)
followed by a digit `1`..`9`. -/
def regexCoordinate (s : JSString) : Bool :=
  match s with
  | [a, d] => decide (65 ≤ a) && decide (a ≤ 73) && decide (49 ≤ d) && decide (d ≤ 57)
  | _ => false

/-- The body of `POST /api/check`: `{ coordinate, value, puzzle } = req.body`. -/
structure CheckBody where
  puzzle : Option JSString
  coordinate : Option JSString
  value : Option JSString
  deriving DecidableEq

/-- The JSON answer of `POST /api/check`: `{ error }`, `{ valid: true }` or
`{ valid: false, conflict }`. -/
inductive CheckResponse where
  | error (message : String)
  | valid
  | conflict (conflicts : List String)
  deriving DecidableEq

/-- `coordinate.charCodeAt(0) - 65` for a coordinate that passed `regexCoordinate`: its
first code unit is then in 65..73 and the subtraction is exact. -/
def rowOfCoordinate (coordinate : JSString) : Nat := coordinate.getD 0 0 - 65

/-- `parseInt(coordinate[1]) - 1` for a coordinate that passed `regexCoordinate`: its
second code unit is then a digit `1`..`9`, of value the code unit minus 48. -/
def colOfCoordinate (coordinate : JSString) : Nat := coordinate.getD 1 0 - 48 - 1

/-- The array `conflicts` after the three `push`es of `POST /api/check`, from the results
of the three checker calls. -/
def conflictsOf (rowOk colOk regionOk : Bool) : List String :=
  let conflicts := []
  let conflicts := if !rowOk then conflicts ++ ["row"] else conflicts
  let conflicts := if !colOk then conflicts ++ ["column"] else conflicts
  if !regionOk then conflicts ++ ["region"] else conflicts

/-- The handler of `POST /api/check`. -/
def postCheck (body : CheckBody) : CheckResponse :=
  if falsy body.puzzle || falsy body.coordinate || falsy body.value then
    .error "Required field(s) missing"
  else
    match body.puzzle, body.coordinate, body.value with
    | some puzzle, some coordinate, some value =>
      if !regexValue value then .error "Invalid value"
      else if !regexCoordinate coordinate then .error "Invalid coordinate"
      else
        match validate (some puzzle) with
        | .error message => .error message
        | .valid =>
          let row := rowOfCoordinate coordinate
          let col := colOfCoordinate coordinate
          let conflicts := conflictsOf (checkRowPlacement puzzle row col value)
            (checkColPlacement puzzle row col value) (checkRegionPlacement puzzle row col value)
          if conflicts.length > 0 then .conflict conflicts else .valid
    | _, _, _ => .error "Required field(s) missing"

/-- The JSON answer of `POST /api/solve`: `{ error }` or `{ solution }`; `uncaught` stands
for an exception leaving the handler. -/
inductive SolveResponse where
  | error (message : String)
  | solution (s : JSString)
  | uncaught
  deriving DecidableEq

/-- The handler of `POST /api/solve` on `puzzle = req.body.puzzle`; `none` is `none` of
`solve`. The test `!solution` holds for `false` and for the empty string. -/
def postSolve (puzzle : Option JSString) : Option SolveResponse :=
  if falsy puzzle then some (.error "Required field missing")
  else
    match validate puzzle with
    | .error message => some (.error message)
    | .valid =>
      match solve puzzle with
      | none => none
      | some .throws => some .uncaught
      | some .returnsFalse => some (.error "Puzzle cannot be solved")
      | some (.returns s) =>
        if s = [] then some (.error "Puzzle cannot be solved") else some (.solution s)

/-- The field is missing: absent, or the empty string (what the handlers test with `!`). -/
def Missing (x : Option JSString) : Prop := x = none ∨ x = some []

/-- The string matches `[1-9]`: one digit `1`..`9`. -/
def MatchesValue (s : JSString) : Prop := ∃ d, IsDigit d ∧ s = [d]

/-- The string matches `[A-I][1-9]`: a letter `A`..`I` followed by a digit `1`..`9`. -/
def MatchesCoordinate (s : JSString) : Prop :=
  ∃ a d, (65 ≤ a ∧ a ≤ 73) ∧ IsDigit d ∧ s = [a, d]

/-! ## The issue tracker routes of `routes/api.js`

The module-level object `issues` is threaded through the handlers as a store. It is created
by `let issues = {}` and every issue by an object literal, so both inherit the members of
`Object.prototype`; the lookups `issues[project]` and `issue[key]` find an own property
first and an inherited member otherwise. A text field of a body or of a query is absent or
a string; the field `open` of a `PUT` body may also be a boolean, as in the functional
tests. The clock (`new Date()`), `String.prototype.toLowerCase` and `Object.prototype`
belong to the runtime and are parameters of the handlers. -/

/-- An issue record of the store; `isOpen` is its field `open`. -/
structure Issue where
  _id : JSString
  issue_title : JSString
  issue_text : JSString
  created_by : JSString
  assigned_to : JSString
  status_text : JSString
  created_on : JSString
  updated_on : JSString
  isOpen : Bool
  deriving DecidableEq

/-- The members that an object literal inherits from `Object.prototype`: `none` for a name
that is not a member, and for a member the string that `toString()` gives on it. Every
member is a function, or for `__proto__` the object `Object.prototype` itself: it is
truthy, it is not an array and it has no method `filter`, `push` or `findIndex`. -/
abbrev Prototype := String → Option JSString

/-- The text of a built-in function, as `toString()` gives it in Node.js. -/
def nativeFunction (name : String) : JSString :=
  lit ("function " ++ name ++ "() \x7b [native code] \x7d")

/-- `Object.prototype` in Node.js: `constructor` is the function `Object`, `__proto__` gives
the object `Object.prototype`, whose `toString()` is `[object Object]`, and the other
members are the built-in methods of their names. -/
def objectPrototype : Prototype := fun name =>
  if name = "constructor" then some (nativeFunction "Object")
  else if name = "__proto__" then some (lit "[object Object]")
  else if name ∈ ["toString", "toLocaleString", "valueOf", "hasOwnProperty", "isPrototypeOf",
      "propertyIsEnumerable", "__defineGetter__", "__defineSetter__", "__lookupGetter__",
      "__lookupSetter__"] then some (nativeFunction name)
  else none

/-- The own properties of the object `issues`: the array stored under a project name, or
`none` when `issues` has no own property of that name. -/
abbrev Store := String → Option (List Issue)

/-- A value of the expression `issues[project]`: the array of an own property, a member
inherited from `Object.prototype`, or `undefined`. -/
inductive ProjectValue where
  | array (list : List Issue)
  | inherited
  | undefined
  deriving DecidableEq

/-- The expression `issues[project]`: the own property when there is one, otherwise the
member of that name inherited from `Object.prototype`, otherwise `undefined`. -/
def Store.lookup (proto : Prototype) (store : Store) (project : String) : ProjectValue :=
  match store project with
  | some list => .array list
  | none => if (proto project).isSome then .inherited else .undefined

/-- The store after the assignment `issues[project] = list`, and after a change made in
place to the array that `issues[project]` holds. -/
def Store.put (store : Store) (project : String) (list : List Issue) : Store :=
  fun p => if p = project then some list else store p

/-- The store after `if (!issues[project]) issues[project] = []`: only `undefined` is
falsy, an array (also the empty one) and an inherited member are truthy. -/
def Store.ensure (proto : Prototype) (store : Store) (project : String) : Store :=
  match store.lookup proto project with
  | .undefined => store.put project []
  | _ => store

/-- The expression `issues[project] || []`, when it is an array: `none` stands for a member
inherited from `Object.prototype`, which is truthy and is what the expression gives. -/
def ProjectValue.orEmptyArray : ProjectValue → Option (List Issue)
  | .array list => some list
  | .undefined => some []
  | .inherited => none

/-- The own text property `key` of an issue, `none` when the issue has no own text property
of that name (the own property `open` is a boolean). -/
def ownField (issue : Issue) (key : String) : Option JSString :=
  if key = "_id" then some issue._id
  else if key = "issue_title" then some issue.issue_title
  else if key = "issue_text" then some issue.issue_text
  else if key = "created_by" then some issue.created_by
  else if key = "assigned_to" then some issue.assigned_to
  else if key = "status_text" then some issue.status_text
  else if key = "created_on" then some issue.created_on
  else if key = "updated_on" then some issue.updated_on
  else none

/-- A value of the expression `issue[key]` for a key other than `open`: the string of an
own property, a member inherited from `Object.prototype` with the string that `toString()`
gives on it, or `undefined`. -/
inductive FieldValue where
  | text (s : JSString)
  | inherited (source : JSString)
  | undefined
  deriving DecidableEq

/-- The expression `issue[key]` for a key other than `open`. -/
def issueField (proto : Prototype) (issue : Issue) (key : String) : FieldValue :=
  match ownField issue key with
  | some s => .text s
  | none =>
    match proto key with
    | some source => .inherited source
    | none => .undefined

/-- `b.toString()` for a boolean. -/
def boolToString (b : Bool) : JSString := if b then lit "true" else lit "false"

/-- `s.includes(part)`: `part` occurs in `s` as a run of consecutive code units. -/
def includes (s part : JSString) : Bool := decide (part <:+: s)

/-- The callback of `Object.keys(filters).every` for one key of the query: for `open`,
`issue[key].toString() === filters[key]`; for another key,
`issue[key] && issue[key].toString().toLowerCase().includes(filters[key].toLowerCase())`,
where `issue[key]` is falsy when it is `undefined` or the empty string, and truthy when it
is a non-empty string or an inherited member. -/
def filterAccepts (proto : Prototype) (toLowerCase : JSString → JSString) (issue : Issue)
    (key : String) (value : JSString) : Bool :=
  if key = "open" then decide (boolToString issue.isOpen = value)
  else
    match issueField proto issue key with
    | .undefined => false
    | .text field =>
      if field = [] then false else includes (toLowerCase field) (toLowerCase value)
    | .inherited source => includes (toLowerCase source) (toLowerCase value)

/-- What `GET /api/issues/:project` does: `res.json(value)`, or the `TypeError` of
`projectIssues.filter` when `projectIssues` is not an array. -/
inductive GetResponse where
  | json (value : ProjectValue)
  | typeError
  deriving DecidableEq

/-- The handler of `GET /api/issues/:project`: what it does and the store afterwards;
`filters` is `req.query` as its list of keys with their values. -/
def getIssues (proto : Prototype) (toLowerCase : JSString → JSString) (store : Store)
    (project : String) (filters : List (String × JSString)) : GetResponse × Store :=
  let store1 := store.ensure proto project
  let projectIssues := store1.lookup proto project
  if filters.length > 0 then
    match projectIssues with
    | .array list =>
      (.json (.array (list.filter fun issue =>
        filters.all fun kv => filterAccepts proto toLowerCase issue kv.1 kv.2)), store1)
    | _ => (.typeError, store1)
  else (.json projectIssues, store1)

/-- The body of `POST /api/issues/:project`. -/
structure IssueBody where
  issue_title : Option JSString
  issue_text : Option JSString
  created_by : Option JSString
  assigned_to : Option JSString
  status_text : Option JSString
  deriving DecidableEq

/-- What `POST /api/issues/:project` does: the JSON answer `{ error }` or the new issue, or
the `TypeError` of `issues[project].push` when `issues[project]` is not an array. -/
inductive PostResponse where
  | error (message : String)
  | created (issue : Issue)
  | typeError
  deriving DecidableEq

/-- `x || ''` for a body field. -/
def orEmpty (x : Option JSString) : JSString :=
  if falsy x then [] else x.getD []

/-- The handler of `POST /api/issues/:project`: what it does and the store afterwards.
`idNow` is `new Date().getTime().toString()`, `createdNow` and `updatedNow` the two
`new Date().toISOString()`. -/
def postIssue (proto : Prototype) (idNow createdNow updatedNow : JSString) (store : Store)
    (project : String) (body : IssueBody) : PostResponse × Store :=
  if falsy body.issue_title || falsy body.issue_text || falsy body.created_by then
    (.error "required field(s) missing", store)
  else
    match body.issue_title, body.issue_text, body.created_by with
    | some issue_title, some issue_text, some created_by =>
      let newIssue : Issue :=
        { _id := idNow
          issue_title := issue_title
          issue_text := issue_text
          created_by := created_by
          assigned_to := orEmpty body.assigned_to
          status_text := orEmpty body.status_text
          created_on := createdNow
          updated_on := updatedNow
          isOpen := true }
      let store1 := store.ensure proto project
      match store1.lookup proto project with
      | .array list => (.created newIssue, store1.put project (list ++ [newIssue]))
      | _ => (.typeError, store1)
    | _, _, _ => (.error "required field(s) missing", store)

/-- A value of the field `open` of a `PUT` body: a string or a boolean. -/
inductive OpenValue where
  | str (s : JSString)
  | bool (b : Bool)
  deriving DecidableEq

/-- The body of `PUT /api/issues/:project`: `_id` and the fields of `validUpdateFields`
(other keys of the body are filtered out by the handler). -/
structure UpdateBody where
  _id : Option JSString
  issue_title : Option JSString
  issue_text : Option JSString
  created_by : Option JSString
  assigned_to : Option JSString
  status_text : Option JSString
  openField : Option OpenValue
  deriving DecidableEq

/-- What `PUT /api/issues/:project` does: the JSON answer `{ error }` or `{ error, _id }`,
or `{ result, _id }`, or the `TypeError` of `projectIssues.findIndex` when `projectIssues`
is not an array. -/
inductive PutResponse where
  | error (message : String) (_id : Option JSString)
  | result (message : String) (_id : JSString)
  | typeError
  deriving DecidableEq

/-- `fieldsToUpdate.length === 0`: the body has none of the six updatable keys. -/
def noUpdateFields (body : UpdateBody) : Bool :=
  body.issue_title.isNone && body.issue_text.isNone && body.created_by.isNone &&
    body.assigned_to.isNone && body.status_text.isNone && body.openField.isNone

/-- `projectIssues.findIndex(issue => issue._id === _id)`; `none` is `-1`. -/
def findIndex (_id : JSString) : List Issue → Option Nat
  | [] => none
  | issue :: rest => if issue._id = _id then some 0 else (findIndex _id rest).map (· + 1)

/-- The issue after the `forEach` over `fieldsToUpdate` and the assignment of
`updated_on`; `open` becomes `updateFields.open === 'true' || updateFields.open === true`. -/
def applyUpdate (now : JSString) (body : UpdateBody) (issue : Issue) : Issue :=
  { issue with
    issue_title := body.issue_title.getD issue.issue_title
    issue_text := body.issue_text.getD issue.issue_text
    created_by := body.created_by.getD issue.created_by
    assigned_to := body.assigned_to.getD issue.assigned_to
    status_text := body.status_text.getD issue.status_text
    isOpen :=
      match body.openField with
      | none => issue.isOpen
      | some v => decide (v = .str (lit "true") ∨ v = .bool true)
    updated_on := now }

/-- The array with the element of index `n` replaced by its image under `f`. -/
def modifyAt (f : Issue → Issue) : Nat → List Issue → List Issue
  | _, [] => []
  | 0, issue :: rest => f issue :: rest
  | n + 1, issue :: rest => issue :: modifyAt f n rest

/-- The handler of `PUT /api/issues/:project`: what it does and the store afterwards; `now`
is `new Date().toISOString()`. -/
def putIssue (proto : Prototype) (now : JSString) (store : Store) (project : String)
    (body : UpdateBody) : PutResponse × Store :=
  if falsy body._id then (.error "missing _id" none, store)
  else
    match body._id with
    | none => (.error "missing _id" none, store)
    | some _id =>
      if noUpdateFields body then (.error "no update field(s) sent" (some _id), store)
      else
        match (store.lookup proto project).orEmptyArray with
        | none => (.typeError, store)
        | some projectIssues =>
          match findIndex _id projectIssues with
          | none => (.error "could not update" (some _id), store)
          | some issueIndex =>
            (.result "successfully updated" _id,
              store.put project (modifyAt (applyUpdate now body) issueIndex projectIssues))

/-- The filter on `key` with `value` as the specification words it: for `open`, the flag
written `true` or `false` equals the value; for another field, the value occurs, ignoring
letter case, in the field's value. -/
def MatchesAsStated (toLowerCase : JSString → JSString) (issue : Issue) (key : String)
    (value : JSString) : Prop :=
  if key = "open" then boolToString issue.isOpen = value
  else ∃ field, ownField issue key = some field ∧ toLowerCase value <:+: toLowerCase field

/-- The filter on `key` with `value` as the handler applies it to the fields of an issue:
as `MatchesAsStated`, and for a field other than `open` the field's value is not empty. -/
def MatchesFilter (toLowerCase : JSString → JSString) (issue : Issue) (key : String)
    (value : JSString) : Prop :=
  if key = "open" then boolToString issue.isOpen = value
  else ∃ field, ownField issue key = some field ∧ field ≠ [] ∧
    toLowerCase value <:+: toLowerCase field

/-- Lower case of ASCII letters, the other code units unchanged (`toLowerCase` on ASCII
strings). -/
def asciiLower (s : JSString) : JSString :=
  s.map fun c => if 65 ≤ c ∧ c ≤ 90 then c + 32 else c

/-- An issue as `POST` creates it from the required fields only: `assigned_to` and
`status_text` are empty. -/
def requiredOnlyIssue : Issue :=
  { _id := lit "1700000000000"
    issue_title := lit "Required only"
    issue_text := lit "This issue has only required fields"
    created_by := lit "Test User"
    assigned_to := []
    status_text := []
    created_on := lit "2023-11-14T22:13:20.000Z"
    updated_on := lit "2023-11-14T22:13:20.000Z"
    isOpen := true }

/-- The object `issues` when the server starts: no own property. -/
def emptyStore : Store := fun _ => none

/-- A store holding `requiredOnlyIssue` in the project `test-project`. -/
def testStore : Store := Store.put emptyStore "test-project" [requiredOnlyIssue]

/-- What `DELETE /api/issues/:project` does: the JSON answer `{ error }` or
`{ error, _id }`, or `{ result, _id }`, or the `TypeError` of `projectIssues.findIndex` when
`projectIssues` is not an array. -/
inductive DeleteResponse where
  | error (message : String) (_id : Option JSString)
  | result (message : String) (_id : JSString)
  | typeError
  deriving DecidableEq

/-- The handler of `DELETE /api/issues/:project` on `_id = req.body._id`: what it does and
the store afterwards; `projectIssues.splice(issueIndex, 1)` removes the element of that
index from the project's array. -/
def deleteIssue (proto : Prototype) (store : Store) (project : String)
    (_id : Option JSString) : DeleteResponse × Store :=
  if falsy _id then (.error "missing _id" none, store)
  else
    match _id with
    | none => (.error "missing _id" none, store)
    | some _id =>
      match (store.lookup proto project).orEmptyArray with
      | none => (.typeError, store)
      | some projectIssues =>
        match findIndex _id projectIssues with
        | none => (.error "could not delete" (some _id), store)
        | some issueIndex =>
          (.result "successfully deleted" _id,
            store.put project (projectIssues.eraseIdx issueIndex))

/-! ## The reads of `puzzleString`

The three checkers and `solve` once more, with every evaluation of `puzzleString[index]`
and every call of a checker recorded in the order in which the code makes them. Each
function below returns what the function above of the same name returns, together with
the record (`checkRowPlacementLog_fst`, ..., `solveLog_fst`), and the result of a checker
is computed from the characters at the recorded indices (`rowLoopLog_result`, ...). -/

/-- One evaluation of `puzzleString[index]` in a checker: the loop variables `r` and `c`
(for the row checker `r` is `row`, for the column checker `c` is `column`), the index
computed from them and what the read gives (`none` is `undefined`). -/
structure Read where
  r : Nat
  c : Nat
  index : Nat
  result : Option JSString
  deriving DecidableEq

/-- The loop `for (let col = 0; col < 9; col++)` of `checkRowPlacement` over the values of
`col` still to visit: `col !== column &&` skips the read at `column`, and the loop returns
`false` at the first read that gives `value`. -/
def rowLoopLog (puzzleString : JSString) (row column : Nat) (value : JSString) :
    List Nat → Bool × List Read
  | [] => (true, [])
  | col :: rest =>
    if col ≠ column then
      let index := row * 9 + col
      let read : Read := ⟨row, col, index, charAt puzzleString index⟩
      if read.result = some value then (false, [read])
      else
        let after := rowLoopLog puzzleString row column value rest
        (after.1, read :: after.2)
    else rowLoopLog puzzleString row column value rest

/-- `checkRowPlacement(puzzleString, row, column, value)` with its reads. -/
def checkRowPlacementLog (puzzleString : JSString) (row column : Nat) (value : JSString) :
    Bool × List Read :=
  rowLoopLog puzzleString row column value (List.range 9)

/-- The loop `for (let r = 0; r < 9; r++)` of `checkColPlacement` over the values of `r`
still to visit. -/
def colLoopLog (puzzleString : JSString) (row column : Nat) (value : JSString) :
    List Nat → Bool × List Read
  | [] => (true, [])
  | r :: rest =>
    if r ≠ row then
      let index := r * 9 + column
      let read : Read := ⟨r, column, index, charAt puzzleString index⟩
      if read.result = some value then (false, [read])
      else
        let after := colLoopLog puzzleString row column value rest
        (after.1, read :: after.2)
    else colLoopLog puzzleString row column value rest

/-- `checkColPlacement(puzzleString, row, column, value)` with its reads. -/
def checkColPlacementLog (puzzleString : JSString) (row column : Nat) (value : JSString) :
    Bool × List Read :=
  colLoopLog puzzleString row column value (List.range 9)

/-- The inner loop `for (let c = regionStartCol; c < regionStartCol + 3; c++)` of
`checkRegionPlacement` in the row `r`, over the values of `c` still to visit; `false` is
the `return false` of the function. -/
def regionInnerLog (puzzleString : JSString) (row column : Nat) (value : JSString) (r : Nat) :
    List Nat → Bool × List Read
  | [] => (true, [])
  | c :: rest =>
    if r ≠ row ∨ c ≠ column then
      let index := r * 9 + c
      let read : Read := ⟨r, c, index, charAt puzzleString index⟩
      if read.result = some value then (false, [read])
      else
        let after := regionInnerLog puzzleString row column value r rest
        (after.1, read :: after.2)
    else regionInnerLog puzzleString row column value r rest

/-- The outer loop `for (let r = regionStartRow; r < regionStartRow + 3; r++)` of
`checkRegionPlacement` over the values of `r` still to visit; `cols` are the values of `c`
of the inner loop. -/
def regionOuterLog (puzzleString : JSString) (row column : Nat) (value : JSString)
    (cols : List Nat) : List Nat → Bool × List Read
  | [] => (true, [])
  | r :: rest =>
    let inner := regionInnerLog puzzleString row column value r cols
    if inner.1 then
      let after := regionOuterLog puzzleString row column value cols rest
      (after.1, inner.2 ++ after.2)
    else (false, inner.2)

/-- `checkRegionPlacement(puzzleString, row, column, value)` with its reads. -/
def checkRegionPlacementLog (puzzleString : JSString) (row column : Nat) (value : JSString) :
    Bool × List Read :=
  let regionStartRow := row / 3 * 3
  let regionStartCol := column / 3 * 3
  regionOuterLog puzzleString row column value (List.range' regionStartCol 3)
    (List.range' regionStartRow 3)

/-- One call of a checker by `solve`: the cell index `i` of the loop that makes the call,
the arguments `puzzleString`, `row` and `column`, and the reads of the call. -/
structure Call where
  i : Nat
  puzzleString : JSString
  row : Nat
  column : Nat
  reads : List Read
  deriving DecidableEq

/-- The three calls `checkRowPlacement(..) && checkColPlacement(..) &&
checkRegionPlacement(..)` of `solvePuzzle` at the cell `i`, which are also the calls of
`!checkRowPlacement(..) || !checkColPlacement(..) || !checkRegionPlacement(..)` in the
initial check: a checker is called when those before it returned `true`. The result is
`true` when all three return `true`. -/
def checksLog (i : Nat) (puzzleString : JSString) (row col : Nat) (value : JSString) :
    Bool × List Call :=
  let rowCheck := checkRowPlacementLog puzzleString row col value
  if rowCheck.1 then
    let colCheck := checkColPlacementLog puzzleString row col value
    if colCheck.1 then
      let regionCheck := checkRegionPlacementLog puzzleString row col value
      (regionCheck.1,
        [⟨i, puzzleString, row, col, rowCheck.2⟩, ⟨i, puzzleString, row, col, colCheck.2⟩,
          ⟨i, puzzleString, row, col, regionCheck.2⟩])
    else
      (false,
        [⟨i, puzzleString, row, col, rowCheck.2⟩, ⟨i, puzzleString, row, col, colCheck.2⟩])
  else (false, [⟨i, puzzleString, row, col, rowCheck.2⟩])

/-- The loop `tryNumbers` with the calls of the checkers it makes, those of the recursive
calls included. -/
def tryNumbersLog (recur : List JSString → Option ((Bool × List JSString) × List Call))
    (i : Nat) : List Nat → List JSString → Option ((Bool × List JSString) × List Call)
  | [], puzzle => some ((false, puzzle), [])
  | num :: rest, puzzle =>
    let row := i / 9
    let col := i % 9
    let numStr := numToString num
    let checks := checksLog i (join puzzle) row col numStr
    if checks.1 then
      match recur (puzzle.set i numStr) with
      | none => none
      | some ((true, puzzle1), calls) => some ((true, puzzle1), checks.2 ++ calls)
      | some ((false, puzzle1), calls) =>
        (tryNumbersLog recur i rest (puzzle1.set i (lit "."))).map fun after =>
          (after.1, checks.2 ++ calls ++ after.2)
    else
      (tryNumbersLog recur i rest puzzle).map fun after => (after.1, checks.2 ++ after.2)

/-- The closure `solvePuzzle` with the calls of the checkers it makes. -/
def solvePuzzleLog : Nat → List JSString → Option ((Bool × List JSString) × List Call)
  | 0, _ => none
  | fuel + 1, puzzle =>
    match (List.range 81).find? fun i => decide (puzzle[i]? = some (lit ".")) with
    | some i => tryNumbersLog (solvePuzzleLog fuel) i [1, 2, 3, 4, 5, 6, 7, 8, 9] puzzle
    | none => some ((true, puzzle), [])

/-- The loop of the initial check of `solve` with the calls of the checkers it makes, up
to its exit from `solve` when there is one. The exit by `TypeError`, on an entry that is
`undefined`, is recorded without the call in which `value.toString()` throws; the loop of
`solve` runs over the 81 entries of the array and never takes it (`solve_total`). -/
def initialCheckLog : List Nat → List JSString → Except Outcome (List JSString) × List Call
  | [], puzzle => (.ok puzzle, [])
  | i :: rest, puzzle =>
    if puzzle[i]? ≠ some (lit ".") then
      match puzzle[i]? with
      | none => (.error .throws, [])
      | some value =>
        let row := i / 9
        let col := i % 9
        let puzzle1 := puzzle.set i (lit ".")
        let checks := checksLog i (join puzzle1) row col value
        if !checks.1 then (.error .returnsFalse, checks.2)
        else
          let after := initialCheckLog rest (puzzle1.set i value)
          (after.1, checks.2 ++ after.2)
    else initialCheckLog rest puzzle

/-- `solve(puzzleString)` with the calls of the checkers it makes, in order. -/
def solveLog (puzzleString : Option JSString) : Option (Outcome × List Call) :=
  match validate puzzleString, puzzleString with
  | .valid, some s =>
    match initialCheckLog (List.range 81) (split s) with
    | (.error o, calls) => some (o, calls)
    | (.ok puzzle, calls) =>
      match solvePuzzleLog 82 puzzle with
      | none => none
      | some ((true, puzzle1), calls1) => some (.returns (join puzzle1), calls ++ calls1)
      | some ((false, _), calls1) => some (.returnsFalse, calls ++ calls1)
  | .valid, none => some (.throws, [])
  | _, _ => some (.returnsFalse, [])

/-- The read is at a row and a column in 0..8, at the index `r * 9 + c`, which lies in
0..80, and it gives a character of the string. -/
def Read.InRange (read : Read) : Prop :=
  read.r < 9 ∧ read.c < 9 ∧ read.index = read.r * 9 + read.c ∧ read.index < 81 ∧
    ∃ unit, read.result = some [unit]

/-- The call was made with an 81-character string and with `row` and `column` in 0..8
that are the quotient and the remainder by 9 of a cell index `i` in 0..80, so that
`row * 9 + column = i`, and each of its reads is in range. -/
def Call.InRange (call : Call) : Prop :=
  call.puzzleString.length = 81 ∧ call.i < 81 ∧ call.row = call.i / 9 ∧
    call.column = call.i % 9 ∧ call.row < 9 ∧ call.column < 9 ∧
    call.row * 9 + call.column = call.i ∧ ∀ read ∈ call.reads, read.InRange

/-! ## `validate` -/

theorem validChars_iff (s : JSString) : validChars s = true ↔ ∀ c ∈ s, IsCell c := by
  simp [validChars, IsCell, IsDigit, List.all_eq_true]

theorem validate_cons (c : Nat) (s : JSString) :
    validate (some (c :: s)) =
      if (c :: s).length ≠ 81 then .error "Expected puzzle to be 81 characters long"
      else if !validChars (c :: s) then .error "Invalid characters in puzzle"
      else .valid := rfl

theorem validate_valid_iff (input : Option JSString) :
    validate input = .valid ↔ ∃ s, input = some s ∧ WellFormed s := by
  rcases input with _ | s
  · simp [validate]
  · rcases s with _ | ⟨c, s⟩
    · simp [validate, WellFormed]
    · rw [validate_cons]
      by_cases hl : (c :: s).length = 81
      · by_cases hv : validChars (c :: s) = true
        · have hw : ∀ x ∈ c :: s, IsCell x := (validChars_iff _).1 hv
          simp only [hl, hv, ne_eq, not_true_eq_false, if_false, Bool.not_true, Bool.false_eq_true,
            true_iff]
          exact ⟨c :: s, rfl, hl, hw⟩
        · have hw : ¬ ∀ x ∈ c :: s, IsCell x := fun h => hv ((validChars_iff _).2 h)
          simp only [hl, hv, ne_eq, not_true_eq_false, if_false, Bool.not_false, if_true]
          constructor
          · intro h; cases h
          · rintro ⟨t, ht, _, hw2⟩
            cases ht
            exact absurd hw2 hw
      · simp only [ne_eq, hl, not_false_eq_true, if_true]
        constructor
        · intro h; cases h
        · rintro ⟨t, ht, hl2, _⟩
          cases ht
          exact absurd hl2 hl

theorem validate_wrong_length (s : JSString) (hne : s ≠ []) (hl : s.length ≠ 81) :
    validate (some s) = .error "Expected puzzle to be 81 characters long" := by
  rcases s with _ | ⟨c, s⟩
  · exact absurd rfl hne
  · rw [validate_cons, if_pos hl]

theorem validate_invalid_chars (s : JSString) (hl : s.length = 81)
    (hex : ∃ c ∈ s, ¬ IsCell c) : validate (some s) = .error "Invalid characters in puzzle" := by
  rcases s with _ | ⟨c, s⟩
  · simp at hl
  · have hv : validChars (c :: s) = false := by
      rw [Bool.eq_false_iff]
      intro h
      obtain ⟨x, hx, hnx⟩ := hex
      exact hnx ((validChars_iff _).1 h x hx)
    rw [validate_cons, if_neg (by simpa using hl), hv]
    rfl

/-! ## From the array of strings to code units -/

theorem join_split (cells : List Nat) : join (split cells) = cells := by
  induction cells with
  | nil => rfl
  | cons c cs ih =>
    simp only [join, split, List.map_cons, List.flatten_cons, List.singleton_append] at ih ⊢
    rw [ih]

theorem split_set (cells : List Nat) (i v : Nat) :
    (split cells).set i [v] = split (cells.set i v) := by
  simp [split]

theorem split_getElem? (cells : List Nat) (i v : Nat) :
    (split cells)[i]? = some [v] ↔ cells[i]? = some v := by
  simp [split]

theorem split_getElem?_none (cells : List Nat) (i : Nat) :
    (split cells)[i]? = none ↔ cells[i]? = none := by
  simp [split]

theorem charAt_eq_iff (s : JSString) (i v : Nat) : charAt s i = some [v] ↔ s[i]? = some v := by
  simp [charAt]

theorem checkRowPlacement_unit (s : JSString) (row column v : Nat) :
    checkRowPlacement s row column [v] = rowFree s row column v := by
  simp only [checkRowPlacement, rowFree, charAt_eq_iff]

theorem checkColPlacement_unit (s : JSString) (row column v : Nat) :
    checkColPlacement s row column [v] = colFree s row column v := by
  simp only [checkColPlacement, colFree, charAt_eq_iff]

theorem checkRegionPlacement_unit (s : JSString) (row column v : Nat) :
    checkRegionPlacement s row column [v] = regionFree s row column v := by
  simp only [checkRegionPlacement, regionFree, charAt_eq_iff]

theorem numToString_digit : ∀ num ∈ [1, 2, 3, 4, 5, 6, 7, 8, 9], numToString num = [48 + num] := by
  decide

theorem lit_dot : lit "." = [46] := by decide

theorem tryNumbers_split (recur : List JSString → Option (Bool × List JSString))
    (recurC : List Nat → Option (Bool × List Nat))
    (h : ∀ cells, recur (split cells) = liftSearch (recurC cells)) (i : Nat) :
    ∀ nums : List Nat, (∀ num ∈ nums, num ∈ [1, 2, 3, 4, 5, 6, 7, 8, 9]) → ∀ cells,
      tryNumbers recur i nums (split cells) = liftSearch (tryCells recurC i nums cells) := by
  intro nums
  induction nums with
  | nil => intro _ cells; rfl
  | cons num rest ih =>
    intro hn cells
    have hnum : numToString num = [48 + num] := numToString_digit num (hn num (by simp))
    have hrest : ∀ n ∈ rest, n ∈ [1, 2, 3, 4, 5, 6, 7, 8, 9] :=
      fun n hm => hn n (List.mem_cons_of_mem _ hm)
    simp only [tryNumbers, tryCells, hnum, join_split, checkRowPlacement_unit,
      checkColPlacement_unit, checkRegionPlacement_unit, lit_dot, split_set, h]
    by_cases hp : placeable cells i (48 + num) = true
    · have hp2 : (rowFree cells (i / 9) (i % 9) (48 + num) &&
          colFree cells (i / 9) (i % 9) (48 + num) &&
          regionFree cells (i / 9) (i % 9) (48 + num)) = true := hp
      rw [if_pos hp2, if_pos hp]
      rcases hr : recurC (cells.set i (48 + num)) with _ | ⟨b, cells1⟩
      · rfl
      · cases b
        · simp only [liftSearch, Option.map_some']
          rw [split_set]
          exact ih hrest _
        · rfl
    · have hp2 : ¬ (rowFree cells (i / 9) (i % 9) (48 + num) &&
          colFree cells (i / 9) (i % 9) (48 + num) &&
          regionFree cells (i / 9) (i % 9) (48 + num)) = true := hp
      rw [if_neg hp2, if_neg hp]
      exact ih hrest _

theorem solvePuzzle_split : ∀ (fuel : Nat) (cells : List Nat),
    solvePuzzle fuel (split cells) = liftSearch (searchCells fuel cells) := by
  intro fuel
  induction fuel with
  | zero => intro cells; rfl
  | succ fuel ih =>
    intro cells
    simp only [solvePuzzle, searchCells, lit_dot, split_getElem?]
    rcases (List.range 81).find? fun i => decide (cells[i]? = some 46) with _ | i
    · rfl
    · exact tryNumbers_split _ _ ih i _ (fun _ h => h) cells

theorem initialCheck_split : ∀ (idxs : List Nat) (cells : List Nat),
    initialCheck idxs (split cells) = liftCheck (precheckCells idxs cells) := by
  intro idxs
  induction idxs with
  | nil => intro cells; rfl
  | cons i rest ih =>
    intro cells
    rcases hv : cells[i]? with _ | v
    · have hn : (split cells)[i]? = none := (split_getElem?_none cells i).2 hv
      simp [initialCheck, precheckCells, hn, hv, liftCheck]
    · have hs : (split cells)[i]? = some [v] := (split_getElem? cells i v).2 hv
      by_cases hd : v = 46
      · subst hd
        simp only [initialCheck, precheckCells, lit_dot, hs, hv, ne_eq, not_true_eq_false,
          if_false]
        exact ih cells
      · have hd1 : ¬ (some [v] = some [46]) := by simpa using hd
        have hd2 : ¬ (some v = some 46) := by simpa using hd
        simp only [initialCheck, precheckCells, lit_dot, hs, hv, ne_eq, hd1, hd2,
          not_false_eq_true, if_true, join_split, checkRowPlacement_unit,
          checkColPlacement_unit, checkRegionPlacement_unit, split_set]
        by_cases hp : placeable (cells.set i 46) i v = true
        · have hp' := hp
          simp only [placeable, Bool.and_eq_true] at hp'
          simp only [hp, hp'.1.1, hp'.1.2, hp'.2, Bool.not_true, Bool.or_self,
            Bool.false_eq_true, if_false]
          exact ih _
        · have hp' : (!rowFree (cells.set i 46) (i / 9) (i % 9) v ||
              !colFree (cells.set i 46) (i / 9) (i % 9) v ||
              !regionFree (cells.set i 46) (i / 9) (i % 9) v) = true := by
            simp only [placeable] at hp
            revert hp
            cases rowFree (cells.set i 46) (i / 9) (i % 9) v <;>
              cases colFree (cells.set i 46) (i / 9) (i % 9) v <;>
              cases regionFree (cells.set i 46) (i / 9) (i % 9) v <;> simp
          have hp3 : (!placeable (cells.set i 46) i v) = true := by simp [hp]
          rw [if_pos hp', if_pos hp3]
          rfl

/-! ## The placement checks -/

theorem rowFree_iff (cells : List Nat) (row column v : Nat) :
    rowFree cells row column v = true ↔
      ∀ col, col < 9 → col ≠ column → cells[row * 9 + col]? ≠ some v := by
  simp only [rowFree, List.all_eq_true, List.mem_range, Bool.not_eq_true',
    Bool.and_eq_false_imp, decide_eq_true_eq, decide_eq_false_iff_not, ne_eq]

theorem colFree_iff (cells : List Nat) (row column v : Nat) :
    colFree cells row column v = true ↔
      ∀ r, r < 9 → r ≠ row → cells[r * 9 + column]? ≠ some v := by
  simp only [colFree, List.all_eq_true, List.mem_range, Bool.not_eq_true',
    Bool.and_eq_false_imp, decide_eq_true_eq, decide_eq_false_iff_not, ne_eq]

theorem regionFree_iff (cells : List Nat) (row column v : Nat) :
    regionFree cells row column v = true ↔
      ∀ r c, row / 3 * 3 ≤ r → r < row / 3 * 3 + 3 → column / 3 * 3 ≤ c →
        c < column / 3 * 3 + 3 → (r ≠ row ∨ c ≠ column) → cells[r * 9 + c]? ≠ some v := by
  simp only [regionFree, List.all_eq_true, List.mem_range'_1, Bool.not_eq_true',
    Bool.and_eq_false_imp, decide_eq_true_eq, decide_eq_false_iff_not, and_imp, ne_eq]
  constructor
  · intro h r c h1 h2 h3 h4 h5
    exact h r h1 h2 c h3 h4 h5
  · intro h r h1 h2 c h3 h4 h5
    exact h r c h1 h2 h3 h4 h5

theorem SameUnit.symm {i j : Nat} (h : SameUnit i j) : SameUnit j i := by
  unfold SameUnit at *
  omega

theorem placeable_iff (cells : List Nat) (i v : Nat) (hi : i < 81) :
    placeable cells i v = true ↔ FreeAt cells i v := by
  simp only [placeable, Bool.and_eq_true, rowFree_iff, colFree_iff, regionFree_iff]
  constructor
  · rintro ⟨⟨hr, hc⟩, hg⟩ j hj hne hsu
    rcases hsu with h | h | ⟨h1, h2⟩
    · have := hr (j % 9) (by omega) (by omega)
      have e : i / 9 * 9 + j % 9 = j := by omega
      rwa [e] at this
    · have := hc (j / 9) (by omega) (by omega)
      have e : j / 9 * 9 + i % 9 = j := by omega
      rwa [e] at this
    · have := hg (j / 9) (j % 9) (by omega) (by omega) (by omega) (by omega) (by omega)
      have e : j / 9 * 9 + j % 9 = j := by omega
      rwa [e] at this
  · intro h
    refine ⟨⟨?_, ?_⟩, ?_⟩
    · intro col hc hne
      exact h (i / 9 * 9 + col) (by omega) (by omega) (Or.inl (by omega))
    · intro r hr hne
      exact h (r * 9 + i % 9) (by omega) (by omega) (Or.inr (Or.inl (by omega)))
    · intro r c h1 h2 h3 h4 hne
      exact h (r * 9 + c) (by omega) (by omega) (Or.inr (Or.inr ⟨by omega, by omega⟩))

theorem FreeAt_set (cells : List Nat) (i x v : Nat) :
    FreeAt (cells.set i x) i v ↔ FreeAt cells i v := by
  unfold FreeAt
  constructor
  · intro h j hj hne hsu
    have := h j hj hne hsu
    rwa [List.getElem?_set_ne (Ne.symm hne)] at this
  · intro h j hj hne hsu
    rw [List.getElem?_set_ne (Ne.symm hne)]
    exact h j hj hne hsu

theorem placeable_set (cells : List Nat) (i x v : Nat) (hi : i < 81) :
    placeable (cells.set i x) i v = placeable cells i v := by
  rw [Bool.eq_iff_iff, placeable_iff _ _ _ hi, placeable_iff _ _ _ hi, FreeAt_set]

theorem set_eq_self (cells : List Nat) (i x : Nat) (h : cells[i]? = some x) :
    cells.set i x = cells := by
  apply List.ext_getElem?
  intro n
  by_cases hn : i = n
  · subst hn
    rw [List.getElem?_set_self', h]
    rfl
  · rw [List.getElem?_set_ne hn]

theorem set_restore (cells : List Nat) (i x y : Nat) (h : cells[i]? = some y) :
    (cells.set i x).set i y = cells := by
  rw [List.set_set, set_eq_self cells i y h]

theorem getElem?_set_same (cells : List Nat) (i x y : Nat) (h : cells[i]? = some y) :
    (cells.set i x)[i]? = some x := by
  have hlt : i < cells.length := by
    rcases List.getElem?_eq_some.1 h with ⟨hl, _⟩
    exact hl
  exact List.getElem?_set_self hlt

theorem NoRepeat_set (cells : List Nat) (i v : Nat) (hn : NoRepeat cells)
    (hi : cells[i]? = some 46) (hf : FreeAt cells i v) : NoRepeat (cells.set i v) := by
  intro a b w ha hb hab hsu hwa hwb
  by_cases hai : a = i
  · subst hai
    rw [getElem?_set_same cells a v 46 hi] at hwa
    rw [List.getElem?_set_ne hab] at hwb
    cases hwa
    exact absurd hwb (hf b hb (Ne.symm hab) hsu)
  · rw [List.getElem?_set_ne (Ne.symm hai)] at hwa
    by_cases hbi : b = i
    · subst hbi
      rw [getElem?_set_same cells b v 46 hi] at hwb
      cases hwb
      exact absurd hwa (hf a ha hai hsu.symm)
    · rw [List.getElem?_set_ne (Ne.symm hbi)] at hwb
      exact hn a b w ha hb hab hsu hwa hwb

theorem noRepeat_iff_freeAt (cells : List Nat) :
    NoRepeat cells ↔ ∀ i v, i < 81 → cells[i]? = some v → v ≠ 46 → FreeAt cells i v := by
  constructor
  · intro h i v hi hv hne j hj hji hsu hjv
    exact hne (h i j v hi hj (Ne.symm hji) hsu hv hjv)
  · intro h i j v hi hj hij hsu hiv hjv
    by_contra hne
    exact h i v hi hiv hne j hj (Ne.symm hij) hsu hjv

/-! ## The search: a failed call leaves the grid as it found it -/

theorem tryCells_false (recur : List Nat → Option (Bool × List Nat))
    (hrec : ∀ c c1, recur c = some (false, c1) → c1 = c) (i : Nat) :
    ∀ (nums cells c1 : List Nat), cells[i]? = some 46 →
      tryCells recur i nums cells = some (false, c1) → c1 = cells := by
  intro nums
  induction nums with
  | nil =>
    intro cells c1 _ h
    simp only [tryCells, Option.some.injEq, Prod.mk.injEq, true_and] at h
    exact h.symm
  | cons num rest ih =>
    intro cells c1 hi h
    simp only [tryCells] at h
    by_cases hp : placeable cells i (48 + num) = true
    · rw [if_pos hp] at h
      rcases hr : recur (cells.set i (48 + num)) with _ | ⟨b, c2⟩
      · rw [hr] at h; cases h
      · rw [hr] at h
        cases b
        · have hc2 : c2 = cells.set i (48 + num) := hrec _ _ hr
          subst hc2
          simp only [set_restore cells i (48 + num) 46 hi] at h
          exact ih cells c1 hi h
        · simp at h
    · rw [if_neg hp] at h
      exact ih cells c1 hi h

theorem find_empty_some (cells : List Nat) (i : Nat)
    (h : ((List.range 81).find? fun i => decide (cells[i]? = some 46)) = some i) :
    i < 81 ∧ cells[i]? = some 46 ∧ ∀ j, j < i → cells[j]? ≠ some 46 := by
  rw [List.find?_range_eq_some] at h
  refine ⟨List.mem_range.1 h.2.1, by simpa using h.1, ?_⟩
  intro j hj
  simpa using h.2.2 j hj

theorem find_empty_none (cells : List Nat)
    (h : ((List.range 81).find? fun i => decide (cells[i]? = some 46)) = none) :
    ∀ j, j < 81 → cells[j]? ≠ some 46 := by
  rw [List.find?_range_eq_none] at h
  intro j hj
  simpa using h j hj

theorem searchCells_false : ∀ (fuel : Nat) (cells c1 : List Nat),
    searchCells fuel cells = some (false, c1) → c1 = cells := by
  intro fuel
  induction fuel with
  | zero => intro cells c1 h; simp [searchCells] at h
  | succ fuel ih =>
    intro cells c1 h
    simp only [searchCells] at h
    rcases hf : (List.range 81).find? fun i => decide (cells[i]? = some 46) with _ | i
    · rw [hf] at h; simp at h
    · rw [hf] at h
      exact tryCells_false _ ih i _ cells c1 (find_empty_some cells i hf).2.1 h

/-! ## The search: a successful call returns a filling -/

theorem Fills.of_set (cells s : List Nat) (i v : Nat) (hi : i < 81) (hd : IsDigit v)
    (he : cells[i]? = some 46) (hp : placeable cells i v = true)
    (h : Fills (cells.set i v) s) : Fills cells s := by
  obtain ⟨h1, h2, h3, h4, h5⟩ := h
  have hv : v ≠ 46 := by unfold IsDigit at hd; omega
  refine ⟨by rw [h1, List.length_set], ?_, h3, ?_, ?_⟩
  · intro j hj
    have hji : i ≠ j := by rintro rfl; exact hj he
    have := h2 j (by rw [List.getElem?_set_ne hji]; exact hj)
    rwa [List.getElem?_set_ne hji] at this
  · intro hc
    apply h4
    intro c hcm
    rcases List.mem_or_eq_of_mem_set hcm with hm | rfl
    · exact hc c hm
    · exact Or.inl hd
  · intro hn
    exact h5 (NoRepeat_set cells i v hn he ((placeable_iff cells i v hi).1 hp))

theorem Fills.at_set (cells s : List Nat) (i v : Nat) (hv : v ≠ 46)
    (he : cells[i]? = some 46) (h : Fills (cells.set i v) s) : s[i]? = some v := by
  have hs := getElem?_set_same cells i v 46 he
  have := h.2.1 i (by rw [hs]; simpa using hv)
  rw [this, hs]

theorem isDigit_of_mem {num : Nat} (h : num ∈ [1, 2, 3, 4, 5, 6, 7, 8, 9]) :
    IsDigit (48 + num) := by
  simp only [List.mem_cons, List.mem_singleton, List.not_mem_nil, or_false] at h
  unfold IsDigit
  omega

theorem tryCells_true (recur : List Nat → Option (Bool × List Nat))
    (hrec : ∀ c c1, recur c = some (false, c1) → c1 = c) (i : Nat) :
    ∀ (nums cells s : List Nat), cells[i]? = some 46 →
      tryCells recur i nums cells = some (true, s) →
      ∃ num ∈ nums, placeable cells i (48 + num) = true ∧
        recur (cells.set i (48 + num)) = some (true, s) := by
  intro nums
  induction nums with
  | nil => intro cells s _ h; simp [tryCells] at h
  | cons num rest ih =>
    intro cells s hi h
    simp only [tryCells] at h
    by_cases hp : placeable cells i (48 + num) = true
    · rw [if_pos hp] at h
      rcases hr : recur (cells.set i (48 + num)) with _ | ⟨b, c2⟩
      · rw [hr] at h; cases h
      · rw [hr] at h
        cases b
        · have hc2 : c2 = cells.set i (48 + num) := hrec _ _ hr
          subst hc2
          simp only [set_restore cells i (48 + num) 46 hi] at h
          obtain ⟨n, hn, h1, h2⟩ := ih cells s hi h
          exact ⟨n, List.mem_cons_of_mem _ hn, h1, h2⟩
        · simp only [Option.some.injEq, Prod.mk.injEq, true_and] at h
          subst h
          exact ⟨num, List.mem_cons_self _ _, hp, hr⟩
    · rw [if_neg hp] at h
      obtain ⟨n, hn, h1, h2⟩ := ih cells s hi h
      exact ⟨n, List.mem_cons_of_mem _ hn, h1, h2⟩

theorem searchCells_true : ∀ (fuel : Nat) (cells s : List Nat),
    searchCells fuel cells = some (true, s) → Fills cells s := by
  intro fuel
  induction fuel with
  | zero => intro cells s h; simp [searchCells] at h
  | succ fuel ih =>
    intro cells s h
    simp only [searchCells] at h
    rcases hf : (List.range 81).find? fun i => decide (cells[i]? = some 46) with _ | i
    · rw [hf] at h
      simp only [Option.some.injEq, Prod.mk.injEq, true_and] at h
      subst h
      exact ⟨rfl, fun _ _ => rfl, find_empty_none cells hf, fun hc => hc, fun hn => hn⟩
    · rw [hf] at h
      obtain ⟨hi, he, _⟩ := find_empty_some cells i hf
      obtain ⟨num, hn, hp, hr⟩ :=
        tryCells_true _ (searchCells_false fuel) i _ cells s he h
      exact Fills.of_set cells s i (48 + num) hi (isDigit_of_mem hn) he hp (ih _ s hr)

/-! ## The search: fuel, completeness and the order of the result -/

theorem count_set_dot (cells : List Nat) (i v : Nat) (he : cells[i]? = some 46)
    (hv : v ≠ 46) : (cells.set i v).count 46 + 1 = cells.count 46 := by
  obtain ⟨hl, hget⟩ := List.getElem?_eq_some.1 he
  have hmem : 46 ∈ cells := by
    rw [← hget]
    exact List.getElem_mem hl
  have hpos : 0 < cells.count 46 := List.count_pos_iff.2 hmem
  rw [List.count_set _ _ _ _ hl]
  simp only [hget, beq_self_eq_true, if_true, beq_iff_eq, hv, if_false]
  omega

theorem tryCells_total (recur : List Nat → Option (Bool × List Nat)) (n : Nat)
    (hrec : ∀ c c1, recur c = some (false, c1) → c1 = c)
    (htot : ∀ c : List Nat, c.count 46 ≤ n → recur c ≠ none) (i : Nat) :
    ∀ (nums cells : List Nat), (∀ num ∈ nums, num ∈ [1, 2, 3, 4, 5, 6, 7, 8, 9]) →
      cells[i]? = some 46 → cells.count 46 ≤ n + 1 → tryCells recur i nums cells ≠ none := by
  intro nums
  induction nums with
  | nil => intro cells _ _ _; simp [tryCells]
  | cons num rest ih =>
    intro cells hn hi hc
    have hrest : ∀ m ∈ rest, m ∈ [1, 2, 3, 4, 5, 6, 7, 8, 9] :=
      fun m hm => hn m (List.mem_cons_of_mem _ hm)
    simp only [tryCells]
    by_cases hp : placeable cells i (48 + num) = true
    · rw [if_pos hp]
      have hcount := count_set_dot cells i (48 + num) hi (by omega)
      rcases hr : recur (cells.set i (48 + num)) with _ | ⟨b, c2⟩
      · exact absurd hr (htot _ (by omega))
      · cases b
        · have hc2 : c2 = cells.set i (48 + num) := hrec _ _ hr
          subst hc2
          simp only [set_restore cells i (48 + num) 46 hi]
          exact ih cells hrest hi hc
        · simp
    · rw [if_neg hp]
      exact ih cells hrest hi hc

theorem searchCells_total : ∀ (fuel : Nat) (cells : List Nat),
    cells.count 46 ≤ fuel → searchCells (fuel + 1) cells ≠ none := by
  intro fuel
  induction fuel with
  | zero =>
    intro cells hc
    simp only [searchCells]
    rcases hf : (List.range 81).find? fun i => decide (cells[i]? = some 46) with _ | i
    · simp
    · exfalso
      have he := (find_empty_some cells i hf).2.1
      have := count_set_dot cells i 0 he (by omega)
      omega
  | succ fuel ih =>
    intro cells hc
    rw [searchCells]
    rcases hf : (List.range 81).find? fun i => decide (cells[i]? = some 46) with _ | i
    · simp
    · exact tryCells_total _ fuel (searchCells_false _) ih i _ cells (fun _ h => h)
        (find_empty_some cells i hf).2.1 hc

theorem Completion.freeAt {cells t : List Nat} (h : Completion cells t) (i v : Nat)
    (hi : i < 81) (hv : v ≠ 46) (ht : t[i]? = some v) : FreeAt cells i v := by
  intro j hj hji hsu hjv
  obtain ⟨_, _, hext, hnr⟩ := h
  have htj : t[j]? = some v := by
    rw [hext j hj (by rw [hjv]; simpa using hv), hjv]
  exact hv (hnr i j v hi hj (Ne.symm hji) hsu ht htj)

theorem Completion.set {cells t : List Nat} (h : Completion cells t) (i v : Nat)
    (he : cells[i]? = some 46) (ht : t[i]? = some v) : Completion (cells.set i v) t := by
  obtain ⟨h1, h2, hext, hnr⟩ := h
  refine ⟨h1, h2, ?_, hnr⟩
  intro j hj hne
  by_cases hji : i = j
  · subst hji
    rw [getElem?_set_same cells i v 46 he, ht]
  · rw [List.getElem?_set_ne hji] at hne ⊢
    exact hext j hj hne

theorem Completion.digit {cells t : List Nat} (h : Completion cells t) (i : Nat)
    (hi : i < 81) : ∃ k, k ∈ [1, 2, 3, 4, 5, 6, 7, 8, 9] ∧ t[i]? = some (48 + k) := by
  obtain ⟨h1, h2, _, _⟩ := h
  have hl : i < t.length := by omega
  have hd : IsDigit t[i] := h2 _ (List.getElem_mem hl)
  unfold IsDigit at hd
  refine ⟨t[i] - 48, ?_, ?_⟩
  · simp only [List.mem_cons, List.mem_singleton, List.not_mem_nil, or_false]
    omega
  · rw [List.getElem?_eq_getElem hl]
    congr 1
    omega

theorem tryCells_complete (recur : List Nat → Option (Bool × List Nat)) (n : Nat)
    (hrec : ∀ c c1, recur c = some (false, c1) → c1 = c)
    (hfill : ∀ c s, recur c = some (true, s) → Fills c s)
    (htot : ∀ c : List Nat, c.count 46 ≤ n → recur c ≠ none)
    (hcomp : ∀ c t : List Nat, c.count 46 ≤ n → c.length = 81 → Completion c t →
      ∃ s, recur c = some (true, s) ∧ LexLe s t)
    (i : Nat) (hi : i < 81) (t : List Nat) (k : Nat) (ht : t[i]? = some (48 + k)) :
    ∀ (nums cells : List Nat), nums.Pairwise (· < ·) → k ∈ nums →
      cells[i]? = some 46 → (∀ j, j < i → cells[j]? ≠ some 46) →
      cells.count 46 ≤ n + 1 → cells.length = 81 → Completion cells t →
      ∃ s, tryCells recur i nums cells = some (true, s) ∧ LexLe s t := by
  intro nums
  induction nums with
  | nil => intro cells _ hk; simp at hk
  | cons num rest ih =>
    intro cells hpw hk he hfirst hc hlen hcompl
    have hlen2 : (cells.set i (48 + num)).length = 81 := by rw [List.length_set]; exact hlen
    have hpw2 : rest.Pairwise (· < ·) := (List.pairwise_cons.1 hpw).2
    have hlt : ∀ m ∈ rest, num < m := (List.pairwise_cons.1 hpw).1
    have hcount := count_set_dot cells i (48 + num) he (by omega)
    simp only [tryCells]
    by_cases hp : placeable cells i (48 + num) = true
    · rw [if_pos hp]
      rcases hr : recur (cells.set i (48 + num)) with _ | ⟨b, c2⟩
      · exact absurd hr (htot _ (by omega))
      · cases b
        · have hc2 : c2 = cells.set i (48 + num) := hrec _ _ hr
          subst hc2
          simp only [set_restore cells i (48 + num) 46 he]
          have hkr : k ∈ rest := by
            rcases List.mem_cons.1 hk with rfl | hkr
            · exfalso
              obtain ⟨s, hs, _⟩ := hcomp _ t (by omega) hlen2 (hcompl.set i (48 + k) he ht)
              rw [hr] at hs
              simp at hs
            · exact hkr
          exact ih cells hpw2 hkr he hfirst hc hlen hcompl
        · refine ⟨c2, rfl, ?_⟩
          rcases List.mem_cons.1 hk with rfl | hkr
          · obtain ⟨s, hs, hle⟩ := hcomp _ t (by omega) hlen2 (hcompl.set i (48 + k) he ht)
            rw [hr] at hs
            simp only [Option.some.injEq, Prod.mk.injEq, true_and] at hs
            rw [hs]
            exact hle
          · have hf := hfill _ _ hr
            refine Or.inr ⟨i, 48 + num, 48 + k, ?_, ?_, ht, ?_⟩
            · intro j hj
              have hjne : i ≠ j := by omega
              have h1 := hf.2.1 j (by rw [List.getElem?_set_ne hjne]; exact hfirst j hj)
              rw [List.getElem?_set_ne hjne] at h1
              rw [h1, hcompl.2.2.1 j (by omega) (hfirst j hj)]
            · exact Fills.at_set cells c2 i (48 + num) (by omega) he hf
            · have := hlt k hkr
              omega
    · rw [if_neg hp]
      have hkr : k ∈ rest := by
        rcases List.mem_cons.1 hk with rfl | hkr
        · exfalso
          exact hp ((placeable_iff cells i (48 + k) hi).2
            (hcompl.freeAt i (48 + k) hi (by omega) ht))
        · exact hkr
      exact ih cells hpw2 hkr he hfirst hc hlen hcompl

theorem searchCells_complete : ∀ (fuel : Nat) (cells t : List Nat),
    cells.count 46 ≤ fuel → cells.length = 81 → Completion cells t →
    ∃ s, searchCells (fuel + 1) cells = some (true, s) ∧ LexLe s t := by
  intro fuel
  induction fuel with
  | zero =>
    intro cells t hc hl hcompl
    rw [searchCells]
    rcases hf : (List.range 81).find? fun i => decide (cells[i]? = some 46) with _ | i
    · refine ⟨cells, rfl, Or.inl ?_⟩
      apply List.ext_getElem?
      intro j
      by_cases hj : j < 81
      · exact (hcompl.2.2.1 j hj (find_empty_none cells hf j hj)).symm
      · rw [List.getElem?_eq_none (by omega), List.getElem?_eq_none (by have := hcompl.1; omega)]
    · exfalso
      have he := (find_empty_some cells i hf).2.1
      have := count_set_dot cells i 0 he (by omega)
      omega
  | succ fuel ih =>
    intro cells t hc hl hcompl
    rw [searchCells]
    rcases hf : (List.range 81).find? fun i => decide (cells[i]? = some 46) with _ | i
    · refine ⟨cells, rfl, Or.inl ?_⟩
      apply List.ext_getElem?
      intro j
      by_cases hj : j < 81
      · exact (hcompl.2.2.1 j hj (find_empty_none cells hf j hj)).symm
      · rw [List.getElem?_eq_none (by omega), List.getElem?_eq_none (by have := hcompl.1; omega)]
    · obtain ⟨hi, he, hfirst⟩ := find_empty_some cells i hf
      obtain ⟨k, hk, ht⟩ := hcompl.digit i hi
      refine tryCells_complete _ fuel (searchCells_false _) (searchCells_true _)
        (searchCells_total fuel) ?_ i hi t k ht _ cells (by decide) hk he hfirst hc hl hcompl
      exact ih

/-! ## The initial check -/

theorem precheckCells_cons_empty (cells rest : List Nat) (i : Nat) (he : cells[i]? = some 46) :
    precheckCells (i :: rest) cells = precheckCells rest cells := by
  simp [precheckCells, he]

theorem precheckCells_cons_free (cells rest : List Nat) (i v : Nat) (hi : i < 81)
    (hv : cells[i]? = some v) (hne : v ≠ 46) (hf : FreeAt cells i v) :
    precheckCells (i :: rest) cells = precheckCells rest cells := by
  have hp : placeable (cells.set i 46) i v = true := by
    rw [placeable_set cells i 46 v hi]
    exact (placeable_iff cells i v hi).2 hf
  have hd : ¬ (some v = some 46) := by simpa using hne
  simp only [precheckCells, hv, ne_eq, hd, not_false_eq_true, if_true, hp, Bool.not_true,
    Bool.false_eq_true, if_false, set_restore cells i 46 v hv]

theorem precheckCells_cons_clash (cells rest : List Nat) (i v : Nat) (hi : i < 81)
    (hv : cells[i]? = some v) (hne : v ≠ 46) (hf : ¬ FreeAt cells i v) :
    precheckCells (i :: rest) cells = .error .returnsFalse := by
  have hp : placeable (cells.set i 46) i v = false := by
    rw [placeable_set cells i 46 v hi, Bool.eq_false_iff]
    exact fun h => hf ((placeable_iff cells i v hi).1 h)
  have hd : ¬ (some v = some 46) := by simpa using hne
  simp only [precheckCells, hv, ne_eq, hd, not_false_eq_true, if_true, hp, Bool.not_false]

theorem getElem?_of_length (cells : List Nat) (hl : cells.length = 81) (i : Nat) (hi : i < 81) :
    ∃ v, cells[i]? = some v :=
  ⟨cells[i], List.getElem?_eq_getElem (by omega)⟩

theorem precheckCells_ok (cells : List Nat) (hl : cells.length = 81) :
    ∀ idxs : List Nat, (∀ i ∈ idxs, i < 81) →
      (∀ i ∈ idxs, ∀ v, cells[i]? = some v → v ≠ 46 → FreeAt cells i v) →
      precheckCells idxs cells = .ok cells := by
  intro idxs
  induction idxs with
  | nil => intro _ _; rfl
  | cons i rest ih =>
    intro hlt hfree
    have hi : i < 81 := hlt i (List.mem_cons_self _ _)
    have hrest := ih (fun j hj => hlt j (List.mem_cons_of_mem _ hj))
      (fun j hj => hfree j (List.mem_cons_of_mem _ hj))
    obtain ⟨v, hv⟩ := getElem?_of_length cells hl i hi
    by_cases hne : v = 46
    · subst hne
      rw [precheckCells_cons_empty cells rest i hv, hrest]
    · rw [precheckCells_cons_free cells rest i v hi hv hne
        (hfree i (List.mem_cons_self _ _) v hv hne), hrest]

theorem precheckCells_clash (cells : List Nat) (hl : cells.length = 81) :
    ∀ idxs : List Nat, (∀ i ∈ idxs, i < 81) →
      (∃ i ∈ idxs, ∃ v, cells[i]? = some v ∧ v ≠ 46 ∧ ¬ FreeAt cells i v) →
      precheckCells idxs cells = .error .returnsFalse := by
  intro idxs
  induction idxs with
  | nil => rintro _ ⟨i, hi, _⟩; simp at hi
  | cons i rest ih =>
    intro hlt hex
    have hi : i < 81 := hlt i (List.mem_cons_self _ _)
    obtain ⟨v, hv⟩ := getElem?_of_length cells hl i hi
    by_cases hne : v = 46
    · subst hne
      rw [precheckCells_cons_empty cells rest i hv]
      apply ih (fun j hj => hlt j (List.mem_cons_of_mem _ hj))
      obtain ⟨j, hj, w, hw, hwne, hwf⟩ := hex
      rcases List.mem_cons.1 hj with rfl | hjr
      · rw [hv] at hw
        cases hw
        exact absurd rfl hwne
      · exact ⟨j, hjr, w, hw, hwne, hwf⟩
    · by_cases hf : FreeAt cells i v
      · rw [precheckCells_cons_free cells rest i v hi hv hne hf]
        apply ih (fun j hj => hlt j (List.mem_cons_of_mem _ hj))
        obtain ⟨j, hj, w, hw, hwne, hwf⟩ := hex
        rcases List.mem_cons.1 hj with rfl | hjr
        · rw [hv] at hw
          cases hw
          exact absurd hf hwf
        · exact ⟨j, hjr, w, hw, hwne, hwf⟩
      · exact precheckCells_cons_clash cells rest i v hi hv hne hf

theorem precheckCells_noRepeat (cells : List Nat) (hl : cells.length = 81)
    (hn : NoRepeat cells) : precheckCells (List.range 81) cells = .ok cells := by
  apply precheckCells_ok cells hl _ (fun i hi => List.mem_range.1 hi)
  intro i hi v hv hne
  exact (noRepeat_iff_freeAt cells).1 hn i v (List.mem_range.1 hi) hv hne

theorem precheckCells_repeat (cells : List Nat) (hl : cells.length = 81)
    (hn : ¬ NoRepeat cells) : precheckCells (List.range 81) cells = .error .returnsFalse := by
  apply precheckCells_clash cells hl _ (fun i hi => List.mem_range.1 hi)
  by_contra hex
  apply hn
  rw [noRepeat_iff_freeAt]
  intro i v hi hv hne
  by_contra hf
  exact hex ⟨i, List.mem_range.2 hi, v, hv, hne, hf⟩

/-! ## `solve` in terms of the search on code units -/

theorem validate_wellFormed (g : JSString) (h : WellFormed g) : validate (some g) = .valid :=
  (validate_valid_iff (some g)).2 ⟨g, rfl, h⟩

theorem solve_of_not_valid (input : Option JSString) (h : validate input ≠ .valid) :
    solve input = some .returnsFalse := by
  rcases hv : validate input with _ | m
  · exact absurd hv h
  · unfold solve
    rw [hv]

theorem solve_wellFormed (g : JSString) (h : WellFormed g) :
    solve (some g) =
      match precheckCells (List.range 81) g with
      | .error o => some o
      | .ok cells =>
        match searchCells 82 cells with
        | none => none
        | some (true, s) => some (.returns s)
        | some (false, _) => some .returnsFalse := by
  unfold solve
  rw [validate_wellFormed g h]
  simp only [initialCheck_split]
  rcases precheckCells (List.range 81) g with o | cells
  · rfl
  · simp only [liftCheck, solvePuzzle_split]
    rcases searchCells 82 cells with _ | ⟨b, s⟩
    · rfl
    · cases b
      · rfl
      · simp only [liftSearch, Option.map_some', join_split]

theorem solve_noRepeat (g : JSString) (h : WellFormed g) (hn : NoRepeat g) :
    solve (some g) =
      match searchCells 82 g with
      | none => none
      | some (true, s) => some (.returns s)
      | some (false, _) => some .returnsFalse := by
  rw [solve_wellFormed g h, precheckCells_noRepeat g h.1 hn]

theorem solve_repeat (g : JSString) (h : WellFormed g) (hn : ¬ NoRepeat g) :
    solve (some g) = some .returnsFalse := by
  rw [solve_wellFormed g h, precheckCells_repeat g h.1 hn]

theorem count_le_81 (g : JSString) (h : g.length = 81) : g.count 46 ≤ 81 := by
  rw [← h]
  exact List.count_le_length _ _

/-! ## Solved grids -/

theorem Fills.completion {g s : List Nat} (hw : WellFormed g) (hn : NoRepeat g)
    (h : Fills g s) : Completion g s := by
  obtain ⟨h1, h2, h3, h4, h5⟩ := h
  have hl : s.length = 81 := by rw [h1, hw.1]
  refine ⟨hl, ?_, fun i _ hne => h2 i hne, h5 hn⟩
  intro c hc
  rcases h4 hw.2 c hc with hd | rfl
  · exact hd
  · exfalso
    obtain ⟨j, hj⟩ := List.mem_iff_getElem?.1 hc
    have hjl : j < s.length := (List.getElem?_eq_some.1 hj).1
    exact h3 j (by omega) hj

theorem Completion.noRepeat {g t : List Nat} (h : Completion g t) : NoRepeat g := by
  intro i j v hi hj hij hsu hiv hjv
  by_contra hne
  have h1 : t[i]? = some v := by rw [h.2.2.1 i hi (by rw [hiv]; simpa using hne), hiv]
  have h2 : t[j]? = some v := by rw [h.2.2.1 j hj (by rw [hjv]; simpa using hne), hjv]
  exact hne (h.2.2.2 i j v hi hj hij hsu h1 h2)

theorem solve_returns (input : Option JSString) (s : JSString)
    (h : solve input = some (.returns s)) :
    ∃ g, input = some g ∧ WellFormed g ∧ NoRepeat g ∧ searchCells 82 g = some (true, s) := by
  by_cases hv : validate input = .valid
  · obtain ⟨g, rfl, hw⟩ := (validate_valid_iff input).1 hv
    by_cases hn : NoRepeat g
    · refine ⟨g, rfl, hw, hn, ?_⟩
      rw [solve_noRepeat g hw hn] at h
      rcases hr : searchCells 82 g with _ | ⟨b, s1⟩
      · rw [hr] at h; cases h
      · rw [hr] at h
        cases b
        · cases h
        · simp only [Option.some.injEq, Outcome.returns.injEq] at h
          rw [h]
    · rw [solve_repeat g hw hn] at h
      cases h
  · rw [solve_of_not_valid input hv] at h
    cases h

theorem solve_returns_completion (g s : JSString) (h : solve (some g) = some (.returns s)) :
    WellFormed g ∧ Completion g s := by
  obtain ⟨g1, hg, hw, hn, hs⟩ := solve_returns (some g) s h
  cases hg
  exact ⟨hw, (searchCells_true 82 g s hs).completion hw hn⟩

theorem solve_of_completion (g t : JSString) (hw : WellFormed g) (ht : Completion g t) :
    ∃ s, solve (some g) = some (.returns s) ∧ LexLe s t := by
  obtain ⟨s, hs, hle⟩ := searchCells_complete 81 g t (count_le_81 g hw.1) hw.1 ht
  refine ⟨s, ?_, hle⟩
  rw [solve_noRepeat g hw ht.noRepeat, hs]

theorem digit_count (d : Nat) (hd : IsDigit d) :
    ([some 49, some 50, some 51, some 52, some 53, some 54, some 55, some 56, some 57] :
      List (Option Nat)).count (some d) = 1 := by
  unfold IsDigit at hd
  obtain ⟨h1, h2⟩ := hd
  interval_cases d <;> rfl

theorem count_unit (s : JSString) (hl : s.length = 81) (hd : ∀ c ∈ s, IsDigit c)
    (hn : NoRepeat s) (f : Nat → Nat) (hf : ∀ k, k < 9 → f k < 81)
    (hinj : ∀ k k', k < 9 → k' < 9 → k ≠ k' → f k ≠ f k' ∧ SameUnit (f k) (f k'))
    (d : Nat) (hdig : IsDigit d) :
    ((List.range 9).map fun k => s[f k]?).count (some d) = 1 := by
  have hget : ∀ k, k < 9 → ∃ v, s[f k]? = some v ∧ IsDigit v := by
    intro k hk
    have hlt : f k < s.length := by have := hf k hk; omega
    exact ⟨s[f k], List.getElem?_eq_getElem hlt, hd _ (List.getElem_mem hlt)⟩
  have hnodup : ((List.range 9).map fun k => s[f k]?).Nodup := by
    apply List.Nodup.map_on _ (List.nodup_range 9)
    intro k hk k' hk' heq
    have hk9 := List.mem_range.1 hk
    have hk9' := List.mem_range.1 hk'
    by_contra hne
    obtain ⟨v, hv, hvd⟩ := hget k hk9
    obtain ⟨h1, h2⟩ := hinj k k' hk9 hk9' hne
    have := hn (f k) (f k') v (hf k hk9) (hf k' hk9') h1 h2 hv (by rw [← heq, hv])
    unfold IsDigit at hvd
    omega
  have hsub : ((List.range 9).map fun k => s[f k]?) ⊆
      [some 49, some 50, some 51, some 52, some 53, some 54, some 55, some 56, some 57] := by
    intro x hx
    obtain ⟨k, hk, rfl⟩ := List.mem_map.1 hx
    obtain ⟨v, hv, hvd⟩ := hget k (List.mem_range.1 hk)
    rw [hv]
    unfold IsDigit at hvd
    obtain ⟨h1, h2⟩ := hvd
    interval_cases v <;> simp
  have hperm := (List.subperm_of_subset hnodup hsub).perm_of_length_le (by simp)
  rw [List.count, hperm.countP_eq, ← List.count, digit_count d hdig]

theorem count_row (s : JSString) (hl : s.length = 81) (hd : ∀ c ∈ s, IsDigit c)
    (hn : NoRepeat s) (r d : Nat) (hr : r < 9) (hdig : IsDigit d) :
    (rowCells s r).count (some d) = 1 := by
  refine count_unit s hl hd hn (fun c => r * 9 + c) (fun k hk => by beta_reduce; omega) ?_ d hdig
  intro k k' hk hk' hne
  beta_reduce
  exact ⟨by omega, Or.inl (by omega)⟩

theorem count_col (s : JSString) (hl : s.length = 81) (hd : ∀ c ∈ s, IsDigit c)
    (hn : NoRepeat s) (c d : Nat) (hc : c < 9) (hdig : IsDigit d) :
    (colCells s c).count (some d) = 1 := by
  refine count_unit s hl hd hn (fun r => r * 9 + c) (fun k hk => by beta_reduce; omega) ?_ d hdig
  intro k k' hk hk' hne
  beta_reduce
  exact ⟨by omega, Or.inr (Or.inl (by omega))⟩

theorem count_region (s : JSString) (hl : s.length = 81) (hd : ∀ c ∈ s, IsDigit c)
    (hn : NoRepeat s) (b d : Nat) (hb : b < 9) (hdig : IsDigit d) :
    (regionCells s b).count (some d) = 1 := by
  refine count_unit s hl hd hn (fun k => (b / 3 * 3 + k / 3) * 9 + (b % 3 * 3 + k % 3))
    (fun k hk => by beta_reduce; omega) ?_ d hdig
  intro k k' hk hk' hne
  beta_reduce
  exact ⟨by omega, Or.inr (Or.inr ⟨by omega, by omega⟩)⟩

/-! ## The packed grid computes the same search -/

theorem unitScan_iff (hit : Nat → Bool) (i : Nat) (hi : i < 81) :
    unitScan hit i = true ↔ ∀ j, j < 81 → j ≠ i → SameUnit i j → hit j = false := by
  simp only [unitScan, rowScan, colScan, regionScan, Bool.and_eq_true, List.all_eq_true,
    List.mem_range, List.mem_range'_1, Bool.not_eq_true', Bool.and_eq_false_imp,
    decide_eq_true_eq, and_imp, ne_eq]
  constructor
  · rintro ⟨⟨hr, hc⟩, hg⟩ j hj hne hsu
    rcases hsu with h | h | ⟨h1, h2⟩
    · have := hr (j % 9) (by omega) (by omega)
      have e : i / 9 * 9 + j % 9 = j := by omega
      rwa [e] at this
    · have := hc (j / 9) (by omega) (by omega)
      have e : j / 9 * 9 + i % 9 = j := by omega
      rwa [e] at this
    · have := hg (j / 9) (by omega) (by omega) (j % 9) (by omega) (by omega) (by omega)
      have e : j / 9 * 9 + j % 9 = j := by omega
      rwa [e] at this
  · intro h
    refine ⟨⟨?_, ?_⟩, ?_⟩
    · intro col hc hne
      exact h (i / 9 * 9 + col) (by omega) (by omega) (Or.inl (by omega))
    · intro r hr hne
      exact h (r * 9 + i % 9) (by omega) (by omega) (Or.inr (Or.inl (by omega)))
    · intro r h1 h2 c h3 h4 hne
      exact h (r * 9 + c) (by omega) (by omega) (Or.inr (Or.inr ⟨by omega, by omega⟩))

theorem unitScan_congr (hit1 hit2 : Nat → Bool) (i : Nat) (hi : i < 81)
    (h : ∀ j, j < 81 → hit1 j = hit2 j) : unitScan hit1 i = unitScan hit2 i := by
  rw [Bool.eq_iff_iff, unitScan_iff hit1 i hi, unitScan_iff hit2 i hi]
  constructor
  · intro h1 j hj hne hsu
    rw [← h j hj]
    exact h1 j hj hne hsu
  · intro h1 j hj hne hsu
    rw [h j hj]
    exact h1 j hj hne hsu

theorem placeable_eq_unitScan (cells : List Nat) (i v : Nat) :
    placeable cells i v = unitScan (fun idx => decide (cells[idx]? = some v)) i := rfl

theorem cellOf_pack : ∀ (cells : List Nat) (idx v : Nat), (∀ c ∈ cells, c < 256) →
    cells[idx]? = some v → cellOf (pack cells) idx = v := by
  intro cells
  induction cells with
  | nil => intro idx v _ h; simp at h
  | cons c cs ih =>
    intro idx v hb h
    have hc : c < 256 := hb c (List.mem_cons_self _ _)
    have hdiv : (c + 256 * pack cs) / 256 = pack cs := by omega
    cases idx with
    | zero =>
      simp only [List.getElem?_cons_zero, Option.some.injEq] at h
      subst h
      simp only [cellOf, pack, pow_zero, Nat.div_one]
      omega
    | succ idx =>
      simp only [List.getElem?_cons_succ] at h
      have := ih idx v (fun x hx => hb x (List.mem_cons_of_mem _ hx)) h
      simp only [cellOf, pack] at this ⊢
      rw [Nat.pow_succ', ← Nat.div_div_eq_div_mul, hdiv]
      exact this

theorem pack_set : ∀ (cells : List Nat) (idx a v : Nat), cells[idx]? = some a →
    pack (cells.set idx v) + a * 256 ^ idx = pack cells + v * 256 ^ idx := by
  intro cells
  induction cells with
  | nil => intro idx a v h; simp at h
  | cons c cs ih =>
    intro idx a v h
    cases idx with
    | zero =>
      simp only [List.getElem?_cons_zero, Option.some.injEq] at h
      subst h
      simp only [List.set_cons_zero, pack, pow_zero, Nat.mul_one]
      omega
    | succ idx =>
      simp only [List.getElem?_cons_succ] at h
      have := ih idx a v h
      simp only [List.set_cons_succ, pack, Nat.pow_succ']
      have e1 : a * (256 * 256 ^ idx) = 256 * (a * 256 ^ idx) := by ring
      have e2 : v * (256 * 256 ^ idx) = 256 * (v * 256 ^ idx) := by ring
      rw [e1, e2]
      omega

theorem setCell_pack (cells : List Nat) (idx a v : Nat) (hb : ∀ c ∈ cells, c < 256)
    (h : cells[idx]? = some a) : setCell (pack cells) idx v = pack (cells.set idx v) := by
  have h1 := pack_set cells idx a v h
  have h0 := pack_set cells idx a 0 h
  rw [setCell, cellOf_pack cells idx a hb h]
  omega

theorem unpack_pack (cells : List Nat) (hl : cells.length = 81) (hb : ∀ c ∈ cells, c < 256) :
    unpack (pack cells) = cells := by
  apply List.ext_getElem?
  intro j
  by_cases hj : j < 81
  · have hjl : j < cells.length := by omega
    rw [unpack, List.getElem?_map, List.getElem?_range hj, List.getElem?_eq_getElem hjl,
      Option.map_some', cellOf_pack cells j cells[j] hb (List.getElem?_eq_getElem hjl)]
  · have hu : (unpack (pack cells)).length = 81 := by simp [unpack]
    rw [List.getElem?_eq_none (by omega), List.getElem?_eq_none (by omega)]

theorem hit_pack (cells : List Nat) (hl : cells.length = 81) (hb : ∀ c ∈ cells, c < 256)
    (v j : Nat) (hj : j < 81) :
    (cellOf (pack cells) j == v) = decide (cells[j]? = some v) := by
  have hjl : j < cells.length := by omega
  have hget := List.getElem?_eq_getElem hjl
  rw [cellOf_pack cells j cells[j] hb hget, hget, Bool.eq_iff_iff]
  simp

theorem placeablePacked_pack (cells : List Nat) (hl : cells.length = 81)
    (hb : ∀ c ∈ cells, c < 256) (i v : Nat) (hi : i < 81) :
    placeablePacked (pack cells) i v = placeable cells i v := by
  rw [placeable_eq_unitScan, placeablePacked]
  exact unitScan_congr _ _ i hi (fun j hj => hit_pack cells hl hb v j hj)

theorem find_congr (p q : Nat → Bool) : ∀ (l : List Nat), (∀ x ∈ l, p x = q x) →
    l.find? p = l.find? q := by
  intro l
  induction l with
  | nil => intro _; rfl
  | cons x xs ih =>
    intro h
    simp only [List.find?_cons, h x (List.mem_cons_self _ _),
      ih (fun y hy => h y (List.mem_cons_of_mem _ hy))]

theorem lt_256_of_isCell {c : Nat} (h : IsCell c) : c < 256 := by
  unfold IsCell IsDigit at h
  omega

theorem bounded_set (cells : List Nat) (i v : Nat) (hv : v < 256)
    (hb : ∀ x ∈ cells, x < 256) : ∀ x ∈ cells.set i v, x < 256 := by
  intro x hx
  rcases List.mem_or_eq_of_mem_set hx with hm | rfl
  · exact hb x hm
  · exact hv

theorem tryPacked_pack (recurP : Nat → Option (Bool × Nat))
    (recur : List Nat → Option (Bool × List Nat))
    (hrec : ∀ c c1, recur c = some (false, c1) → c1 = c)
    (h : ∀ c : List Nat, c.length = 81 → (∀ x ∈ c, x < 256) →
      recurP (pack c) = (recur c).map fun r => (r.1, pack r.2))
    (i : Nat) (hi : i < 81) :
    ∀ (nums cells : List Nat), (∀ num ∈ nums, num ∈ [1, 2, 3, 4, 5, 6, 7, 8, 9]) →
      cells.length = 81 → (∀ x ∈ cells, x < 256) → cells[i]? = some 46 →
      tryPacked recurP i nums (pack cells) =
        (tryCells recur i nums cells).map fun r => (r.1, pack r.2) := by
  intro nums
  induction nums with
  | nil => intro cells _ _ _ _; rfl
  | cons num rest ih =>
    intro cells hn hl hb he
    have hrest : ∀ m ∈ rest, m ∈ [1, 2, 3, 4, 5, 6, 7, 8, 9] :=
      fun m hm => hn m (List.mem_cons_of_mem _ hm)
    have hd := isDigit_of_mem (hn num (List.mem_cons_self _ _))
    have hv : 48 + num < 256 := lt_256_of_isCell (Or.inl hd)
    simp only [tryPacked, tryCells, placeablePacked_pack cells hl hb i _ hi,
      setCell_pack cells i 46 _ hb he]
    by_cases hp : placeable cells i (48 + num) = true
    · rw [if_pos hp, if_pos hp,
        h (cells.set i (48 + num)) (by rw [List.length_set]; exact hl)
          (bounded_set cells i _ hv hb)]
      rcases hr : recur (cells.set i (48 + num)) with _ | ⟨b, c2⟩
      · rfl
      · cases b
        · have hc2 : c2 = cells.set i (48 + num) := hrec _ _ hr
          subst hc2
          simp only [Option.map_some', set_restore cells i (48 + num) 46 he]
          rw [setCell_pack (cells.set i (48 + num)) i (48 + num) 46
            (bounded_set cells i _ hv hb) (getElem?_set_same cells i _ 46 he),
            set_restore cells i (48 + num) 46 he]
          exact ih cells hrest hl hb he
        · rfl
    · rw [if_neg hp, if_neg hp]
      exact ih cells hrest hl hb he

theorem find_empty_pack (cells : List Nat) (hl : cells.length = 81)
    (hb : ∀ c ∈ cells, c < 256) :
    ((List.range 81).find? fun i => cellOf (pack cells) i == 46) =
      (List.range 81).find? fun i => decide (cells[i]? = some 46) :=
  find_congr _ _ _ (fun j hj => hit_pack cells hl hb 46 j (List.mem_range.1 hj))

theorem searchPacked_pack : ∀ (fuel : Nat) (cells : List Nat), cells.length = 81 →
    (∀ x ∈ cells, x < 256) →
    searchPacked fuel (pack cells) = (searchCells fuel cells).map fun r => (r.1, pack r.2) := by
  intro fuel
  induction fuel with
  | zero => intro cells _ _; rfl
  | succ fuel ih =>
    intro cells hl hb
    simp only [searchPacked, searchCells, find_empty_pack cells hl hb]
    rcases hf : (List.range 81).find? fun i => decide (cells[i]? = some 46) with _ | i
    · rfl
    · obtain ⟨hi, he, _⟩ := find_empty_some cells i hf
      exact tryPacked_pack _ _ (searchCells_false fuel) ih i hi _ cells (fun _ h => h) hl hb he

theorem noRepeat_of_packed (cells : List Nat) (hl : cells.length = 81)
    (hb : ∀ c ∈ cells, c < 256) (h : noRepeatPacked (pack cells) = true) : NoRepeat cells := by
  rw [noRepeat_iff_freeAt]
  intro i v hi hv hne
  simp only [noRepeatPacked, List.all_eq_true, List.mem_range, Bool.or_eq_true,
    beq_iff_eq] at h
  have hc := cellOf_pack cells i v hb hv
  rcases h i hi with h1 | h1
  · rw [hc] at h1
    exact absurd h1 hne
  · rw [hc, placeablePacked_pack cells hl hb i v hi] at h1
    exact (placeable_iff cells i v hi).1 h1

theorem solve_by_packed (g s : JSString) (hv : validate (some g) = .valid)
    (hn : noRepeatPacked (pack g) = true) (hs : searchUnpacked 82 g = some (true, s)) :
    solve (some g) = some (.returns s) := by
  obtain ⟨g1, hg, hw⟩ := (validate_valid_iff (some g)).1 hv
  cases hg
  have hb : ∀ c ∈ g, c < 256 := fun c hc => lt_256_of_isCell (hw.2 c hc)
  have hnr := noRepeat_of_packed g hw.1 hb hn
  rw [solve_noRepeat g hw hnr]
  rw [searchUnpacked, searchPacked_pack 82 g hw.1 hb] at hs
  rcases hr : searchCells 82 g with _ | ⟨b, s1⟩
  · rw [hr] at hs; cases hs
  · rw [hr] at hs
    simp only [Option.map_some', Option.some.injEq, Prod.mk.injEq] at hs
    obtain ⟨hb1, hs1⟩ := hs
    subst hb1
    have hf := searchCells_true 82 g s1 hr
    have hl1 : s1.length = 81 := by rw [hf.1, hw.1]
    have hb1 : ∀ c ∈ s1, c < 256 := fun c hc => lt_256_of_isCell (hf.2.2.2.1 hw.2 c hc)
    rw [unpack_pack s1 hl1 hb1] at hs1
    rw [hs1]

theorem validPuzzle_valid : validate (some validPuzzle) = .valid := by decide!

theorem solve_validPuzzle : solve (some validPuzzle) = some (.returns solvedPuzzle) :=
  solve_by_packed validPuzzle solvedPuzzle validPuzzle_valid (by decide!) (by decide!)

theorem validPuzzle_wellFormed : WellFormed validPuzzle :=
  (solve_returns_completion validPuzzle solvedPuzzle solve_validPuzzle).1

theorem solvedPuzzle_completion : Completion validPuzzle solvedPuzzle :=
  (solve_returns_completion validPuzzle solvedPuzzle solve_validPuzzle).2

/-! ## The claims about `solve` -/

/-- C1. Soundness of `solve`: for every input, if `solve` returns a string `s`, then `s`
has exactly 81 characters, every character is a digit `1`..`9`, `validate(s)` is `true`,
and each of the 9 rows, 9 columns and 9 regions of `s` contains each digit `1`..`9`
exactly once. -/
theorem solve_sound (input : Option JSString) (s : JSString)
    (h : solve input = some (.returns s)) :
    s.length = 81 ∧ (∀ c ∈ s, IsDigit c) ∧ validate (some s) = .valid ∧
      (∀ r d, r < 9 → IsDigit d → (rowCells s r).count (some d) = 1) ∧
      (∀ c d, c < 9 → IsDigit d → (colCells s c).count (some d) = 1) ∧
      (∀ b d, b < 9 → IsDigit d → (regionCells s b).count (some d) = 1) := by
  obtain ⟨g, hg, _, _, _⟩ := solve_returns input s h
  subst hg
  obtain ⟨_, hl, hd, _, hn⟩ := solve_returns_completion g s h
  refine ⟨hl, hd, validate_wellFormed s ⟨hl, fun c hc => Or.inl (hd c hc)⟩, ?_, ?_, ?_⟩
  · exact fun r d hr hdig => count_row s hl hd hn r d hr hdig
  · exact fun c d hc hdig => count_col s hl hd hn c d hc hdig
  · exact fun b d hb hdig => count_region s hl hd hn b d hb hdig

/-- Witness of C1: the puzzle of the unit tests and the string `solve` returns on it. -/
theorem solve_sound_witness :
    solve (some validPuzzle) = some (.returns solvedPuzzle) ∧
      solvedPuzzle.length = 81 ∧ (∀ c ∈ solvedPuzzle, IsDigit c) ∧
      validate (some solvedPuzzle) = .valid ∧
      (∀ r d, r < 9 → IsDigit d → (rowCells solvedPuzzle r).count (some d) = 1) ∧
      (∀ c d, c < 9 → IsDigit d → (colCells solvedPuzzle c).count (some d) = 1) ∧
      (∀ b d, b < 9 → IsDigit d → (regionCells solvedPuzzle b).count (some d) = 1) :=
  ⟨solve_validPuzzle, solve_sound (some validPuzzle) solvedPuzzle solve_validPuzzle⟩

/-- C2. Completeness of `solve`: on a well-formed input that has a valid completion (digits
for the empty cells such that no row, column or region repeats a digit) `solve` returns a
grid and not `false`; so on well-formed input it returns `false` only when there is no
valid completion. -/
theorem solve_complete (g : JSString) (hw : WellFormed g) :
    ((∃ t, Completion g t) →
      (∃ s, solve (some g) = some (.returns s)) ∧ solve (some g) ≠ some .returnsFalse) ∧
    (solve (some g) = some .returnsFalse → ¬ ∃ t, Completion g t) := by
  have key : (∃ t, Completion g t) →
      (∃ s, solve (some g) = some (.returns s)) ∧ solve (some g) ≠ some .returnsFalse := by
    rintro ⟨t, ht⟩
    obtain ⟨s, hs, _⟩ := solve_of_completion g t hw ht
    refine ⟨⟨s, hs⟩, ?_⟩
    rw [hs]
    simp
  exact ⟨key, fun hf hex => (key hex).2 hf⟩

/-- Witness of C2: the puzzle of the unit tests is well-formed and has a completion. -/
theorem solve_complete_witness :
    WellFormed validPuzzle ∧ (∃ t, Completion validPuzzle t) ∧
      (∃ s, solve (some validPuzzle) = some (.returns s)) ∧
      solve (some validPuzzle) ≠ some .returnsFalse :=
  ⟨validPuzzle_wellFormed, ⟨solvedPuzzle, solvedPuzzle_completion⟩,
    (solve_complete validPuzzle validPuzzle_wellFormed).1 ⟨solvedPuzzle, solvedPuzzle_completion⟩⟩

/-- C3. Preservation law: if `solve` returns the string `s` on the input `g`, then for
every index `i` in 0..80 with `g[i]` different from `.`, `s[i]` equals `g[i]`. -/
theorem solve_preserves_clues (g s : JSString) (h : solve (some g) = some (.returns s))
    (i : Nat) (hi : i < 81) (hne : g[i]? ≠ some 46) : s[i]? = g[i]? :=
  (solve_returns_completion g s h).2.2.2.1 i hi hne

/-- Witness of C3: the first cell of the puzzle of the unit tests, a clue `1`. -/
theorem solve_preserves_clues_witness :
    solve (some validPuzzle) = some (.returns solvedPuzzle) ∧ validPuzzle[0]? ≠ some 46 ∧
      solvedPuzzle[0]? = validPuzzle[0]? :=
  ⟨solve_validPuzzle, by decide,
    solve_preserves_clues validPuzzle solvedPuzzle solve_validPuzzle 0 (by decide) (by decide)⟩

/-- C4. Ordering of the result: on a well-formed input with a valid completion, `solve`
returns a valid completion that is least in lexicographic order among all valid
completions; in particular, when the completion is unique, `solve` returns it. -/
theorem solve_least_completion (g t : JSString) (hw : WellFormed g) (ht : Completion g t) :
    ∃ s, solve (some g) = some (.returns s) ∧ Completion g s ∧
      (∀ t1, Completion g t1 → LexLe s t1) ∧
      ((∀ t1, Completion g t1 → t1 = t) → s = t) := by
  obtain ⟨s, hs, _⟩ := solve_of_completion g t hw ht
  have hc := (solve_returns_completion g s hs).2
  refine ⟨s, hs, hc, ?_, fun huniq => huniq s hc⟩
  intro t1 ht1
  obtain ⟨s1, hs1, hle⟩ := solve_of_completion g t1 hw ht1
  rw [hs] at hs1
  simp only [Option.some.injEq, Outcome.returns.injEq] at hs1
  rw [hs1]
  exact hle

/-- Witness of C4: on the example puzzle of the specification `solve` returns the stated
solution, which is a valid completion and the least one. -/
theorem solve_least_completion_witness :
    WellFormed validPuzzle ∧ Completion validPuzzle solvedPuzzle ∧
      solve (some validPuzzle) = some (.returns solvedPuzzle) ∧
      ∃ s, solve (some validPuzzle) = some (.returns s) ∧ Completion validPuzzle s ∧
        (∀ t1, Completion validPuzzle t1 → LexLe s t1) ∧
        ((∀ t1, Completion validPuzzle t1 → t1 = solvedPuzzle) → s = solvedPuzzle) :=
  ⟨validPuzzle_wellFormed, solvedPuzzle_completion, solve_validPuzzle,
    solve_least_completion validPuzzle solvedPuzzle validPuzzle_wellFormed
      solvedPuzzle_completion⟩

/-- C5. Contradictory clues are rejected: on a well-formed input in which two different
cells of one row, column or region hold the same digit, `solve` returns `false`, and it
does so from the initial check, before the search is started. -/
theorem solve_rejects_contradictory_clues (g : JSString) (hw : WellFormed g) (i j v : Nat)
    (hi : i < 81) (hj : j < 81) (hij : i ≠ j) (hsu : SameUnit i j) (hv : IsDigit v)
    (hgi : g[i]? = some v) (hgj : g[j]? = some v) :
    solve (some g) = some .returnsFalse ∧
      initialCheck (List.range 81) (split g) = .error .returnsFalse := by
  have hn : ¬ NoRepeat g := by
    intro hn
    have := hn i j v hi hj hij hsu hgi hgj
    unfold IsDigit at hv
    omega
  refine ⟨solve_repeat g hw hn, ?_⟩
  rw [initialCheck_split, precheckCells_repeat g hw.1 hn]
  rfl

/-- Witness of C5: `invalidPuzzle` of the unit tests, with `1` in the first two cells. -/
theorem solve_rejects_contradictory_clues_witness :
    WellFormed invalidPuzzle ∧ SameUnit 0 1 ∧ invalidPuzzle[0]? = some 49 ∧
      invalidPuzzle[1]? = some 49 ∧ solve (some invalidPuzzle) = some .returnsFalse ∧
      initialCheck (List.range 81) (split invalidPuzzle) = .error .returnsFalse :=
  ⟨by decide!, by decide, by decide, by decide,
    solve_rejects_contradictory_clues invalidPuzzle (by decide!) 0 1 49 (by decide) (by decide)
      (by decide) (by decide) (by decide) (by decide) (by decide)⟩

/-- C6. Malformed input never reaches the search: on every input on which `validate`
does not return `true`, `solve` returns `false`. -/
theorem solve_rejects_malformed (input : Option JSString) (h : validate input ≠ .valid) :
    solve input = some .returnsFalse :=
  solve_of_not_valid input h

/-- Witness of C6: `invalidCharPuzzle` of the unit tests. -/
theorem solve_rejects_malformed_witness :
    validate (some invalidCharPuzzle) ≠ .valid ∧
      solve (some invalidCharPuzzle) = some .returnsFalse :=
  ⟨by decide!, solve_rejects_malformed (some invalidCharPuzzle) (by decide!)⟩

/-- C7. Idempotence on solved grids: on a grid `g` of 81 digits `1`..`9` in which no row,
column or region repeats a digit, `solve` returns `g` itself. -/
theorem solve_idempotent_on_solved (g : JSString) (hl : g.length = 81)
    (hd : ∀ c ∈ g, IsDigit c) (hn : NoRepeat g) : solve (some g) = some (.returns g) := by
  have hw : WellFormed g := ⟨hl, fun c hc => Or.inl (hd c hc)⟩
  have hfind : ((List.range 81).find? fun i => decide (g[i]? = some 46)) = none := by
    rw [List.find?_range_eq_none]
    intro i hi
    have hlt : i < g.length := by omega
    have hdi := hd _ (List.getElem_mem hlt)
    unfold IsDigit at hdi
    have hne : g[i] ≠ 46 := by omega
    simp [List.getElem?_eq_getElem hlt, hne]
  have hs : searchCells 82 g = some (true, g) := by
    rw [searchCells, hfind]
  rw [solve_noRepeat g hw hn, hs]

/-- Witness of C7: `solvedPuzzle` of the unit tests. -/
theorem solve_idempotent_on_solved_witness :
    solvedPuzzle.length = 81 ∧ (∀ c ∈ solvedPuzzle, IsDigit c) ∧ NoRepeat solvedPuzzle ∧
      solve (some solvedPuzzle) = some (.returns solvedPuzzle) :=
  ⟨solvedPuzzle_completion.1, solvedPuzzle_completion.2.1, solvedPuzzle_completion.2.2.2,
    solve_idempotent_on_solved solvedPuzzle solvedPuzzle_completion.1
      solvedPuzzle_completion.2.1 solvedPuzzle_completion.2.2.2⟩

/-! ## The claims about `validate` -/

/-- C8. `validate` is decided by the first failing check in a fixed order: 'Required field
missing' when the input is absent or the empty string; otherwise 'Expected puzzle to be 81
characters long' when the length is not 81; otherwise 'Invalid characters in puzzle' when
some character is outside `1`..`9` and `.`; and `true` otherwise, so that `validate(s)` is
`true` exactly when `s` has length 81 and every character is `1`..`9` or `.`. -/
theorem validate_first_failing_check :
    validate none = .error "Required field missing" ∧
    validate (some []) = .error "Required field missing" ∧
    (∀ s : JSString, s ≠ [] → s.length ≠ 81 →
      validate (some s) = .error "Expected puzzle to be 81 characters long") ∧
    (∀ s : JSString, s.length = 81 → (∃ c ∈ s, ¬ IsCell c) →
      validate (some s) = .error "Invalid characters in puzzle") ∧
    (∀ s : JSString, s.length = 81 → (∀ c ∈ s, IsCell c) → validate (some s) = .valid) ∧
    (∀ s : JSString, validate (some s) = .valid ↔ s.length = 81 ∧ ∀ c ∈ s, IsCell c) := by
  refine ⟨rfl, rfl, ?_, ?_, ?_, ?_⟩
  · intro s hne hl
    exact validate_wrong_length s hne hl
  · intro s hl hex
    exact validate_invalid_chars s hl hex
  · intro s hl hall
    exact validate_wellFormed s ⟨hl, hall⟩
  · intro s
    rw [validate_valid_iff]
    constructor
    · rintro ⟨t, ht, hwf⟩
      cases ht
      exact hwf
    · intro hwf
      exact ⟨s, rfl, hwf⟩

/-- C9 as stated fails: the empty string has a length other than 81, and `validate`
answers 'Required field missing' for it, not the wrong-length message. -/
theorem validate_wrong_length_counterexample :
    ([] : JSString).length ≠ 81 ∧ validate (some []) = .error "Required field missing" ∧
      validate (some []) ≠ .error "Expected puzzle to be 81 characters long" := by
  decide

/-- C9, amended: for every non-empty input string whose length is not 81, `validate` returns
'Expected puzzle to be 81 characters long'. -/
theorem validate_wrong_length_nonempty (s : JSString) (hne : s ≠ []) (hl : s.length ≠ 81) :
    validate (some s) = .error "Expected puzzle to be 81 characters long" :=
  validate_wrong_length s hne hl

/-- Witness of C9, amended: `shortPuzzle` of the unit tests. -/
theorem validate_wrong_length_nonempty_witness :
    shortPuzzle ≠ [] ∧ shortPuzzle.length ≠ 81 ∧
      validate (some shortPuzzle) = .error "Expected puzzle to be 81 characters long" :=
  ⟨by decide, by decide, validate_wrong_length_nonempty shortPuzzle (by decide) (by decide)⟩

/-- C10 as stated fails: the one-character string `X` contains a character outside `1`..`9`
and `.`, and `validate` answers 'Expected puzzle to be 81 characters long' for it, not the
invalid-characters message. -/
theorem validate_invalid_chars_counterexample :
    (∃ c ∈ lit "X", ¬ IsCell c) ∧
      validate (some (lit "X")) = .error "Expected puzzle to be 81 characters long" ∧
      validate (some (lit "X")) ≠ .error "Invalid characters in puzzle" :=
  ⟨⟨88, by decide, by decide⟩, by decide, by decide⟩

/-- C10, amended: for every input string of length 81 containing at least one character
outside `1`..`9` and `.`, `validate` returns 'Invalid characters in puzzle'. -/
theorem validate_invalid_chars_of_length (s : JSString) (hl : s.length = 81)
    (hex : ∃ c ∈ s, ¬ IsCell c) : validate (some s) = .error "Invalid characters in puzzle" :=
  validate_invalid_chars s hl hex

/-- Witness of C10, amended: `invalidCharPuzzle` of the unit tests, with its `X`. -/
theorem validate_invalid_chars_of_length_witness :
    invalidCharPuzzle.length = 81 ∧ (∃ c ∈ invalidCharPuzzle, ¬ IsCell c) ∧
      validate (some invalidCharPuzzle) = .error "Invalid characters in puzzle" :=
  ⟨by decide, ⟨88, by decide, by decide⟩,
    validate_invalid_chars_of_length invalidCharPuzzle (by decide) ⟨88, by decide, by decide⟩⟩

/-! ## The claims about the placement checkers -/

/-- C11. `checkRowPlacement` is exactly the row-uniqueness test: on an 81-character grid
`g`, for `row` and `column` in 0..8 and a digit `v`, it returns `false` if and only if some
column `c` in 0..8 other than `column` has `g[row*9 + c]` equal to `v`, and `true`
otherwise. -/
theorem checkRowPlacement_exact (g : JSString) (row column v : Nat) (_hl : g.length = 81)
    (_hr : row < 9) (_hc : column < 9) (_hv : IsDigit v) :
    (checkRowPlacement g row column [v] = false ↔
      ∃ c, c < 9 ∧ c ≠ column ∧ g[row * 9 + c]? = some v) ∧
    (checkRowPlacement g row column [v] = true ↔
      ¬ ∃ c, c < 9 ∧ c ≠ column ∧ g[row * 9 + c]? = some v) := by
  have key : checkRowPlacement g row column [v] = true ↔
      ¬ ∃ c, c < 9 ∧ c ≠ column ∧ g[row * 9 + c]? = some v := by
    rw [checkRowPlacement_unit, rowFree_iff]
    constructor
    · rintro h ⟨c, hc, hne, hg⟩
      exact h c hc hne hg
    · intro h c hc hne hg
      exact h ⟨c, hc, hne, hg⟩
  refine ⟨?_, key⟩
  rw [← Bool.not_eq_true, key, not_not]

/-- Witness of C11: the two row tests of the unit suite on `validPuzzle`, row 0, column 1:
the value `1` stands in column 0, the value `3` nowhere in the row. -/
theorem checkRowPlacement_exact_witness :
    checkRowPlacement validPuzzle 0 1 (lit "1") = false ∧
      checkRowPlacement validPuzzle 0 1 (lit "3") = true ∧
      ((checkRowPlacement validPuzzle 0 1 [49] = false ↔
        ∃ c, c < 9 ∧ c ≠ 1 ∧ validPuzzle[0 * 9 + c]? = some 49) ∧
      (checkRowPlacement validPuzzle 0 1 [49] = true ↔
        ¬ ∃ c, c < 9 ∧ c ≠ 1 ∧ validPuzzle[0 * 9 + c]? = some 49)) :=
  ⟨by decide, by decide,
    checkRowPlacement_exact validPuzzle 0 1 49 (by decide) (by decide) (by decide) (by decide)⟩

/-- C12. `checkColPlacement` is exactly the column-uniqueness test: on an 81-character
grid `g`, for `row` and `column` in 0..8 and a digit `v`, it returns `false` if and only if
some row `r` in 0..8 other than `row` has `g[r*9 + column]` equal to `v`, and `true`
otherwise. -/
theorem checkColPlacement_exact (g : JSString) (row column v : Nat) (_hl : g.length = 81)
    (_hr : row < 9) (_hc : column < 9) (_hv : IsDigit v) :
    (checkColPlacement g row column [v] = false ↔
      ∃ r, r < 9 ∧ r ≠ row ∧ g[r * 9 + column]? = some v) ∧
    (checkColPlacement g row column [v] = true ↔
      ¬ ∃ r, r < 9 ∧ r ≠ row ∧ g[r * 9 + column]? = some v) := by
  have key : checkColPlacement g row column [v] = true ↔
      ¬ ∃ r, r < 9 ∧ r ≠ row ∧ g[r * 9 + column]? = some v := by
    rw [checkColPlacement_unit, colFree_iff]
    constructor
    · rintro h ⟨r, hr, hne, hg⟩
      exact h r hr hne hg
    · intro h r hr hne hg
      exact h ⟨r, hr, hne, hg⟩
  refine ⟨?_, key⟩
  rw [← Bool.not_eq_true, key, not_not]

/-- Witness of C12: the two column tests of the unit suite on `validPuzzle`, row 0,
column 1: the value `9` stands in row 3 of the column, the value `3` nowhere in it. -/
theorem checkColPlacement_exact_witness :
    checkColPlacement validPuzzle 0 1 (lit "9") = false ∧
      checkColPlacement validPuzzle 0 1 (lit "3") = true ∧
      ((checkColPlacement validPuzzle 0 1 [57] = false ↔
        ∃ r, r < 9 ∧ r ≠ 0 ∧ validPuzzle[r * 9 + 1]? = some 57) ∧
      (checkColPlacement validPuzzle 0 1 [57] = true ↔
        ¬ ∃ r, r < 9 ∧ r ≠ 0 ∧ validPuzzle[r * 9 + 1]? = some 57)) :=
  ⟨by decide, by decide,
    checkColPlacement_exact validPuzzle 0 1 57 (by decide) (by decide) (by decide) (by decide)⟩

/-- C13. `checkRegionPlacement` is exactly the region-uniqueness test: on an 81-character
grid `g`, for `row` and `column` in 0..8 and a digit `v`, it returns `false` if and only if
some cell `(r, c)` of the same 3x3 block (`r div 3 = row div 3` and
`c div 3 = column div 3`) other than `(row, column)` has `g[r*9 + c]` equal to `v`, and
`true` otherwise. -/
theorem checkRegionPlacement_exact (g : JSString) (row column v : Nat) (_hl : g.length = 81)
    (_hr : row < 9) (_hc : column < 9) (_hv : IsDigit v) :
    (checkRegionPlacement g row column [v] = false ↔
      ∃ r c, r / 3 = row / 3 ∧ c / 3 = column / 3 ∧ (r, c) ≠ (row, column) ∧
        g[r * 9 + c]? = some v) ∧
    (checkRegionPlacement g row column [v] = true ↔
      ¬ ∃ r c, r / 3 = row / 3 ∧ c / 3 = column / 3 ∧ (r, c) ≠ (row, column) ∧
        g[r * 9 + c]? = some v) := by
  have key : checkRegionPlacement g row column [v] = true ↔
      ¬ ∃ r c, r / 3 = row / 3 ∧ c / 3 = column / 3 ∧ (r, c) ≠ (row, column) ∧
        g[r * 9 + c]? = some v := by
    rw [checkRegionPlacement_unit, regionFree_iff]
    constructor
    · rintro h ⟨r, c, h1, h2, hne, hg⟩
      have hrc : r ≠ row ∨ c ≠ column := by
        by_contra hcon
        simp only [ne_eq, not_or, not_not] at hcon
        exact hne (by rw [hcon.1, hcon.2])
      exact h r c (by omega) (by omega) (by omega) (by omega) hrc hg
    · intro h r c h1 h2 h3 h4 hne hg
      refine h ⟨r, c, by omega, by omega, ?_, hg⟩
      intro heq
      simp only [Prod.mk.injEq] at heq
      omega
  refine ⟨?_, key⟩
  rw [← Bool.not_eq_true, key, not_not]

/-- Witness of C13: the two region tests of the unit suite on `validPuzzle`, row 0,
column 1: the value `5` stands at `(0, 2)` of the block, the value `3` nowhere in it. -/
theorem checkRegionPlacement_exact_witness :
    checkRegionPlacement validPuzzle 0 1 (lit "5") = false ∧
      checkRegionPlacement validPuzzle 0 1 (lit "3") = true ∧
      ((checkRegionPlacement validPuzzle 0 1 [53] = false ↔
        ∃ r c, r / 3 = 0 / 3 ∧ c / 3 = 1 / 3 ∧ (r, c) ≠ (0, 1) ∧
          validPuzzle[r * 9 + c]? = some 53) ∧
      (checkRegionPlacement validPuzzle 0 1 [53] = true ↔
        ¬ ∃ r c, r / 3 = 0 / 3 ∧ c / 3 = 1 / 3 ∧ (r, c) ≠ (0, 1) ∧
          validPuzzle[r * 9 + c]? = some 53)) :=
  ⟨by decide, by decide,
    checkRegionPlacement_exact validPuzzle 0 1 53 (by decide) (by decide) (by decide)
      (by decide)⟩

/-- C14. Self-exclusion law: on an 81-character grid `g`, for a filled cell `(r, c)`
holding the digit `v` such that `v` occurs in no other cell of row `r`, of column `c` and
of the 3x3 region of `(r, c)`, the three checkers called with `(g, r, c, v)` all return
`true`: the cell's own content is not counted as a conflict. -/
theorem checkers_self_exclusion (g : JSString) (r c v : Nat) (_hl : g.length = 81)
    (_hr : r < 9) (_hc : c < 9) (_hv : IsDigit v) (_hcell : g[r * 9 + c]? = some v)
    (hrow : ∀ c1, c1 < 9 → c1 ≠ c → g[r * 9 + c1]? ≠ some v)
    (hcol : ∀ r1, r1 < 9 → r1 ≠ r → g[r1 * 9 + c]? ≠ some v)
    (hreg : ∀ r1 c1, r1 / 3 = r / 3 → c1 / 3 = c / 3 → (r1, c1) ≠ (r, c) →
      g[r1 * 9 + c1]? ≠ some v) :
    checkRowPlacement g r c [v] = true ∧ checkColPlacement g r c [v] = true ∧
      checkRegionPlacement g r c [v] = true := by
  refine ⟨?_, ?_, ?_⟩
  · rw [checkRowPlacement_unit, rowFree_iff]
    exact hrow
  · rw [checkColPlacement_unit, colFree_iff]
    exact hcol
  · rw [checkRegionPlacement_unit, regionFree_iff]
    intro r1 c1 h1 h2 h3 h4 hne
    refine hreg r1 c1 (by omega) (by omega) ?_
    intro heq
    simp only [Prod.mk.injEq] at heq
    omega

/-- Witness of C14: the cell `(0, 0)` of `validPuzzle`, which holds `1` (the unit suite's
"same number in same position" tests). -/
theorem checkers_self_exclusion_witness :
    validPuzzle[0 * 9 + 0]? = some 49 ∧
      checkRowPlacement validPuzzle 0 0 [49] = true ∧
      checkColPlacement validPuzzle 0 0 [49] = true ∧
      checkRegionPlacement validPuzzle 0 0 [49] = true :=
  ⟨by decide,
    checkers_self_exclusion validPuzzle 0 0 49 (by decide) (by decide) (by decide) (by decide)
      (by decide) (by decide) (by decide)
      (fun r1 c1 h1 h2 hne => by
        have hr1 : r1 < 3 := by omega
        have hc1 : c1 < 3 := by omega
        interval_cases r1 <;> interval_cases c1 <;>
          first
          | exact absurd rfl hne
          | decide)⟩

/-! ## The Sudoku routes -/

theorem falsy_iff (x : Option JSString) : falsy x = true ↔ Missing x := by
  rcases x with _ | s
  · simp [falsy, Missing]
  · rcases s with _ | ⟨c, s⟩ <;> simp [falsy, Missing]

theorem regexValue_iff (s : JSString) : regexValue s = true ↔ MatchesValue s := by
  unfold MatchesValue IsDigit
  rcases s with _ | ⟨c, _ | ⟨c2, s⟩⟩
  · simp [regexValue]
  · simp [regexValue]
  · simp [regexValue]

theorem regexCoordinate_iff (s : JSString) : regexCoordinate s = true ↔ MatchesCoordinate s := by
  unfold MatchesCoordinate IsDigit
  rcases s with _ | ⟨a, _ | ⟨d, _ | ⟨e, s⟩⟩⟩
  · simp [regexCoordinate]
  · simp [regexCoordinate]
  · simp only [regexCoordinate, Bool.and_eq_true, decide_eq_true_eq, List.cons.injEq, and_true]
    constructor
    · rintro ⟨⟨⟨h1, h2⟩, h3⟩, h4⟩
      exact ⟨a, d, ⟨h1, h2⟩, ⟨h3, h4⟩, rfl, rfl⟩
    · rintro ⟨a1, d1, ⟨h1, h2⟩, ⟨h3, h4⟩, rfl, rfl⟩
      exact ⟨⟨⟨h1, h2⟩, h3⟩, h4⟩
  · simp [regexCoordinate]

theorem postCheck_present (p c v : JSString) (hp : p ≠ []) (hc : c ≠ []) (hv : v ≠ []) :
    postCheck ⟨some p, some c, some v⟩ =
      if !regexValue v then .error "Invalid value"
      else if !regexCoordinate c then .error "Invalid coordinate"
      else
        match validate (some p) with
        | .error message => .error message
        | .valid =>
          if (conflictsOf (checkRowPlacement p (rowOfCoordinate c) (colOfCoordinate c) v)
              (checkColPlacement p (rowOfCoordinate c) (colOfCoordinate c) v)
              (checkRegionPlacement p (rowOfCoordinate c) (colOfCoordinate c) v)).length > 0 then
            .conflict (conflictsOf (checkRowPlacement p (rowOfCoordinate c) (colOfCoordinate c) v)
              (checkColPlacement p (rowOfCoordinate c) (colOfCoordinate c) v)
              (checkRegionPlacement p (rowOfCoordinate c) (colOfCoordinate c) v))
          else .valid := by
  have h1 : falsy (some p) = false := by
    rw [← Bool.not_eq_true, falsy_iff]; simp [Missing, hp]
  have h2 : falsy (some c) = false := by
    rw [← Bool.not_eq_true, falsy_iff]; simp [Missing, hc]
  have h3 : falsy (some v) = false := by
    rw [← Bool.not_eq_true, falsy_iff]; simp [Missing, hv]
  simp only [postCheck, h1, h2, h3, Bool.or_self, Bool.false_eq_true, if_false]

theorem postCheck_missing (body : CheckBody)
    (h : Missing body.puzzle ∨ Missing body.coordinate ∨ Missing body.value) :
    postCheck body = .error "Required field(s) missing" := by
  have hf : (falsy body.puzzle || falsy body.coordinate || falsy body.value) = true := by
    simp only [Bool.or_eq_true, falsy_iff]
    tauto
  simp only [postCheck, hf, if_true]

theorem not_missing_some {x : Option JSString} (h : ¬ Missing x) : ∃ s, x = some s ∧ s ≠ [] := by
  rcases x with _ | s
  · exact absurd (Or.inl rfl) h
  · exact ⟨s, rfl, fun hs => h (Or.inr (by rw [hs]))⟩

/-- C15. Error precedence of `POST /api/check`: the answer is decided by the first failing
check in the order presence, value format, coordinate format, puzzle validity. If `puzzle`,
`coordinate` or `value` is missing (absent or empty) the answer is
`{error: 'Required field(s) missing'}`; otherwise, if `value` does not match `[1-9]`, it is
`{error: 'Invalid value'}`; otherwise, if `coordinate` does not match `[A-I][1-9]`, it is
`{error: 'Invalid coordinate'}`; otherwise, if `validate(puzzle)` is a message, it is
`{error: message}`; and a valid/conflict answer is produced only when all four checks
pass (and then it is produced). -/
theorem postCheck_error_precedence (body : CheckBody) :
    ((Missing body.puzzle ∨ Missing body.coordinate ∨ Missing body.value) →
      postCheck body = .error "Required field(s) missing") ∧
    (∀ p c v, body = ⟨some p, some c, some v⟩ → p ≠ [] → c ≠ [] → v ≠ [] →
      (¬ MatchesValue v → postCheck body = .error "Invalid value") ∧
      (MatchesValue v → ¬ MatchesCoordinate c →
        postCheck body = .error "Invalid coordinate") ∧
      (MatchesValue v → MatchesCoordinate c → ∀ m, validate (some p) = .error m →
        postCheck body = .error m) ∧
      (MatchesValue v → MatchesCoordinate c → validate (some p) = .valid →
        postCheck body = .valid ∨ ∃ l, postCheck body = .conflict l)) ∧
    ((postCheck body = .valid ∨ ∃ l, postCheck body = .conflict l) →
      ∃ p c v, body = ⟨some p, some c, some v⟩ ∧ p ≠ [] ∧ c ≠ [] ∧ v ≠ [] ∧
        MatchesValue v ∧ MatchesCoordinate c ∧ validate (some p) = .valid) := by
  have hpresent : ∀ p c v, body = ⟨some p, some c, some v⟩ → p ≠ [] → c ≠ [] → v ≠ [] →
      (¬ MatchesValue v → postCheck body = .error "Invalid value") ∧
      (MatchesValue v → ¬ MatchesCoordinate c →
        postCheck body = .error "Invalid coordinate") ∧
      (MatchesValue v → MatchesCoordinate c → ∀ m, validate (some p) = .error m →
        postCheck body = .error m) ∧
      (MatchesValue v → MatchesCoordinate c → validate (some p) = .valid →
        postCheck body = .valid ∨ ∃ l, postCheck body = .conflict l) := by
    intro p c v hb hp hc hv
    subst hb
    rw [postCheck_present p c v hp hc hv]
    refine ⟨?_, ?_, ?_, ?_⟩
    · intro hnv
      have : regexValue v = false := by
        rw [← Bool.not_eq_true, regexValue_iff]; exact hnv
      simp [this]
    · intro hmv hnc
      have h1 : regexValue v = true := (regexValue_iff v).2 hmv
      have h2 : regexCoordinate c = false := by
        rw [← Bool.not_eq_true, regexCoordinate_iff]; exact hnc
      simp [h1, h2]
    · intro hmv hmc m hm
      have h1 : regexValue v = true := (regexValue_iff v).2 hmv
      have h2 : regexCoordinate c = true := (regexCoordinate_iff c).2 hmc
      simp [h1, h2, hm]
    · intro hmv hmc hval
      have h1 : regexValue v = true := (regexValue_iff v).2 hmv
      have h2 : regexCoordinate c = true := (regexCoordinate_iff c).2 hmc
      simp only [h1, h2, hval, Bool.not_true, Bool.false_eq_true, if_false]
      split
      · exact Or.inr ⟨_, rfl⟩
      · exact Or.inl rfl
  refine ⟨postCheck_missing body, hpresent, ?_⟩
  intro hans
  by_cases hm : Missing body.puzzle ∨ Missing body.coordinate ∨ Missing body.value
  · rw [postCheck_missing body hm] at hans
    simp at hans
  · simp only [not_or] at hm
    obtain ⟨p, hp, hpn⟩ := not_missing_some hm.1
    obtain ⟨c, hc, hcn⟩ := not_missing_some hm.2.1
    obtain ⟨v, hv, hvn⟩ := not_missing_some hm.2.2
    have hb : body = ⟨some p, some c, some v⟩ := by
      rcases body with ⟨bp, bc, bv⟩
      simp only at hp hc hv
      rw [hp, hc, hv]
    obtain ⟨k1, k2, k3, _⟩ := hpresent p c v hb hpn hcn hvn
    by_cases hmv : MatchesValue v
    · by_cases hmc : MatchesCoordinate c
      · rcases hval : validate (some p) with _ | m
        · exact ⟨p, c, v, hb, hpn, hcn, hvn, hmv, hmc, hval⟩
        · rw [k3 hmv hmc m hval] at hans
          rcases hans with h | ⟨l, h⟩ <;> cases h
      · rw [k2 hmv hmc] at hans
        rcases hans with h | ⟨l, h⟩ <;> cases h
    · rw [k1 hmv] at hans
      rcases hans with h | ⟨l, h⟩ <;> cases h

theorem conflictsOf_answer (r c g : Bool) :
    ((if (conflictsOf r c g).length > 0 then CheckResponse.conflict (conflictsOf r c g)
        else CheckResponse.valid) = CheckResponse.valid ↔ (r = true ∧ c = true ∧ g = true)) ∧
    ((if (conflictsOf r c g).length > 0 then CheckResponse.conflict (conflictsOf r c g)
        else CheckResponse.valid) ≠ CheckResponse.valid →
      ∃ l, (if (conflictsOf r c g).length > 0 then CheckResponse.conflict (conflictsOf r c g)
          else CheckResponse.valid) = CheckResponse.conflict l ∧
        l.Sublist ["row", "column", "region"] ∧
        ("row" ∈ l ↔ r = false) ∧ ("column" ∈ l ↔ c = false) ∧ ("region" ∈ l ↔ g = false)) := by
  cases r <;> cases c <;> cases g <;>
    simp only [conflictsOf] <;>
    refine ⟨by decide, fun _ => ?_⟩ <;>
    first
    | exact ⟨_, rfl, by decide, by decide, by decide, by decide⟩
    | (exfalso; revert ‹_›; decide)

/-- C16. Result of `POST /api/check` on a well-formed request (a valid puzzle `p`, the
coordinate made of a letter `a` in `A`..`I` and a digit `d`, a digit value `v`): the
answer is `{valid: true}` if and only if the three checkers return `true` for the parsed
cell and the value; otherwise it is `{valid: false, conflict: l}` where `l` holds exactly
the names of the failing checks among 'row', 'column', 'region', without repetition and
in that order. -/
theorem postCheck_result (p : JSString) (a d v : Nat) (hp : validate (some p) = .valid)
    (ha : 65 ≤ a ∧ a ≤ 73) (hd : IsDigit d) (hv : IsDigit v) :
    (postCheck ⟨some p, some [a, d], some [v]⟩ = .valid ↔
      (checkRowPlacement p (a - 65) (d - 48 - 1) [v] = true ∧
        checkColPlacement p (a - 65) (d - 48 - 1) [v] = true ∧
        checkRegionPlacement p (a - 65) (d - 48 - 1) [v] = true)) ∧
    (postCheck ⟨some p, some [a, d], some [v]⟩ ≠ .valid →
      ∃ l, postCheck ⟨some p, some [a, d], some [v]⟩ = .conflict l ∧
        l.Sublist ["row", "column", "region"] ∧
        ("row" ∈ l ↔ checkRowPlacement p (a - 65) (d - 48 - 1) [v] = false) ∧
        ("column" ∈ l ↔ checkColPlacement p (a - 65) (d - 48 - 1) [v] = false) ∧
        ("region" ∈ l ↔ checkRegionPlacement p (a - 65) (d - 48 - 1) [v] = false)) := by
  have hpn : p ≠ [] := by
    obtain ⟨g, hg, hw⟩ := (validate_valid_iff (some p)).1 hp
    cases hg
    intro h
    have := hw.1
    rw [h] at this
    simp at this
  have h1 : regexValue [v] = true := (regexValue_iff [v]).2 ⟨v, hv, rfl⟩
  have h2 : regexCoordinate [a, d] = true := (regexCoordinate_iff [a, d]).2 ⟨a, d, ha, hd, rfl⟩
  rw [postCheck_present p [a, d] [v] hpn (by simp) (by simp)]
  simp only [h1, h2, hp, Bool.not_true, Bool.false_eq_true, if_false,
    rowOfCoordinate, colOfCoordinate, List.getD_cons_zero, List.getD_cons_succ]
  exact conflictsOf_answer _ _ _

/-- Witness of C16: `validPuzzle`, coordinate `A2`, value `1`: row and region conflict
(the `1` of `A1`), the column does not. -/
theorem postCheck_result_witness :
    postCheck ⟨some validPuzzle, some (lit "A2"), some (lit "1")⟩ =
        .conflict ["row", "region"] ∧
      ((postCheck ⟨some validPuzzle, some [65, 50], some [49]⟩ = .valid ↔
        (checkRowPlacement validPuzzle (65 - 65) (50 - 48 - 1) [49] = true ∧
          checkColPlacement validPuzzle (65 - 65) (50 - 48 - 1) [49] = true ∧
          checkRegionPlacement validPuzzle (65 - 65) (50 - 48 - 1) [49] = true)) ∧
      (postCheck ⟨some validPuzzle, some [65, 50], some [49]⟩ ≠ .valid →
        ∃ l, postCheck ⟨some validPuzzle, some [65, 50], some [49]⟩ = .conflict l ∧
          l.Sublist ["row", "column", "region"] ∧
          ("row" ∈ l ↔ checkRowPlacement validPuzzle (65 - 65) (50 - 48 - 1) [49] = false) ∧
          ("column" ∈ l ↔
            checkColPlacement validPuzzle (65 - 65) (50 - 48 - 1) [49] = false) ∧
          ("region" ∈ l ↔
            checkRegionPlacement validPuzzle (65 - 65) (50 - 48 - 1) [49] = false))) :=
  ⟨by decide!,
    postCheck_result validPuzzle 65 50 49 validPuzzle_valid (by decide) (by decide) (by decide)⟩

theorem solve_wellFormed_cases (g : JSString) (hw : WellFormed g) :
    solve (some g) = some .returnsFalse ∨ ∃ s, solve (some g) = some (.returns s) := by
  by_cases hn : NoRepeat g
  · rw [solve_noRepeat g hw hn]
    have htot := searchCells_total 81 g (count_le_81 g hw.1)
    rcases hr : searchCells 82 g with _ | ⟨b, s⟩
    · exact absurd hr htot
    · cases b
      · exact Or.inl rfl
      · exact Or.inr ⟨s, rfl⟩
  · exact Or.inl (solve_repeat g hw hn)

theorem postSolve_valid (g : JSString) (hw : WellFormed g) :
    (solve (some g) = some .returnsFalse ∧
      postSolve (some g) = some (.error "Puzzle cannot be solved")) ∨
    ∃ s, solve (some g) = some (.returns s) ∧ postSolve (some g) = some (.solution s) := by
  have hv := validate_wellFormed g hw
  have hne : g ≠ [] := by
    intro h
    have := hw.1
    rw [h] at this
    simp at this
  have hf : falsy (some g) = false := by
    rw [← Bool.not_eq_true, falsy_iff]
    simp [Missing, hne]
  rcases solve_wellFormed_cases g hw with h | ⟨s, h⟩
  · left
    refine ⟨h, ?_⟩
    simp only [postSolve, hf, Bool.false_eq_true, if_false, hv, h]
  · right
    refine ⟨s, h, ?_⟩
    have hs : s ≠ [] := by
      intro hs
      have := (solve_returns_completion g s h).2.1
      rw [hs] at this
      simp at this
    simp only [postSolve, hf, Bool.false_eq_true, if_false, hv, h, hs]

theorem postSolve_invalid (puzzle : Option JSString) (m : String)
    (h : validate puzzle = .error m) : postSolve puzzle = some (.error m) := by
  by_cases hf : falsy puzzle = true
  · have hm : Missing puzzle := (falsy_iff puzzle).1 hf
    have hmsg : validate puzzle = .error "Required field missing" := by
      rcases hm with h1 | h1 <;> rw [h1] <;> rfl
    rw [hmsg] at h
    cases h
    simp only [postSolve, hf, if_true]
  · simp only [postSolve, hf, Bool.false_eq_true, if_false, h]

/-- C17. Response of `POST /api/solve`: `{error: 'Required field missing'}` when `puzzle`
is missing (absent or empty); otherwise `{error: m}` with `m` the validator message when
`validate(puzzle)` is not `true`; otherwise `{error: 'Puzzle cannot be solved'}` exactly
when `solve(puzzle)` returns `false`; otherwise `{solution: solve(puzzle)}`. 'Puzzle cannot
be solved' is never the answer for a puzzle that fails validation, and a solution is
returned if and only if the puzzle is well-formed and has a valid completion. -/
theorem postSolve_response (puzzle : Option JSString) :
    (Missing puzzle → postSolve puzzle = some (.error "Required field missing")) ∧
    (∀ m, validate puzzle = .error m → postSolve puzzle = some (.error m)) ∧
    (validate puzzle = .valid →
      (postSolve puzzle = some (.error "Puzzle cannot be solved") ↔
        solve puzzle = some .returnsFalse) ∧
      (solve puzzle ≠ some .returnsFalse →
        ∃ s, solve puzzle = some (.returns s) ∧ postSolve puzzle = some (.solution s))) ∧
    (validate puzzle ≠ .valid →
      postSolve puzzle ≠ some (.error "Puzzle cannot be solved")) ∧
    ((∃ s, postSolve puzzle = some (.solution s)) ↔
      ∃ g, puzzle = some g ∧ WellFormed g ∧ ∃ t, Completion g t) := by
  refine ⟨?_, postSolve_invalid puzzle, ?_, ?_, ?_⟩
  · intro hm
    have hf : falsy puzzle = true := (falsy_iff puzzle).2 hm
    simp only [postSolve, hf, if_true]
  · intro hv
    obtain ⟨g, rfl, hw⟩ := (validate_valid_iff puzzle).1 hv
    rcases postSolve_valid g hw with ⟨h1, h2⟩ | ⟨s, h1, h2⟩
    · refine ⟨⟨fun _ => h1, fun _ => h2⟩, fun hne => absurd h1 hne⟩
    · refine ⟨?_, fun _ => ⟨s, h1, h2⟩⟩
      rw [h1, h2]
      constructor <;> intro h <;> simp at h
  · intro hv
    rcases hr : validate puzzle with _ | m
    · exact absurd hr hv
    · rw [postSolve_invalid puzzle m hr]
      intro h
      simp only [Option.some.injEq, SolveResponse.error.injEq] at h
      subst h
      rcases puzzle with _ | s
      · simp [validate] at hr
      · rcases s with _ | ⟨c, s⟩
        · simp [validate] at hr
        · rw [validate_cons] at hr
          split at hr
          · simp at hr
          · split at hr <;> simp at hr
  · constructor
    · rintro ⟨s, hs⟩
      rcases hr : validate puzzle with _ | m
      · obtain ⟨g, rfl, hw⟩ := (validate_valid_iff puzzle).1 hr
        refine ⟨g, rfl, hw, ?_⟩
        rcases postSolve_valid g hw with ⟨_, h2⟩ | ⟨s1, h1, _⟩
        · rw [h2] at hs
          simp at hs
        · exact ⟨s1, (solve_returns_completion g s1 h1).2⟩
      · rw [postSolve_invalid puzzle m hr] at hs
        simp at hs
    · rintro ⟨g, rfl, hw, t, ht⟩
      obtain ⟨s, hs, _⟩ := solve_of_completion g t hw ht
      rcases postSolve_valid g hw with ⟨h1, _⟩ | ⟨s1, _, h2⟩
      · rw [hs] at h1
        simp at h1
      · exact ⟨s1, h2⟩

/-! ## The issue tracker routes -/

theorem Store.lookup_own (proto : Prototype) (store : Store) (project : String)
    (h : store project ≠ none ∨ proto project = none) :
    store.lookup proto project =
      match store project with
      | some list => .array list
      | none => .undefined := by
  unfold Store.lookup
  rcases hs : store project with _ | list
  · rcases h with h | h
    · exact absurd hs h
    · simp [h]
  · rfl

theorem Store.lookup_inherited (proto : Prototype) (store : Store) (project : String)
    (hown : store project = none) (hproto : proto project ≠ none) :
    store.lookup proto project = .inherited := by
  unfold Store.lookup
  rw [hown]
  rcases hp : proto project with _ | source
  · exact absurd hp hproto
  · rfl

theorem Store.lookup_ensure (proto : Prototype) (store : Store) (project : String)
    (h : store project ≠ none ∨ proto project = none) :
    (store.ensure proto project).lookup proto project = .array ((store project).getD []) := by
  unfold Store.ensure
  rw [Store.lookup_own proto store project h]
  rcases hs : store project with _ | list
  · simp [Store.lookup, Store.put]
  · simp [Store.lookup, hs]

theorem Store.ensure_other (proto : Prototype) (store : Store) (project p : String)
    (hp : p ≠ project) : (store.ensure proto project) p = store p := by
  unfold Store.ensure
  rcases store.lookup proto project with list | _ | _
  · rfl
  · rfl
  · simp [Store.put, hp]

theorem Store.ensure_inherited (proto : Prototype) (store : Store) (project : String)
    (hown : store project = none) (hproto : proto project ≠ none) :
    store.ensure proto project = store := by
  unfold Store.ensure
  rw [Store.lookup_inherited proto store project hown hproto]

theorem Store.orEmptyArray_lookup (proto : Prototype) (store : Store) (project : String)
    (h : store project ≠ none ∨ proto project = none) :
    (store.lookup proto project).orEmptyArray = some ((store project).getD []) := by
  rw [Store.lookup_own proto store project h]
  rcases store project with _ | list <;> rfl

theorem filterAccepts_iff (proto : Prototype) (toLowerCase : JSString → JSString)
    (issue : Issue) (key : String) (value : JSString) (hkey : proto key = none) :
    filterAccepts proto toLowerCase issue key value = true ↔
      MatchesFilter toLowerCase issue key value := by
  unfold filterAccepts MatchesFilter issueField
  by_cases hk : key = "open"
  · simp only [hk, if_true, decide_eq_true_eq]
  · simp only [hk, if_false]
    rcases hf : ownField issue key with _ | field
    · simp [hkey]
    · by_cases he : field = []
      · simp [he]
      · simp [he, includes]

/-- C18 as stated fails: `requiredOnlyIssue` has the empty string as `assigned_to`, the
empty filter value occurs in it, so the issue matches the filter `assigned_to=` as the
claim words it; the handler leaves it out, because `issue[key]` is falsy. -/
theorem getIssues_as_stated_counterexample :
    (testStore "test-project").getD [] = [requiredOnlyIssue] ∧
      (∀ kv ∈ [("assigned_to", ([] : JSString))],
        MatchesAsStated asciiLower requiredOnlyIssue kv.1 kv.2) ∧
      (getIssues objectPrototype asciiLower testStore "test-project"
        [("assigned_to", [])]).1 = .json (.array []) := by
  refine ⟨by decide, ?_, by decide⟩
  intro kv hkv
  simp only [List.mem_singleton] at hkv
  subst hkv
  unfold MatchesAsStated
  rw [if_neg (by decide)]
  exact ⟨[], by decide, by decide⟩

/-- C18, amended: for a project name and filter keys that are not names of members of
`Object.prototype`, the answer of `GET /api/issues/:project` is, in stored order, exactly
the list of the project's issues that match every filter, where a filter on `open` matches
when the open flag written `true` or `false` equals the filter value, and a filter on any
other field matches when the issue's value of that field is not empty and the filter value
occurs in it, ignoring letter case; with no filters all issues of the project are
returned. -/
theorem getIssues_filtered (proto : Prototype) (toLowerCase : JSString → JSString)
    (store : Store) (project : String) (filters : List (String × JSString))
    (hproject : proto project = none) (hkeys : ∀ kv ∈ filters, proto kv.1 = none) :
    ∃ keep : Issue → Bool,
      (∀ issue, keep issue = true ↔
        ∀ kv ∈ filters, MatchesFilter toLowerCase issue kv.1 kv.2) ∧
      (getIssues proto toLowerCase store project filters).1 =
        .json (.array (((store project).getD []).filter keep)) ∧
      (filters = [] →
        (getIssues proto toLowerCase store project filters).1 =
          .json (.array ((store project).getD []))) := by
  have hlook := Store.lookup_ensure proto store project (Or.inr hproject)
  refine ⟨fun issue => filters.all fun kv => filterAccepts proto toLowerCase issue kv.1 kv.2,
    ?_, ?_, ?_⟩
  · intro issue
    simp only [List.all_eq_true]
    constructor
    · intro h kv hkv
      exact (filterAccepts_iff proto toLowerCase issue kv.1 kv.2 (hkeys kv hkv)).1 (h kv hkv)
    · intro h kv hkv
      exact (filterAccepts_iff proto toLowerCase issue kv.1 kv.2 (hkeys kv hkv)).2 (h kv hkv)
  · simp only [getIssues, hlook]
    rcases filters with _ | ⟨kv, rest⟩
    · simp
    · simp
  · intro hf
    subst hf
    simp only [getIssues, hlook, List.length_nil, gt_iff_lt, lt_self_iff_false, if_false]

/-- Witness of C18: the filters `open=true&created_by=test user` of the functional test
"View issues on a project with multiple filters", in lower case, on `testStore`: the issue
of the store is returned. -/
theorem getIssues_filtered_witness :
    (getIssues objectPrototype asciiLower testStore "test-project"
        [("open", lit "true"), ("created_by", lit "test user")]).1 =
        .json (.array [requiredOnlyIssue]) ∧
      ∃ keep : Issue → Bool,
        (∀ issue, keep issue = true ↔
          ∀ kv ∈ [("open", lit "true"), ("created_by", lit "test user")],
            MatchesFilter asciiLower issue kv.1 kv.2) ∧
        (getIssues objectPrototype asciiLower testStore "test-project"
          [("open", lit "true"), ("created_by", lit "test user")]).1 =
          .json (.array (((testStore "test-project").getD []).filter keep)) ∧
        ([("open", lit "true"), ("created_by", lit "test user")] = [] →
          (getIssues objectPrototype asciiLower testStore "test-project"
            [("open", lit "true"), ("created_by", lit "test user")]).1 =
            .json (.array ((testStore "test-project").getD []))) :=
  ⟨by decide,
    getIssues_filtered objectPrototype asciiLower testStore "test-project"
      [("open", lit "true"), ("created_by", lit "test user")] (by decide) (by decide)⟩

/-- The lookups that find a member of `Object.prototype`, in Node.js: a filter on the key
`constructor` is matched against the text of the function `Object`, so
`?constructor=function` keeps an issue whatever its fields; on the project `constructor`,
which has no array, `GET` gives the inherited member to `res.json` and stores nothing, and
with a filter it throws the `TypeError` of `projectIssues.filter`. -/
theorem getIssues_inherited :
    (getIssues objectPrototype asciiLower testStore "test-project"
        [("constructor", lit "function")]).1 = .json (.array [requiredOnlyIssue]) ∧
      (getIssues objectPrototype asciiLower emptyStore "constructor" []).1 =
        .json .inherited ∧
      (getIssues objectPrototype asciiLower emptyStore "constructor" []).2 "constructor" =
        none ∧
      (getIssues objectPrototype asciiLower emptyStore "constructor"
        [("open", lit "true")]).1 = .typeError :=
  ⟨by decide, by decide, by decide, by decide⟩

theorem orEmpty_some (a : JSString) : orEmpty (some a) = a := by
  rcases a with _ | ⟨c, a⟩ <;> rfl

theorem orEmpty_none : orEmpty none = [] := rfl

theorem falsy_some_ne (s : JSString) (h : s ≠ []) : falsy (some s) = false := by
  rcases s with _ | ⟨c, s⟩
  · exact absurd rfl h
  · rfl

/-- `POST /api/issues/:project` on a project that has an array, or whose name is not
inherited from `Object.prototype`: when `issue_title`, `issue_text` and `created_by` are
all present and non-empty, the answer is a new issue carrying those three fields
unchanged, `assigned_to` and `status_text` equal to the submitted values, or '' when not
submitted, `open = true`, and an `_id`, `created_on` and `updated_on`; the store afterwards
is the previous store with that issue appended at the end of the project's list, the other
projects unchanged. If one of the three required fields is missing, the answer is
`{error: 'required field(s) missing'}` and the store is unchanged, for every project. -/
theorem postIssue_creates (proto : Prototype) (idNow createdNow updatedNow : JSString)
    (store : Store) (project : String) (body : IssueBody) :
    (∀ title text author, body.issue_title = some title → body.issue_text = some text →
      body.created_by = some author → title ≠ [] → text ≠ [] → author ≠ [] →
      (store project ≠ none ∨ proto project = none) →
      ∃ issue,
        (postIssue proto idNow createdNow updatedNow store project body).1 = .created issue ∧
        issue.issue_title = title ∧ issue.issue_text = text ∧ issue.created_by = author ∧
        (∀ a, body.assigned_to = some a → issue.assigned_to = a) ∧
        (body.assigned_to = none → issue.assigned_to = []) ∧
        (∀ s, body.status_text = some s → issue.status_text = s) ∧
        (body.status_text = none → issue.status_text = []) ∧
        issue.isOpen = true ∧ issue._id = idNow ∧ issue.created_on = createdNow ∧
        issue.updated_on = updatedNow ∧
        (postIssue proto idNow createdNow updatedNow store project body).2 project =
          some ((store project).getD [] ++ [issue]) ∧
        ∀ p, p ≠ project →
          (postIssue proto idNow createdNow updatedNow store project body).2 p = store p) ∧
    ((Missing body.issue_title ∨ Missing body.issue_text ∨ Missing body.created_by) →
      postIssue proto idNow createdNow updatedNow store project body =
        (.error "required field(s) missing", store)) := by
  constructor
  · intro title text author h1 h2 h3 n1 n2 n3 hp
    have hlook := Store.lookup_ensure proto store project hp
    have hpost : postIssue proto idNow createdNow updatedNow store project body =
        (.created
          { _id := idNow
            issue_title := title
            issue_text := text
            created_by := author
            assigned_to := orEmpty body.assigned_to
            status_text := orEmpty body.status_text
            created_on := createdNow
            updated_on := updatedNow
            isOpen := true },
          (store.ensure proto project).put project
            ((store project).getD [] ++
              [{ _id := idNow
                 issue_title := title
                 issue_text := text
                 created_by := author
                 assigned_to := orEmpty body.assigned_to
                 status_text := orEmpty body.status_text
                 created_on := createdNow
                 updated_on := updatedNow
                 isOpen := true }])) := by
      simp only [postIssue, h1, h2, h3, falsy_some_ne title n1, falsy_some_ne text n2,
        falsy_some_ne author n3, Bool.or_self, Bool.false_eq_true, if_false, hlook]
    rw [hpost]
    refine ⟨_, rfl, rfl, rfl, rfl, ?_, ?_, ?_, ?_, rfl, rfl, rfl, rfl, ?_, ?_⟩
    · intro a ha
      simp only [ha, orEmpty_some]
    · intro ha
      simp only [ha, orEmpty_none]
    · intro s hs
      simp only [hs, orEmpty_some]
    · intro hs
      simp only [hs, orEmpty_none]
    · simp only [Store.put, if_true]
    · intro p hp1
      simp only [Store.put, hp1, if_false]
      exact Store.ensure_other proto store project p hp1
  · intro hm
    have hf : (falsy body.issue_title || falsy body.issue_text || falsy body.created_by) =
        true := by
      simp only [Bool.or_eq_true, falsy_iff]
      tauto
    simp only [postIssue, hf, if_true]

/-- C19 fails on the code for a project name that `issues` inherits from
`Object.prototype` and has no array for: with `issue_title`, `issue_text` and `created_by`
all present and non-empty, `!issues[project]` is false, no array is stored, and
`issues[project].push(newIssue)` throws a `TypeError`; no issue is answered and nothing is
appended to the store. -/
theorem postIssue_inherited_project (proto : Prototype)
    (idNow createdNow updatedNow : JSString) (store : Store) (project : String)
    (body : IssueBody) (title text author : JSString) (hown : store project = none)
    (hproto : proto project ≠ none) (h1 : body.issue_title = some title)
    (h2 : body.issue_text = some text) (h3 : body.created_by = some author)
    (n1 : title ≠ []) (n2 : text ≠ []) (n3 : author ≠ []) :
    postIssue proto idNow createdNow updatedNow store project body = (.typeError, store) ∧
      (∀ issue,
        (postIssue proto idNow createdNow updatedNow store project body).1 ≠
          .created issue) ∧
      (postIssue proto idNow createdNow updatedNow store project body).2 project = none := by
  have hpost : postIssue proto idNow createdNow updatedNow store project body =
      (.typeError, store) := by
    simp only [postIssue, h1, h2, h3, falsy_some_ne title n1, falsy_some_ne text n2,
      falsy_some_ne author n3, Bool.or_self, Bool.false_eq_true, if_false,
      Store.ensure_inherited proto store project hown hproto,
      Store.lookup_inherited proto store project hown hproto]
  rw [hpost]
  exact ⟨rfl, fun issue h => PostResponse.noConfusion h, hown⟩

/-- Witness of C19's failure: `POST /api/issues/constructor` with the three required
fields, on the store of a server that has just started. -/
theorem postIssue_inherited_project_witness :
    postIssue objectPrototype (lit "1700000000000") (lit "2023-11-14T22:13:20.000Z")
        (lit "2023-11-14T22:13:20.000Z") emptyStore "constructor"
        ⟨some (lit "Title"), some (lit "text"), some (lit "Test User"), none, none⟩ =
        (.typeError, emptyStore) :=
  (postIssue_inherited_project objectPrototype (lit "1700000000000")
    (lit "2023-11-14T22:13:20.000Z") (lit "2023-11-14T22:13:20.000Z") emptyStore "constructor"
    ⟨some (lit "Title"), some (lit "text"), some (lit "Test User"), none, none⟩
    (lit "Title") (lit "text") (lit "Test User") rfl (by decide) rfl rfl rfl (by decide)
    (by decide) (by decide)).1

theorem findIndex_none_iff (_id : JSString) (l : List Issue) :
    findIndex _id l = none ↔ ∀ issue ∈ l, issue._id ≠ _id := by
  induction l with
  | nil => simp [findIndex]
  | cons x xs ih =>
    by_cases hx : x._id = _id
    · simp [findIndex, hx]
    · simp [findIndex, hx, ih]

/-- `PUT /api/issues/:project`: the answer is `{error: 'missing _id'}` when `_id` is
missing (absent or empty); otherwise `{error: 'no update field(s) sent', _id}` when the
body names none of `issue_title`, `issue_text`, `created_by`, `assigned_to`,
`status_text`, `open`; otherwise, on a project that has an array or whose name is not
inherited from `Object.prototype`, `{error: 'could not update', _id}` when the project has
no issue with that `_id`, and otherwise `{result: 'successfully updated', _id}`. In each of
the three error cases the store is left unchanged. -/
theorem putIssue_error_precedence (proto : Prototype) (now : JSString) (store : Store)
    (project : String) (body : UpdateBody) :
    (Missing body._id →
      putIssue proto now store project body = (.error "missing _id" none, store)) ∧
    (∀ _id, body._id = some _id → _id ≠ [] →
      (noUpdateFields body = true →
        putIssue proto now store project body =
          (.error "no update field(s) sent" (some _id), store)) ∧
      (noUpdateFields body = false → (store project ≠ none ∨ proto project = none) →
        (∀ issue ∈ (store project).getD [], issue._id ≠ _id) →
        putIssue proto now store project body =
          (.error "could not update" (some _id), store)) ∧
      (noUpdateFields body = false → (store project ≠ none ∨ proto project = none) →
        (∃ issue ∈ (store project).getD [], issue._id = _id) →
        (putIssue proto now store project body).1 = .result "successfully updated" _id)) ∧
    (noUpdateFields body = true ↔
      (body.issue_title = none ∧ body.issue_text = none ∧ body.created_by = none ∧
        body.assigned_to = none ∧ body.status_text = none ∧ body.openField = none)) := by
  refine ⟨?_, ?_, ?_⟩
  · intro hm
    have hf : falsy body._id = true := (falsy_iff _).2 hm
    simp only [putIssue, hf, if_true]
  · intro _id hid hne
    have hf : falsy (some _id) = false := falsy_some_ne _id hne
    refine ⟨?_, ?_, ?_⟩
    · intro hno
      simp only [putIssue, hf, Bool.false_eq_true, if_false, hid, hno, if_true]
    · intro hno hp hall
      have hfi := (findIndex_none_iff _id ((store project).getD [])).2 hall
      simp only [putIssue, hf, Bool.false_eq_true, if_false, hid, hno,
        Store.orEmptyArray_lookup proto store project hp, hfi]
    · intro hno hp hex
      rcases hfi : findIndex _id ((store project).getD []) with _ | idx
      · obtain ⟨issue, hmem, heq⟩ := hex
        exact absurd heq ((findIndex_none_iff _id _).1 hfi issue hmem)
      · simp only [putIssue, hf, Bool.false_eq_true, if_false, hid, hno,
          Store.orEmptyArray_lookup proto store project hp, hfi]
  · simp only [noUpdateFields, Bool.and_eq_true, Option.isNone_iff_eq_none, and_assoc]

/-- C20 fails on the code for a project name that `issues` inherits from
`Object.prototype` and has no array for: with `_id` present and an update field sent, the
project has no issue with that `_id`, and instead of `{error: 'could not update', _id}` the
handler throws a `TypeError`: `issues[project] || []` is the inherited member, which has no
method `findIndex`. -/
theorem putIssue_inherited_project (proto : Prototype) (now : JSString) (store : Store)
    (project : String) (body : UpdateBody) (_id : JSString) (hown : store project = none)
    (hproto : proto project ≠ none) (hid : body._id = some _id) (hne : _id ≠ [])
    (hfields : noUpdateFields body = false) :
    (∀ issue ∈ (store project).getD [], issue._id ≠ _id) ∧
      putIssue proto now store project body = (.typeError, store) ∧
      (putIssue proto now store project body).1 ≠ .error "could not update" (some _id) := by
  have hf : falsy (some _id) = false := falsy_some_ne _id hne
  have hput : putIssue proto now store project body = (.typeError, store) := by
    simp only [putIssue, hf, Bool.false_eq_true, if_false, hid, hfields,
      Store.lookup_inherited proto store project hown hproto, ProjectValue.orEmptyArray]
  rw [hput]
  refine ⟨?_, rfl, fun h => PutResponse.noConfusion h⟩
  rw [hown]
  intro issue hmem
  simp at hmem

/-- Witness of C20's failure: `PUT /api/issues/constructor` with the body of the functional
test "Update an issue with an invalid _id", on the store of a server that has just
started. -/
theorem putIssue_inherited_project_witness :
    putIssue objectPrototype (lit "2023-11-14T22:13:20.000Z") emptyStore "constructor"
        ⟨some (lit "invalid_id_12345"), some (lit "Invalid ID update"), none, none, none,
          none, none⟩ = (.typeError, emptyStore) :=
  (putIssue_inherited_project objectPrototype (lit "2023-11-14T22:13:20.000Z") emptyStore
    "constructor"
    ⟨some (lit "invalid_id_12345"), some (lit "Invalid ID update"), none, none, none, none,
      none⟩ (lit "invalid_id_12345") rfl (by decide) rfl (by decide) rfl).2.1

theorem findIndex_some_split (_id : JSString) : ∀ (l : List Issue) (idx : Nat),
    findIndex _id l = some idx →
    ∃ before issue after, l = before ++ issue :: after ∧ issue._id = _id ∧
      (∀ x ∈ before, x._id ≠ _id) ∧ l.eraseIdx idx = before ++ after := by
  intro l
  induction l with
  | nil => intro idx h; simp [findIndex] at h
  | cons x xs ih =>
    intro idx h
    by_cases hx : x._id = _id
    · simp only [findIndex, hx, if_true, Option.some.injEq] at h
      subst h
      exact ⟨[], x, xs, rfl, hx, by simp, rfl⟩
    · simp only [findIndex, hx, if_false, Option.map_eq_some'] at h
      obtain ⟨k, hk, rfl⟩ := h
      obtain ⟨before, issue, after, h1, h2, h3, h4⟩ := ih k hk
      refine ⟨x :: before, issue, after, by rw [h1]; rfl, h2, ?_, ?_⟩
      · intro y hy
        rcases List.mem_cons.1 hy with rfl | hy
        · exact hx
        · exact h3 y hy
      · simp only [List.eraseIdx_cons_succ, h4, List.cons_append]

/-- `DELETE /api/issues/:project`: when `_id` is missing (absent or empty) the answer is
`{error: 'missing _id'}` and the store is unchanged. Otherwise, on a project that has an
array or whose name is not inherited from `Object.prototype`: when the project has no
issue with that `_id` the answer is `{error: 'could not delete', _id}` and the store is
unchanged, and otherwise the answer is `{result: 'successfully deleted', _id}` and the
store afterwards differs from the store before only in that the first issue of that
project with that `_id` has been removed: the issues before and after it keep their order,
and every other project is unchanged. -/
theorem deleteIssue_effect (proto : Prototype) (store : Store) (project : String)
    (_id : Option JSString) :
    (Missing _id →
      deleteIssue proto store project _id = (.error "missing _id" none, store)) ∧
    (∀ id, _id = some id → id ≠ [] → (store project ≠ none ∨ proto project = none) →
      ((∀ issue ∈ (store project).getD [], issue._id ≠ id) →
        deleteIssue proto store project _id =
          (.error "could not delete" (some id), store)) ∧
      ((∃ issue ∈ (store project).getD [], issue._id = id) →
        (deleteIssue proto store project _id).1 = .result "successfully deleted" id ∧
        ∃ before issue after, (store project).getD [] = before ++ issue :: after ∧
          issue._id = id ∧ (∀ x ∈ before, x._id ≠ id) ∧
          (deleteIssue proto store project _id).2 project = some (before ++ after) ∧
          ∀ p, p ≠ project → (deleteIssue proto store project _id).2 p = store p)) := by
  constructor
  · intro hm
    have hf : falsy _id = true := (falsy_iff _).2 hm
    simp only [deleteIssue, hf, if_true]
  · intro id hid hne hp
    subst hid
    have hf : falsy (some id) = false := falsy_some_ne id hne
    have hlook := Store.orEmptyArray_lookup proto store project hp
    constructor
    · intro hall
      have hfi := (findIndex_none_iff id ((store project).getD [])).2 hall
      simp only [deleteIssue, hf, Bool.false_eq_true, if_false, hlook, hfi]
    · intro hex
      rcases hfi : findIndex id ((store project).getD []) with _ | idx
      · obtain ⟨issue, hmem, heq⟩ := hex
        exact absurd heq ((findIndex_none_iff id _).1 hfi issue hmem)
      · obtain ⟨before, issue, after, h1, h2, h3, h4⟩ := findIndex_some_split id _ idx hfi
        simp only [deleteIssue, hf, Bool.false_eq_true, if_false, hlook, hfi]
        refine ⟨trivial, before, issue, after, h1, h2, h3, ?_, ?_⟩
        · simp only [Store.put, if_true, h4]
        · intro p hp1
          simp only [Store.put, hp1, if_false]

/-- C21 fails on the code for a project name that `issues` inherits from
`Object.prototype` and has no array for: with `_id` present, the project has no issue with
that `_id`, and instead of `{error: 'could not delete', _id}` the handler throws a
`TypeError`: `issues[project] || []` is the inherited member, which has no method
`findIndex`. -/
theorem deleteIssue_inherited_project (proto : Prototype) (store : Store) (project : String)
    (_id : JSString) (hown : store project = none) (hproto : proto project ≠ none)
    (hne : _id ≠ []) :
    (∀ issue ∈ (store project).getD [], issue._id ≠ _id) ∧
      deleteIssue proto store project (some _id) = (.typeError, store) ∧
      (deleteIssue proto store project (some _id)).1 ≠
        .error "could not delete" (some _id) := by
  have hf : falsy (some _id) = false := falsy_some_ne _id hne
  have hdel : deleteIssue proto store project (some _id) = (.typeError, store) := by
    simp only [deleteIssue, hf, Bool.false_eq_true, if_false,
      Store.lookup_inherited proto store project hown hproto, ProjectValue.orEmptyArray]
  rw [hdel]
  refine ⟨?_, rfl, fun h => DeleteResponse.noConfusion h⟩
  rw [hown]
  intro issue hmem
  simp at hmem

/-- Witness of C21's failure: `DELETE /api/issues/constructor` with the `_id` of the
functional test "Delete an issue with an invalid _id", on the store of a server that has
just started. -/
theorem deleteIssue_inherited_project_witness :
    deleteIssue objectPrototype emptyStore "constructor" (some (lit "invalid_id_12345")) =
      (.typeError, emptyStore) :=
  (deleteIssue_inherited_project objectPrototype emptyStore "constructor"
    (lit "invalid_id_12345") rfl (by decide) (by decide)).2.1

/-- The functional tests of `POST`, `PUT` and `DELETE` on the project `test-project`, whose
name is not inherited from `Object.prototype`. -/
theorem issue_routes_tests :
    (postIssue objectPrototype (lit "1700000000000") (lit "2023-11-14T22:13:20.000Z")
        (lit "2023-11-14T22:13:20.000Z") emptyStore "test-project"
        ⟨some (lit "Required only"), some (lit "This issue has only required fields"),
          some (lit "Test User"), none, none⟩).1 = .created requiredOnlyIssue ∧
      (postIssue objectPrototype (lit "1700000000000") (lit "2023-11-14T22:13:20.000Z")
        (lit "2023-11-14T22:13:20.000Z") emptyStore "test-project"
        ⟨some (lit "Required only"), some (lit "This issue has only required fields"),
          some (lit "Test User"), none, none⟩).2 "test-project" = some [requiredOnlyIssue] ∧
      (postIssue objectPrototype (lit "1") (lit "2") (lit "3") testStore "test-project"
        ⟨some (lit "Missing fields"), none, none, none, none⟩).1 =
          .error "required field(s) missing" ∧
      (putIssue objectPrototype (lit "t") testStore "test-project"
        ⟨none, some (lit "Missing ID update"), none, none, none, none, none⟩).1 =
        .error "missing _id" none ∧
      (putIssue objectPrototype (lit "t") testStore "test-project"
        ⟨some (lit "1700000000000"), none, none, none, none, none, none⟩).1 =
        .error "no update field(s) sent" (some (lit "1700000000000")) ∧
      (putIssue objectPrototype (lit "t") testStore "test-project"
        ⟨some (lit "invalid_id_12345"), some (lit "Invalid ID update"), none, none, none, none,
          none⟩).1 = .error "could not update" (some (lit "invalid_id_12345")) ∧
      (putIssue objectPrototype (lit "t") testStore "test-project"
        ⟨some (lit "1700000000000"), some (lit "Updated title"), none, none, none, none,
          some (.bool false)⟩).1 = .result "successfully updated" (lit "1700000000000") ∧
      (deleteIssue objectPrototype testStore "test-project" none).1 =
        .error "missing _id" none ∧
      (deleteIssue objectPrototype testStore "test-project"
        (some (lit "invalid_id_12345"))).1 =
        .error "could not delete" (some (lit "invalid_id_12345")) ∧
      (deleteIssue objectPrototype testStore "test-project"
        (some (lit "1700000000000"))).1 =
        .result "successfully deleted" (lit "1700000000000") ∧
      (deleteIssue objectPrototype testStore "test-project"
        (some (lit "1700000000000"))).2 "test-project" = some [] :=
  ⟨by decide, by decide, by decide, by decide, by decide, by decide, by decide, by decide,
    by decide, by decide, by decide⟩

/-- C22. Coordinate parsing in `POST /api/check`: for a coordinate matching `[A-I][1-9]`,
made of the letter `a` and the digit `d`, the handler derives `row` = position of the
letter in `A`..`I` (code unit minus 65, without underflow) and `col` = digit minus 1, so
that `row` and `col` lie in 0..8, the linear index `row*9 + col` lies in 0..80, and two
different coordinates give two different cells. -/
theorem coordinate_parsing (coordinate : JSString) (h : MatchesCoordinate coordinate) :
    (∃ a d, coordinate = [a, d] ∧
      (rowOfCoordinate coordinate : Int) = (a : Int) - 65 ∧
      (colOfCoordinate coordinate : Int) = ((d : Int) - 48) - 1) ∧
    rowOfCoordinate coordinate < 9 ∧ colOfCoordinate coordinate < 9 ∧
    rowOfCoordinate coordinate * 9 + colOfCoordinate coordinate < 81 ∧
    (∀ other, MatchesCoordinate other → other ≠ coordinate →
      rowOfCoordinate other * 9 + colOfCoordinate other ≠
        rowOfCoordinate coordinate * 9 + colOfCoordinate coordinate) := by
  obtain ⟨a, d, ⟨ha1, ha2⟩, ⟨hd1, hd2⟩, rfl⟩ := h
  have hr : rowOfCoordinate [a, d] = a - 65 := rfl
  have hc : colOfCoordinate [a, d] = d - 48 - 1 := rfl
  refine ⟨⟨a, d, rfl, ?_, ?_⟩, ?_, ?_, ?_, ?_⟩
  · rw [hr]; omega
  · rw [hc]; omega
  · rw [hr]; omega
  · rw [hc]; omega
  · rw [hr, hc]; omega
  · rintro other ⟨a2, d2, ⟨hb1, hb2⟩, ⟨he1, he2⟩, rfl⟩ hne heq
    have hr2 : rowOfCoordinate [a2, d2] = a2 - 65 := rfl
    have hc2 : colOfCoordinate [a2, d2] = d2 - 48 - 1 := rfl
    rw [hr, hc, hr2, hc2] at heq
    apply hne
    have e1 : a2 = a := by omega
    have e2 : d2 = d := by omega
    rw [e1, e2]

/-- Witness of C22: `A1` is the cell of row 0 and column 0, `I9` the cell of row 8 and
column 8, and the two cells differ. -/
theorem coordinate_parsing_witness :
    MatchesCoordinate (lit "I9") ∧ rowOfCoordinate (lit "A1") = 0 ∧
      colOfCoordinate (lit "A1") = 0 ∧ rowOfCoordinate (lit "I9") = 8 ∧
      colOfCoordinate (lit "I9") = 8 ∧
      rowOfCoordinate (lit "I9") * 9 + colOfCoordinate (lit "I9") < 81 ∧
      rowOfCoordinate (lit "A1") * 9 + colOfCoordinate (lit "A1") ≠
        rowOfCoordinate (lit "I9") * 9 + colOfCoordinate (lit "I9") :=
  ⟨(regexCoordinate_iff (lit "I9")).1 (by decide), by decide, by decide, by decide, by decide,
    (coordinate_parsing (lit "I9") ((regexCoordinate_iff (lit "I9")).1 (by decide))).2.2.2.1,
    (coordinate_parsing (lit "I9") ((regexCoordinate_iff (lit "I9")).1 (by decide))).2.2.2.2
      (lit "A1") ((regexCoordinate_iff (lit "A1")).1 (by decide)) (by decide)⟩

theorem count_split (cells : List Nat) : (split cells).count (lit ".") = cells.count 46 := by
  rw [lit_dot]
  induction cells with
  | nil => rfl
  | cons c cs ih =>
    simp only [split, List.map_cons] at ih ⊢
    by_cases hc : c = 46
    · subst hc
      simp only [List.count_cons_self, ih]
    · have hne : ([c] : List Nat) ≠ [46] := by simpa using hc
      rw [List.count_cons_of_ne (Ne.symm hne), List.count_cons_of_ne (Ne.symm hc), ih]

theorem solve_total (input : Option JSString) :
    solve input = some .returnsFalse ∨ ∃ s, solve input = some (.returns s) := by
  by_cases hv : validate input = .valid
  · obtain ⟨g, rfl, hw⟩ := (validate_valid_iff input).1 hv
    exact solve_wellFormed_cases g hw
  · exact Or.inl (solve_of_not_valid input hv)

/-- C23. Termination of `solve`: for every input `solve` ends with a result, `false` or a
string. The recursive call of `solvePuzzle` is made on the array with one `.` replaced by
a digit, which has one empty cell fewer; so a recursion depth above the number of empty
cells is never reached (the bound `fuel` is not hit as soon as it exceeds that number),
and the array of an 81-character string has at most 81 empty cells. -/
theorem solve_terminates (input : Option JSString) :
    (solve input = some .returnsFalse ∨ ∃ s, solve input = some (.returns s)) ∧
    (∀ (puzzle : List JSString) (i num : Nat), puzzle[i]? = some (lit ".") →
      num ∈ [1, 2, 3, 4, 5, 6, 7, 8, 9] →
      (puzzle.set i (numToString num)).count (lit ".") + 1 = puzzle.count (lit ".")) ∧
    (∀ (s : JSString) (fuel : Nat), (split s).count (lit ".") < fuel →
      solvePuzzle fuel (split s) ≠ none) ∧
    (∀ s : JSString, s.length = 81 → (split s).count (lit ".") ≤ 81) := by
  refine ⟨solve_total input, ?_, ?_, ?_⟩
  · intro puzzle i num hi hnum
    obtain ⟨hl, hget⟩ := List.getElem?_eq_some.1 hi
    have hmem : lit "." ∈ puzzle := by
      rw [← hget]
      exact List.getElem_mem hl
    have hpos : 0 < puzzle.count (lit ".") := List.count_pos_iff.2 hmem
    have hne : numToString num ≠ lit "." := by
      rw [numToString_digit num hnum, lit_dot]
      simp only [List.mem_cons, List.mem_singleton, List.not_mem_nil, or_false] at hnum
      simp only [ne_eq, List.cons.injEq, and_true]
      omega
    rw [List.count_set _ _ _ _ hl]
    simp only [hget, beq_self_eq_true, if_true, beq_iff_eq, hne, if_false]
    omega
  · intro s fuel hlt
    rw [count_split] at hlt
    obtain ⟨k, rfl⟩ : ∃ k, fuel = k + 1 := ⟨fuel - 1, by omega⟩
    rw [solvePuzzle_split]
    have := searchCells_total k s (by omega)
    rcases hr : searchCells (k + 1) s with _ | r
    · exact absurd hr this
    · simp [liftSearch]
  · intro s hl
    rw [count_split]
    exact count_le_81 s hl

/-! ## In-range indexing -/

theorem rowLoopLog_fst (g : JSString) (row column : Nat) (value : JSString) :
    ∀ cols : List Nat, (rowLoopLog g row column value cols).1 =
      cols.all fun col =>
        !(decide (col ≠ column) && decide (charAt g (row * 9 + col) = some value))
  | [] => rfl
  | col :: rest => by
    have ih := rowLoopLog_fst g row column value rest
    simp only [rowLoopLog, List.all_cons]
    by_cases hc : col = column
    · simp [hc, ih]
    · by_cases hv : charAt g (row * 9 + col) = some value
      · simp [hc, hv]
      · simp [hc, hv, ih]

theorem colLoopLog_fst (g : JSString) (row column : Nat) (value : JSString) :
    ∀ rows : List Nat, (colLoopLog g row column value rows).1 =
      rows.all fun r =>
        !(decide (r ≠ row) && decide (charAt g (r * 9 + column) = some value))
  | [] => rfl
  | r :: rest => by
    have ih := colLoopLog_fst g row column value rest
    simp only [colLoopLog, List.all_cons]
    by_cases hr : r = row
    · simp [hr, ih]
    · by_cases hv : charAt g (r * 9 + column) = some value
      · simp [hr, hv]
      · simp [hr, hv, ih]

theorem regionInnerLog_fst (g : JSString) (row column : Nat) (value : JSString) (r : Nat) :
    ∀ cols : List Nat, (regionInnerLog g row column value r cols).1 =
      cols.all fun c =>
        !(decide (r ≠ row ∨ c ≠ column) && decide (charAt g (r * 9 + c) = some value))
  | [] => rfl
  | c :: rest => by
    have ih := regionInnerLog_fst g row column value r rest
    simp only [regionInnerLog, List.all_cons]
    by_cases hc : r ≠ row ∨ c ≠ column
    · by_cases hv : charAt g (r * 9 + c) = some value
      · simp [hc, hv]
      · simp [hc, hv, ih]
    · simp [hc, ih]

theorem regionOuterLog_fst (g : JSString) (row column : Nat) (value : JSString)
    (cols : List Nat) :
    ∀ rows : List Nat, (regionOuterLog g row column value cols rows).1 =
      rows.all fun r => cols.all fun c =>
        !(decide (r ≠ row ∨ c ≠ column) && decide (charAt g (r * 9 + c) = some value))
  | [] => rfl
  | r :: rest => by
    have ih := regionOuterLog_fst g row column value cols rest
    have hin := regionInnerLog_fst g row column value r cols
    simp only [regionOuterLog, List.all_cons]
    rw [← hin]
    rcases hb : (regionInnerLog g row column value r cols).1 with _ | _
    · simp
    · simp [ih]

theorem checkRowPlacementLog_fst (g : JSString) (row column : Nat) (value : JSString) :
    (checkRowPlacementLog g row column value).1 = checkRowPlacement g row column value :=
  rowLoopLog_fst g row column value (List.range 9)

theorem checkColPlacementLog_fst (g : JSString) (row column : Nat) (value : JSString) :
    (checkColPlacementLog g row column value).1 = checkColPlacement g row column value :=
  colLoopLog_fst g row column value (List.range 9)

theorem checkRegionPlacementLog_fst (g : JSString) (row column : Nat) (value : JSString) :
    (checkRegionPlacementLog g row column value).1 =
      checkRegionPlacement g row column value :=
  regionOuterLog_fst g row column value _ _

theorem checksLog_fst (i : Nat) (g : JSString) (row col : Nat) (value : JSString) :
    (checksLog i g row col value).1 =
      (checkRowPlacement g row col value && checkColPlacement g row col value &&
        checkRegionPlacement g row col value) := by
  rw [← checkRowPlacementLog_fst, ← checkColPlacementLog_fst, ← checkRegionPlacementLog_fst]
  simp only [checksLog]
  rcases h1 : (checkRowPlacementLog g row col value).1 with _ | _
  · simp
  · rcases h2 : (checkColPlacementLog g row col value).1 with _ | _
    · simp
    · simp

theorem tryNumbersLog_fst
    (recurLog : List JSString → Option ((Bool × List JSString) × List Call))
    (recur : List JSString → Option (Bool × List JSString))
    (hrecur : ∀ puzzle, (recurLog puzzle).map Prod.fst = recur puzzle) (i : Nat) :
    ∀ (nums : List Nat) (puzzle : List JSString),
      (tryNumbersLog recurLog i nums puzzle).map Prod.fst = tryNumbers recur i nums puzzle
  | [], puzzle => rfl
  | num :: rest, puzzle => by
    have ih := tryNumbersLog_fst recurLog recur hrecur i rest
    simp only [tryNumbersLog, tryNumbers, checksLog_fst]
    by_cases hc : (checkRowPlacement (join puzzle) (i / 9) (i % 9) (numToString num) &&
        checkColPlacement (join puzzle) (i / 9) (i % 9) (numToString num) &&
        checkRegionPlacement (join puzzle) (i / 9) (i % 9) (numToString num)) = true
    · simp only [hc, if_true]
      rw [← hrecur]
      rcases recurLog (puzzle.set i (numToString num)) with _ | ⟨⟨b, puzzle1⟩, calls⟩
      · rfl
      · rcases b with _ | _
        · simp only [Option.map_some', Option.map_map]
          rw [← ih]
          rfl
        · rfl
    · simp only [hc, Bool.false_eq_true, if_false, Option.map_map]
      rw [← ih]
      rfl

theorem solvePuzzleLog_fst : ∀ (fuel : Nat) (puzzle : List JSString),
    (solvePuzzleLog fuel puzzle).map Prod.fst = solvePuzzle fuel puzzle
  | 0, _ => rfl
  | fuel + 1, puzzle => by
    simp only [solvePuzzleLog, solvePuzzle]
    rcases (List.range 81).find? fun i => decide (puzzle[i]? = some (lit ".")) with _ | i
    · rfl
    · exact tryNumbersLog_fst _ _ (solvePuzzleLog_fst fuel) i _ puzzle

theorem initialCheckLog_fst : ∀ (idxs : List Nat) (puzzle : List JSString),
    (initialCheckLog idxs puzzle).1 = initialCheck idxs puzzle
  | [], _ => rfl
  | i :: rest, puzzle => by
    simp only [initialCheckLog, initialCheck, checksLog_fst]
    by_cases hd : puzzle[i]? = some (lit ".")
    · simp only [hd, ne_eq, not_true_eq_false, if_false]
      exact initialCheckLog_fst rest puzzle
    · simp only [hd, ne_eq, not_false_eq_true, if_true]
      rcases puzzle[i]? with _ | value
      · rfl
      · simp only
        rcases checkRowPlacement (join (puzzle.set i (lit "."))) (i / 9) (i % 9) value with
          _ | _
        · simp
        · rcases checkColPlacement (join (puzzle.set i (lit "."))) (i / 9) (i % 9) value with
            _ | _
          · simp
          · rcases checkRegionPlacement (join (puzzle.set i (lit "."))) (i / 9) (i % 9)
              value with _ | _
            · simp
            · simp [initialCheckLog_fst rest]

theorem solveLog_fst (input : Option JSString) :
    (solveLog input).map Prod.fst = solve input := by
  unfold solveLog solve
  rcases hv : validate input with _ | message
  · rcases input with _ | s
    · rfl
    · simp only
      rw [← initialCheckLog_fst]
      rcases initialCheckLog (List.range 81) (split s) with ⟨⟨o⟩ | ⟨puzzle⟩, calls⟩
      · rfl
      · simp only
        rw [← solvePuzzleLog_fst]
        rcases solvePuzzleLog 82 puzzle with _ | ⟨⟨b, puzzle1⟩, calls1⟩
        · rfl
        · rcases b with _ | _ <;> rfl
  · rfl

theorem rowLoopLog_result (g : JSString) (row column : Nat) (value : JSString) :
    ∀ cols : List Nat, (rowLoopLog g row column value cols).1 =
      (rowLoopLog g row column value cols).2.all fun read =>
        !decide (charAt g read.index = some value)
  | [] => rfl
  | col :: rest => by
    have ih := rowLoopLog_result g row column value rest
    simp only [rowLoopLog]
    split
    · split
      · rename_i hv
        simp only [List.all_cons, List.all_nil, Bool.and_true]
        simp [hv]
      · rename_i hv
        simp only [List.all_cons]
        simp [hv, ih]
    · exact ih

theorem colLoopLog_result (g : JSString) (row column : Nat) (value : JSString) :
    ∀ rows : List Nat, (colLoopLog g row column value rows).1 =
      (colLoopLog g row column value rows).2.all fun read =>
        !decide (charAt g read.index = some value)
  | [] => rfl
  | r :: rest => by
    have ih := colLoopLog_result g row column value rest
    simp only [colLoopLog]
    split
    · split
      · rename_i hv
        simp only [List.all_cons, List.all_nil, Bool.and_true]
        simp [hv]
      · rename_i hv
        simp only [List.all_cons]
        simp [hv, ih]
    · exact ih

theorem regionInnerLog_result (g : JSString) (row column : Nat) (value : JSString)
    (r : Nat) :
    ∀ cols : List Nat, (regionInnerLog g row column value r cols).1 =
      (regionInnerLog g row column value r cols).2.all fun read =>
        !decide (charAt g read.index = some value)
  | [] => rfl
  | c :: rest => by
    have ih := regionInnerLog_result g row column value r rest
    simp only [regionInnerLog]
    split
    · split
      · rename_i hv
        simp only [List.all_cons, List.all_nil, Bool.and_true]
        simp [hv]
      · rename_i hv
        simp only [List.all_cons]
        simp [hv, ih]
    · exact ih

theorem regionOuterLog_result (g : JSString) (row column : Nat) (value : JSString)
    (cols : List Nat) :
    ∀ rows : List Nat, (regionOuterLog g row column value cols rows).1 =
      (regionOuterLog g row column value cols rows).2.all fun read =>
        !decide (charAt g read.index = some value)
  | [] => rfl
  | r :: rest => by
    have ih := regionOuterLog_result g row column value cols rest
    have hin := regionInnerLog_result g row column value r cols
    simp only [regionOuterLog]
    split
    · rename_i hb
      rw [hin] at hb
      simp only [List.all_append, hb, Bool.true_and]
      exact ih
    · rename_i hb
      simp only [Bool.not_eq_true] at hb
      rw [← hin, hb]

theorem charAt_of_lt (g : JSString) (index : Nat) (h : index < g.length) :
    ∃ unit, charAt g index = some [unit] :=
  ⟨g[index], by simp only [charAt, List.getElem?_eq_getElem h, Option.map_some']⟩

theorem read_inRange (g : JSString) (r c : Nat) (hl : g.length = 81) (hr : r < 9)
    (hc : c < 9) : Read.InRange ⟨r, c, r * 9 + c, charAt g (r * 9 + c)⟩ :=
  ⟨hr, hc, rfl, by show r * 9 + c < 81; omega,
    charAt_of_lt g (r * 9 + c) (by rw [hl]; omega)⟩

theorem rowLoopLog_inRange (g : JSString) (row column : Nat) (value : JSString)
    (hl : g.length = 81) (hr : row < 9) :
    ∀ cols : List Nat, (∀ col ∈ cols, col < 9) →
      ∀ read ∈ (rowLoopLog g row column value cols).2, read.InRange
  | [], _ => by
    intro read h
    simp [rowLoopLog] at h
  | col :: rest, hcols => by
    have ih := rowLoopLog_inRange g row column value hl hr rest
      (fun c hc => hcols c (List.mem_cons_of_mem _ hc))
    have hread := read_inRange g row col hl hr (hcols col (List.mem_cons_self _ _))
    intro read hmem
    simp only [rowLoopLog] at hmem
    split at hmem
    · split at hmem
      · rw [List.mem_singleton] at hmem
        rw [hmem]
        exact hread
      · rcases List.mem_cons.1 hmem with h | h
        · rw [h]
          exact hread
        · exact ih read h
    · exact ih read hmem

theorem colLoopLog_inRange (g : JSString) (row column : Nat) (value : JSString)
    (hl : g.length = 81) (hc : column < 9) :
    ∀ rows : List Nat, (∀ r ∈ rows, r < 9) →
      ∀ read ∈ (colLoopLog g row column value rows).2, read.InRange
  | [], _ => by
    intro read h
    simp [colLoopLog] at h
  | r :: rest, hrows => by
    have ih := colLoopLog_inRange g row column value hl hc rest
      (fun x hx => hrows x (List.mem_cons_of_mem _ hx))
    have hread := read_inRange g r column hl (hrows r (List.mem_cons_self _ _)) hc
    intro read hmem
    simp only [colLoopLog] at hmem
    split at hmem
    · split at hmem
      · rw [List.mem_singleton] at hmem
        rw [hmem]
        exact hread
      · rcases List.mem_cons.1 hmem with h | h
        · rw [h]
          exact hread
        · exact ih read h
    · exact ih read hmem

theorem regionInnerLog_inRange (g : JSString) (row column : Nat) (value : JSString)
    (r : Nat) (hl : g.length = 81) (hr : r < 9) :
    ∀ cols : List Nat, (∀ c ∈ cols, c < 9) →
      ∀ read ∈ (regionInnerLog g row column value r cols).2, read.InRange
  | [], _ => by
    intro read h
    simp [regionInnerLog] at h
  | c :: rest, hcols => by
    have ih := regionInnerLog_inRange g row column value r hl hr rest
      (fun x hx => hcols x (List.mem_cons_of_mem _ hx))
    have hread := read_inRange g r c hl hr (hcols c (List.mem_cons_self _ _))
    intro read hmem
    simp only [regionInnerLog] at hmem
    split at hmem
    · split at hmem
      · rw [List.mem_singleton] at hmem
        rw [hmem]
        exact hread
      · rcases List.mem_cons.1 hmem with h | h
        · rw [h]
          exact hread
        · exact ih read h
    · exact ih read hmem

theorem regionOuterLog_inRange (g : JSString) (row column : Nat) (value : JSString)
    (cols : List Nat) (hl : g.length = 81) (hcols : ∀ c ∈ cols, c < 9) :
    ∀ rows : List Nat, (∀ r ∈ rows, r < 9) →
      ∀ read ∈ (regionOuterLog g row column value cols rows).2, read.InRange
  | [], _ => by
    intro read h
    simp [regionOuterLog] at h
  | r :: rest, hrows => by
    have ih := regionOuterLog_inRange g row column value cols hl hcols rest
      (fun x hx => hrows x (List.mem_cons_of_mem _ hx))
    have hin := regionInnerLog_inRange g row column value r hl
      (hrows r (List.mem_cons_self _ _)) cols hcols
    intro read hmem
    simp only [regionOuterLog] at hmem
    split at hmem
    · rcases List.mem_append.1 hmem with h | h
      · exact hin read h
      · exact ih read h
    · exact hin read hmem

theorem checkRowPlacementLog_inRange (g : JSString) (row column : Nat) (value : JSString)
    (hl : g.length = 81) (hr : row < 9) :
    ∀ read ∈ (checkRowPlacementLog g row column value).2, read.InRange :=
  rowLoopLog_inRange g row column value hl hr (List.range 9)
    (fun _ h => List.mem_range.1 h)

theorem checkColPlacementLog_inRange (g : JSString) (row column : Nat) (value : JSString)
    (hl : g.length = 81) (hc : column < 9) :
    ∀ read ∈ (checkColPlacementLog g row column value).2, read.InRange :=
  colLoopLog_inRange g row column value hl hc (List.range 9)
    (fun _ h => List.mem_range.1 h)

theorem checkRegionPlacementLog_inRange (g : JSString) (row column : Nat)
    (value : JSString) (hl : g.length = 81) (hr : row < 9) (hc : column < 9) :
    ∀ read ∈ (checkRegionPlacementLog g row column value).2, read.InRange :=
  regionOuterLog_inRange g row column value _ hl
    (fun c h => by
      simp only [List.mem_range'_1] at h
      omega)
    _
    (fun r h => by
      simp only [List.mem_range'_1] at h
      omega)

theorem checksLog_inRange (i : Nat) (g : JSString) (value : JSString) (hl : g.length = 81)
    (hi : i < 81) : ∀ call ∈ (checksLog i g (i / 9) (i % 9) value).2, call.InRange := by
  have hr : i / 9 < 9 := by omega
  have hc : i % 9 < 9 := by omega
  have hcall : ∀ reads : List Read, (∀ read ∈ reads, read.InRange) →
      Call.InRange ⟨i, g, i / 9, i % 9, reads⟩ := fun reads h =>
    ⟨hl, hi, rfl, rfl, hr, hc, by show i / 9 * 9 + i % 9 = i; omega, h⟩
  have h1 := hcall _ (checkRowPlacementLog_inRange g (i / 9) (i % 9) value hl hr)
  have h2 := hcall _ (checkColPlacementLog_inRange g (i / 9) (i % 9) value hl hc)
  have h3 := hcall _ (checkRegionPlacementLog_inRange g (i / 9) (i % 9) value hl hr hc)
  intro call hmem
  simp only [checksLog] at hmem
  split at hmem
  · split at hmem
    · simp only [List.mem_cons, List.mem_singleton, List.not_mem_nil, or_false] at hmem
      rcases hmem with h | h | h <;> rw [h] <;> assumption
    · simp only [List.mem_cons, List.mem_singleton, List.not_mem_nil, or_false] at hmem
      rcases hmem with h | h <;> rw [h] <;> assumption
  · simp only [List.mem_singleton] at hmem
    rw [hmem]
    exact h1

theorem tryNumbersLog_inRange
    (recurLog : List JSString → Option ((Bool × List JSString) × List Call)) (i : Nat)
    (hi : i < 81)
    (hrecur : ∀ cells : List Nat, cells.length = 81 → ∀ r calls,
      recurLog (split cells) = some (r, calls) →
      (∃ cells1 : List Nat, r.2 = split cells1 ∧ cells1.length = 81) ∧
        ∀ call ∈ calls, call.InRange) :
    ∀ nums : List Nat, (∀ num ∈ nums, num ∈ [1, 2, 3, 4, 5, 6, 7, 8, 9]) →
      ∀ cells : List Nat, cells.length = 81 → ∀ r calls,
      tryNumbersLog recurLog i nums (split cells) = some (r, calls) →
      (∃ cells1 : List Nat, r.2 = split cells1 ∧ cells1.length = 81) ∧
        ∀ call ∈ calls, call.InRange
  | [], _ => by
    intro cells hl r calls h
    simp only [tryNumbersLog, Option.some.injEq, Prod.mk.injEq] at h
    obtain ⟨rfl, rfl⟩ := h
    exact ⟨⟨cells, rfl, hl⟩, fun call hc => absurd hc (List.not_mem_nil call)⟩
  | num :: rest, hnums => by
    have ih := tryNumbersLog_inRange recurLog i hi hrecur rest
      (fun n hn => hnums n (List.mem_cons_of_mem _ hn))
    have hnum := numToString_digit num (hnums num (List.mem_cons_self _ _))
    intro cells hl r calls h
    have hchecks := checksLog_inRange i (join (split cells)) (numToString num)
      (by rw [join_split]; exact hl) hi
    simp only [tryNumbersLog] at h
    split at h
    · rw [hnum, split_set] at h
      rw [hnum] at hchecks
      have hrec := hrecur (cells.set i (48 + num)) (by rw [List.length_set]; exact hl)
      rcases hr : recurLog (split (cells.set i (48 + num))) with _ | ⟨⟨b, puzzle1⟩, calls1⟩
      · rw [hr] at h
        cases h
      · obtain ⟨⟨cells1, hp1, hl1⟩, hcalls1⟩ := hrec _ _ hr
        rw [hr] at h
        rcases b with _ | _
        · simp only [Option.map_eq_some'] at h
          obtain ⟨after, hafter, heq⟩ := h
          simp only at hp1
          rw [hp1, lit_dot, split_set] at hafter
          obtain ⟨hinv, hcalls⟩ := ih (cells1.set i 46) (by rw [List.length_set]; exact hl1)
            after.1 after.2 hafter
          simp only [Prod.mk.injEq] at heq
          obtain ⟨rfl, rfl⟩ := heq
          refine ⟨hinv, ?_⟩
          intro call hmem
          rcases List.mem_append.1 hmem with h1 | h1
          · rcases List.mem_append.1 h1 with h2 | h2
            · exact hchecks call h2
            · exact hcalls1 call h2
          · exact hcalls call h1
        · simp only [Option.some.injEq, Prod.mk.injEq] at h
          obtain ⟨rfl, rfl⟩ := h
          refine ⟨⟨cells1, hp1, hl1⟩, ?_⟩
          intro call hmem
          rcases List.mem_append.1 hmem with h1 | h1
          · exact hchecks call h1
          · exact hcalls1 call h1
    · simp only [Option.map_eq_some'] at h
      obtain ⟨after, hafter, heq⟩ := h
      obtain ⟨hinv, hcalls⟩ := ih cells hl after.1 after.2 hafter
      simp only [Prod.mk.injEq] at heq
      obtain ⟨rfl, rfl⟩ := heq
      refine ⟨hinv, ?_⟩
      intro call hmem
      rcases List.mem_append.1 hmem with h1 | h1
      · exact hchecks call h1
      · exact hcalls call h1

theorem solvePuzzleLog_inRange : ∀ (fuel : Nat) (cells : List Nat), cells.length = 81 →
    ∀ r calls, solvePuzzleLog fuel (split cells) = some (r, calls) →
    (∃ cells1 : List Nat, r.2 = split cells1 ∧ cells1.length = 81) ∧
      ∀ call ∈ calls, call.InRange
  | 0, _, _ => by
    intro r calls h
    simp [solvePuzzleLog] at h
  | fuel + 1, cells, hl => by
    intro r calls h
    simp only [solvePuzzleLog] at h
    split at h
    · rename_i i hfind
      rw [List.find?_range_eq_some] at hfind
      exact tryNumbersLog_inRange (solvePuzzleLog fuel) i (List.mem_range.1 hfind.2.1)
        (solvePuzzleLog_inRange fuel) _ (fun _ h => h) cells hl r calls h
    · simp only [Option.some.injEq, Prod.mk.injEq] at h
      obtain ⟨rfl, rfl⟩ := h
      exact ⟨⟨cells, rfl, hl⟩, fun call hc => absurd hc (List.not_mem_nil call)⟩

theorem initialCheckLog_inRange : ∀ idxs : List Nat, (∀ i ∈ idxs, i < 81) →
    ∀ cells : List Nat, cells.length = 81 →
    (∀ puzzle, (initialCheckLog idxs (split cells)).1 = .ok puzzle →
      ∃ cells1 : List Nat, puzzle = split cells1 ∧ cells1.length = 81) ∧
      ∀ call ∈ (initialCheckLog idxs (split cells)).2, call.InRange
  | [], _ => by
    intro cells hl
    refine ⟨?_, fun call hc => absurd hc (List.not_mem_nil call)⟩
    intro puzzle h
    simp only [initialCheckLog, Except.ok.injEq] at h
    exact ⟨cells, h.symm, hl⟩
  | i :: rest, hidxs => by
    have ih := initialCheckLog_inRange rest (fun j hj => hidxs j (List.mem_cons_of_mem _ hj))
    have hi : i < 81 := hidxs i (List.mem_cons_self _ _)
    intro cells hl
    simp only [initialCheckLog]
    split
    · rcases hget : cells[i]? with _ | v
      · have hlt : i < cells.length := by omega
        rw [List.getElem?_eq_getElem hlt] at hget
        cases hget
      · have hsplit : (split cells)[i]? = some [v] := (split_getElem? cells i v).2 hget
        simp only [hsplit]
        rw [lit_dot, split_set]
        have hchecks := checksLog_inRange i (join (split (cells.set i 46))) [v]
          (by rw [join_split, List.length_set]; exact hl) hi
        split
        · refine ⟨?_, hchecks⟩
          intro puzzle h
          cases h
        · rw [split_set]
          obtain ⟨hinv, hcalls⟩ := ih ((cells.set i 46).set i v)
            (by rw [List.length_set, List.length_set]; exact hl)
          refine ⟨hinv, ?_⟩
          intro call hmem
          rcases List.mem_append.1 hmem with h1 | h1
          · exact hchecks call h1
          · exact hcalls call h1
    · exact ih cells hl

theorem solveLog_inRange (input : Option JSString) (outcome : Outcome) (calls : List Call)
    (h : solveLog input = some (outcome, calls)) : ∀ call ∈ calls, call.InRange := by
  unfold solveLog at h
  rcases hv : validate input with _ | message
  · obtain ⟨g, rfl, hw⟩ := (validate_valid_iff input).1 hv
    rw [hv] at h
    simp only at h
    obtain ⟨hinv, hcalls⟩ := initialCheckLog_inRange (List.range 81)
      (fun _ h => List.mem_range.1 h) g hw.1
    rcases hinit : initialCheckLog (List.range 81) (split g) with ⟨⟨o⟩ | ⟨puzzle⟩, calls0⟩
    · rw [hinit] at h hcalls
      simp only [Option.some.injEq, Prod.mk.injEq] at h
      obtain ⟨_, rfl⟩ := h
      exact hcalls
    · rw [hinit] at h hcalls hinv
      obtain ⟨cells1, rfl, hl1⟩ := hinv puzzle rfl
      simp only at h
      rcases hs : solvePuzzleLog 82 (split cells1) with _ | ⟨⟨b, puzzle1⟩, calls1⟩
      · rw [hs] at h
        cases h
      · rw [hs] at h
        obtain ⟨_, hcalls1⟩ := solvePuzzleLog_inRange 82 cells1 hl1 _ _ hs
        have hcs : calls = calls0 ++ calls1 := by
          rcases b with _ | _
          · simp only [Option.some.injEq, Prod.mk.injEq] at h
            exact h.2.symm
          · simp only [Option.some.injEq, Prod.mk.injEq] at h
            exact h.2.symm
        rw [hcs]
        intro call hmem
        rcases List.mem_append.1 hmem with h1 | h1
        · exact hcalls call h1
        · exact hcalls1 call h1
  · rw [hv] at h
    simp only [Option.some.injEq, Prod.mk.injEq] at h
    obtain ⟨_, rfl⟩ := h
    exact fun call hc => absurd hc (List.not_mem_nil call)

/-- C24. In-range indexing. The checkers and `solve` are run with their reads of
`puzzleString` and the calls of the checkers recorded; they return what
`checkRowPlacement`, `checkColPlacement`, `checkRegionPlacement` and `solve` return, and
the result of a checker is computed from the characters at the recorded indices. On an
81-character grid, for `row` and `column` in 0..8, every read of the three checkers is at a
row and a column in 0..8 (so the region scan stays inside rows and columns 0..8) and at an
index in 0..80, where the grid has a character. For every input `solve` ends, and every
call of a checker that it made was on an 81-character string, at a cell index `i` in
0..80, with `row = i div 9` and `col = i mod 9`, both in 0..8 and with `row*9 + col = i`,
and all the reads of the call were in range; an index `i` in 0..80 always decomposes in
that way. -/
theorem checkers_read_in_range (g : JSString) (row column : Nat) (value : JSString)
    (hl : g.length = 81) (hr : row < 9) (hc : column < 9) :
    ((checkRowPlacementLog g row column value).1 = checkRowPlacement g row column value ∧
      (checkColPlacementLog g row column value).1 = checkColPlacement g row column value ∧
      (checkRegionPlacementLog g row column value).1 =
        checkRegionPlacement g row column value) ∧
    (checkRowPlacement g row column value =
        ((checkRowPlacementLog g row column value).2.all fun read =>
          !decide (charAt g read.index = some value)) ∧
      checkColPlacement g row column value =
        ((checkColPlacementLog g row column value).2.all fun read =>
          !decide (charAt g read.index = some value)) ∧
      checkRegionPlacement g row column value =
        ((checkRegionPlacementLog g row column value).2.all fun read =>
          !decide (charAt g read.index = some value))) ∧
    (∀ read ∈ (checkRowPlacementLog g row column value).2 ++
        (checkColPlacementLog g row column value).2 ++
        (checkRegionPlacementLog g row column value).2,
      read.r < 9 ∧ read.c < 9 ∧ read.index = read.r * 9 + read.c ∧ read.index < 81 ∧
        ∃ unit, read.result = some [unit]) ∧
    (∀ input : Option JSString,
      (solveLog input).map Prod.fst = solve input ∧
      ∃ outcome calls, solveLog input = some (outcome, calls) ∧
        ∀ call ∈ calls,
          call.puzzleString.length = 81 ∧ call.i < 81 ∧ call.row = call.i / 9 ∧
          call.column = call.i % 9 ∧ call.row < 9 ∧ call.column < 9 ∧
          call.row * 9 + call.column = call.i ∧
          ∀ read ∈ call.reads,
            read.r < 9 ∧ read.c < 9 ∧ read.index = read.r * 9 + read.c ∧ read.index < 81 ∧
              ∃ unit, read.result = some [unit]) ∧
    (∀ i, i < 81 → i / 9 < 9 ∧ i % 9 < 9 ∧ i / 9 * 9 + i % 9 = i) := by
  refine ⟨⟨checkRowPlacementLog_fst g row column value,
    checkColPlacementLog_fst g row column value,
    checkRegionPlacementLog_fst g row column value⟩,
    ⟨(checkRowPlacementLog_fst g row column value).symm.trans
        (rowLoopLog_result g row column value _),
      (checkColPlacementLog_fst g row column value).symm.trans
        (colLoopLog_result g row column value _),
      (checkRegionPlacementLog_fst g row column value).symm.trans
        (regionOuterLog_result g row column value _ _)⟩, ?_, ?_, ?_⟩
  · intro read hmem
    rcases List.mem_append.1 hmem with h | h
    · rcases List.mem_append.1 h with h1 | h1
      · exact checkRowPlacementLog_inRange g row column value hl hr read h1
      · exact checkColPlacementLog_inRange g row column value hl hc read h1
    · exact checkRegionPlacementLog_inRange g row column value hl hr hc read h
  · intro input
    have hfst := solveLog_fst input
    refine ⟨hfst, ?_⟩
    rcases hs : solveLog input with _ | ⟨outcome, calls⟩
    · rw [hs] at hfst
      rcases solve_total input with h | ⟨s, h⟩
      · rw [h] at hfst
        cases hfst
      · rw [h] at hfst
        cases hfst
    · exact ⟨outcome, calls, rfl, solveLog_inRange input outcome calls hs⟩
  · intro i h
    omega

/-- Witness of C24: on `validPuzzle`, row 0, column 1, the row checker called with `1`
reads index 0 and returns there, and called with `3` reads the 8 other cells of the row;
the region checker at the last cell reads indices 60..78. A puzzle with `1` in its first
two cells: `solve` returns `false` after one call of the row checker, on the string with
the first cell emptied, which read index 1. -/
theorem checkers_read_in_range_witness :
    checkRowPlacementLog validPuzzle 0 1 (lit "1") = (false, [⟨0, 0, 0, some (lit "1")⟩]) ∧
      (checkRowPlacementLog validPuzzle 0 1 (lit "3")).2.map Read.index =
        [0, 2, 3, 4, 5, 6, 7, 8] ∧
      (checkRegionPlacementLog validPuzzle 8 8 (lit "3")).2.map Read.index =
        [60, 61, 62, 69, 70, 71, 78] ∧
      solveLog (some (lit "11" ++ List.replicate 79 46)) =
        some (.returnsFalse,
          [⟨0, lit ".1" ++ List.replicate 79 46, 0, 0, [⟨0, 1, 1, some (lit "1")⟩]⟩]) ∧
      (∀ read ∈ (checkRowPlacementLog validPuzzle 0 1 (lit "1")).2 ++
          (checkColPlacementLog validPuzzle 0 1 (lit "1")).2 ++
          (checkRegionPlacementLog validPuzzle 0 1 (lit "1")).2,
        read.r < 9 ∧ read.c < 9 ∧ read.index = read.r * 9 + read.c ∧ read.index < 81 ∧
          ∃ unit, read.result = some [unit]) ∧
      (solveLog (some validPuzzle)).map Prod.fst = solve (some validPuzzle) :=
  ⟨by decide, by decide, by decide, by decide!,
    (checkers_read_in_range validPuzzle 0 1 (lit "1") (by decide) (by decide)
      (by decide)).2.2.1,
    ((checkers_read_in_range validPuzzle 0 1 (lit "1") (by decide) (by decide)
      (by decide)).2.2.2.1 (some validPuzzle)).1⟩

end Sudoku
